import Mathlib

/-!
# Simple ASCII OBJ viewer: rasteriser, depth buffer and texture sampler

Shallow embedding of `math.hpp`, `texture.hpp`, `obj_parser.hpp` (data model and
`Mesh::load` on tokenised lines) and `renderer.hpp`.

Modelling conventions.

* `double` is modelled by exact arithmetic in a linearly ordered field `K` with a floor
  function (`ℚ` for evaluation, `ℝ` where a square root is needed).  NaN and infinities
  are outside the model.
* `std::sqrt` is a parameter `sqrt : K → K` of every function that (transitively) calls
  `Vec3::length`.  No exactness of `sqrt` is assumed unless a theorem says so; the
  examples `sqrtNearParallel` and `sqrtAt76` instantiate it with the binary64 values that
  `std::sqrt` returns.
* Rounding enters where a statement depends on it: `Mat4.perspectiveRnd` and
  `Mat4.transformPointRnd` pass every arithmetic result through a parameter `rnd`, and
  a `double` that a rounded operation returns is written as its exact rational value
  (`doubleFifthPlusOne`, `rndNearPlane`).
* `int` is `Int`; `static_cast<int>` of a double is truncation toward zero, `%` is the
  truncating remainder `Int.tmod`.  `rasterizeTriangle` and `render` take the four
  conversions of the bounding box to be exact; `rasterizeTriangle32` and `render32` apply
  the 32-bit conversion `toInt32` to them and agree with the former when the values are
  in the range of `int` (`render32_eq_render`).
* `Mesh.load` works on lines whose face tokens are already converted; `Mesh.loadText`
  starts from the raw face tokens and converts them with `std::stoi`, which can throw.
* `std::vector` is `List`.  `operator[]` on the mesh arrays is a partial lookup
  (`lookup`), so `render` returns `none` when a triangle refers to a missing vertex or
  normal.  Inside `rasterizeTriangle` and `Texture::sample` the element reads are
  `List.getD` and the writes `List.set`; for a renderer whose buffers have
  `width * height` entries every such access is in range.
-/

namespace ObjViewer

variable {K : Type} [LinearOrderedField K] [FloorRing K]

/-! ## math.hpp -/

/-- Vec3: three components. -/
structure Vec3 (K : Type) where
  x : K
  y : K
  z : K

namespace Vec3

/-- The default constructor `Vec3()`. -/
def zero : Vec3 K := ⟨0, 0, 0⟩

/-- The source `operator+`. -/
def add (a v : Vec3 K) : Vec3 K := ⟨a.x + v.x, a.y + v.y, a.z + v.z⟩

/-- The source `operator-`. -/
def sub (a v : Vec3 K) : Vec3 K := ⟨a.x - v.x, a.y - v.y, a.z - v.z⟩

/-- The source `operator*` (scale by `s`). -/
def mul (a : Vec3 K) (s : K) : Vec3 K := ⟨a.x * s, a.y * s, a.z * s⟩

/-- The source `operator/` (divide by `s`). -/
def div (a : Vec3 K) (s : K) : Vec3 K := ⟨a.x / s, a.y / s, a.z / s⟩

/-- Dot product. -/
def dot (a v : Vec3 K) : K := a.x * v.x + a.y * v.y + a.z * v.z

/-- Cross product. -/
def cross (a v : Vec3 K) : Vec3 K :=
  ⟨a.y * v.z - a.z * v.y, a.z * v.x - a.x * v.z, a.x * v.y - a.y * v.x⟩

/-- Euclidean length, `std::sqrt(x*x + y*y + z*z)`. -/
def length (sqrt : K → K) (a : Vec3 K) : K := sqrt (a.x * a.x + a.y * a.y + a.z * a.z)

/-- Normalisation with the `1e-10` guard. -/
def normalized (sqrt : K → K) (a : Vec3 K) : Vec3 K :=
  let len := a.length sqrt
  if len > 1e-10 then a.div len else ⟨0, 0, 0⟩

end Vec3

/-- Mat4: sixteen entries `m[0..15]`, column-major. -/
structure Mat4 (K : Type) where
  m : Fin 16 → K

namespace Mat4

/-- The default constructor `Mat4()`, which is the identity. -/
def identity : Mat4 K :=
  ⟨fun i => if i = 0 ∨ i = 5 ∨ i = 10 ∨ i = 15 then 1 else 0⟩

/-- Full 4x4 transform with the homogeneous divide; `w` is replaced by `1e-10` when
its magnitude is below `1e-10`. -/
def transformPoint (M : Mat4 K) (p : Vec3 K) : Vec3 K :=
  let w0 := M.m 3 * p.x + M.m 7 * p.y + M.m 11 * p.z + M.m 15
  let w := if |w0| < 1e-10 then 1e-10 else w0
  ⟨(M.m 0 * p.x + M.m 4 * p.y + M.m 8 * p.z + M.m 12) / w,
   (M.m 1 * p.x + M.m 5 * p.y + M.m 9 * p.z + M.m 13) / w,
   (M.m 2 * p.x + M.m 6 * p.y + M.m 10 * p.z + M.m 14) / w⟩

end Mat4

/-! ## texture.hpp -/

/-- The conversion `static_cast<int>(a)` of a double: truncation toward zero. -/
def trunc (a : K) : Int := if 0 ≤ a then ⌊a⌋ else ⌈a⌉

/-- The C library `fmod`: `x` minus the truncated quotient times `y`. -/
def fmod (x y : K) : K := x - (trunc (x / y) : K) * y

/-- Texture: decoded RGB bytes plus the dimensions. -/
structure Texture where
  data : List (Fin 256)
  width : Int
  height : Int
  channels : Int

namespace Texture

/-- The state of a default-constructed texture: no data, all dimensions zero. -/
def empty : Texture := ⟨[], 0, 0, 0⟩

/-- The read `data[i]` for an `int` index. -/
def byteAt (t : Texture) (i : Int) : Fin 256 :=
  if 0 ≤ i then t.data.getD i.toNat 0 else 0

/-- First wrapping step of `sample`: `fmod(u, 1.0)` followed by `if (u < 0) u += 1.0`. -/
def wrap (u : K) : K :=
  let u1 := fmod u 1.0
  if u1 < 0 then u1 + 1.0 else u1

/-- The texel column or row computed by `sample` from a wrapped (and, for rows,
flipped) coordinate `c` and the extent `n`:
`int x = static_cast<int>(c * n) % n; if (x < 0) x += n;`. -/
def texel (c : K) (n : Int) : Int :=
  let x := Int.tmod (trunc (c * (n : K))) n
  if x < 0 then x + n else x

/-- The texel column selected by `sample` for `u`. -/
def column (t : Texture) (u : K) : Int := texel (wrap u) t.width

/-- The texel row selected by `sample` for `v` (after the flip `v = 1.0 - v`). -/
def row (t : Texture) (v : K) : Int := texel (1.0 - wrap v) t.height

/-- The source `Texture::sample`; the three results `r`, `g`, `b` are returned as a triple. -/
def sample (t : Texture) (u v : K) : K × K × K :=
  if t.data.isEmpty then (0.5, 0.5, 0.5)
  else
    let x := t.column u
    let y := t.row v
    let idx := (y * t.width + x) * 3
    (((t.byteAt idx).val : K) / 255.0,
     ((t.byteAt (idx + 1)).val : K) / 255.0,
     ((t.byteAt (idx + 2)).val : K) / 255.0)

end Texture

/-! ## obj_parser.hpp: the mesh data model -/

/-- Vec2: a texture coordinate. -/
structure Vec2 (K : Type) where
  u : K
  v : K

/-- Triangle: vertex, normal and texture-coordinate indices (`-1` means absent). -/
structure Triangle where
  v0 : Int
  v1 : Int
  v2 : Int
  n0 : Int
  n1 : Int
  n2 : Int
  t0 : Int
  t1 : Int
  t2 : Int

/-- Mesh: the arrays filled by the loader and the texture. -/
structure Mesh (K : Type) where
  vertices : List (Vec3 K)
  normals : List (Vec3 K)
  texCoords : List (Vec2 K)
  triangles : List Triangle
  texture : Texture

/-- The element access `xs[i]` with an `int` index; `none` when `i` is out of range. -/
def lookup {α : Type} (xs : List α) (i : Int) : Option α :=
  if 0 ≤ i then xs[i.toNat]? else none

/-! ## renderer.hpp -/

/-- The value `std::numeric_limits<double>::max()`, that is `(2 - 2^(-52)) * 2^1023`. -/
def DBL_MAX : K := 2 ^ 1024 - 2 ^ 971

/-- Pixel: colour, grey intensity, depth and the colour flag. -/
structure Pixel (K : Type) where
  r : K
  g : K
  b : K
  intensity : K
  depth : K
  hasColor : Bool

/-- The default constructor `Pixel()`: black, depth at the sentinel, no colour. -/
def Pixel.default : Pixel K := ⟨0, 0, 0, 0, DBL_MAX, false⟩

/-- Renderer: the dimensions, both buffers, the light and the combined transform. -/
structure Renderer (K : Type) where
  width : Int
  height : Int
  framebuffer : List (Pixel K)
  zBuffer : List K
  lightDir : Vec3 K
  viewProj : Mat4 K

/-- The source `Renderer::insideTriangle`.  The reference parameters `w0, w1, w2` come in as
the triple `w` and go out as the second component: they are left untouched when the
denominator is below `1e-10` in magnitude. -/
def insideTriangle (x y x0 y0 x1 y1 x2 y2 : K) (w : K × K × K) : Bool × (K × K × K) :=
  let denom := (x1 - x0) * (y2 - y0) - (x2 - x0) * (y1 - y0)
  if |denom| < 1e-10 then (false, w)
  else
    let w1 := ((x - x0) * (y2 - y0) - (x2 - x0) * (y - y0)) / denom
    let w2 := ((x1 - x0) * (y - y0) - (x - x0) * (y1 - y0)) / denom
    let w0 := 1.0 - w1 - w2
    (decide (w0 ≥ 0 ∧ w1 ≥ 0 ∧ w2 ≥ 0), (w0, w1, w2))

/-- The list `lo, lo+1, ..., hi` visited by `for (int i = lo; i <= hi; i++)`. -/
def intRange (lo hi : Int) : List Int :=
  (List.range (hi + 1 - lo).toNat).map (fun (i : Nat) => lo + (i : Int))

/-- What the loops of `rasterizeTriangle` need of one triangle once it has passed the
culling test: the projected vertices, the flat shade, the texture coordinates and the
texture pointer. -/
structure Fragment (K : Type) where
  sp0 : Vec3 K
  sp1 : Vec3 K
  sp2 : Vec3 K
  shade : K
  u0 : K
  v0 : K
  u1 : K
  v1 : K
  u2 : K
  v2 : K
  tex : Option Texture

/-- The pixel written by the body of the inner loop over an old pixel `old`, for
barycentric weights `w0 w1 w2` and interpolated depth `z`. -/
def Fragment.written (f : Fragment K) (w0 w1 w2 z : K) (old : Pixel K) : Pixel K :=
  let p := { old with depth := z, intensity := f.shade }
  match f.tex with
  | some tex =>
    if tex.width > 0 then
      let u := w0 * f.u0 + w1 * f.u1 + w2 * f.u2
      let v := w0 * f.v0 + w1 * f.v1 + w2 * f.v2
      let c := tex.sample u v
      { p with r := c.1 * f.shade, g := c.2.1 * f.shade, b := c.2.2 * f.shade,
               hasColor := true }
    else { p with hasColor := false }
  | none => { p with hasColor := false }

namespace Renderer

/-- The source `Renderer::clear`. -/
def clear (r : Renderer K) : Renderer K :=
  { r with framebuffer := r.framebuffer.map (fun _ => Pixel.default),
           zBuffer := r.zBuffer.map (fun _ => DBL_MAX) }

/-- The body of the inner loop of `rasterizeTriangle` at pixel `(x, y)`. -/
def shadePixel (r : Renderer K) (f : Fragment K) (y x : Int) : Renderer K :=
  let px := ((x : K) + 0.5) / (r.width : K) * 2.0 - 1.0
  let py := 1.0 - ((y : K) + 0.5) / (r.height : K) * 2.0
  match insideTriangle px py f.sp0.x f.sp0.y f.sp1.x f.sp1.y f.sp2.x f.sp2.y (0, 0, 0) with
  | (false, _) => r
  | (true, w0, w1, w2) =>
    let z := w0 * f.sp0.z + w1 * f.sp1.z + w2 * f.sp2.z
    let idx := (y * r.width + x).toNat
    if z < r.zBuffer.getD idx 0 then
      { r with zBuffer := r.zBuffer.set idx z,
               framebuffer :=
                 r.framebuffer.set idx (f.written w0 w1 w2 z (r.framebuffer.getD idx Pixel.default)) }
    else r

/-- The source `Renderer::rasterizeTriangle`, the four `static_cast<int>` of the bounding
box being taken as exact (`rasterizeTriangle32` applies the 32-bit conversion).  The
vertex normals `n0 n1 n2` are accepted and never read, as in the source. -/
def rasterizeTriangle (sqrt : K → K) (r : Renderer K) (p0 p1 p2 : Vec3 K)
    (_n0 _n1 _n2 : Vec3 K) (u0 v0 u1 v1 u2 v2 : K) (tex : Option Texture) : Renderer K :=
  let sp0 := r.viewProj.transformPoint p0
  let sp1 := r.viewProj.transformPoint p1
  let sp2 := r.viewProj.transformPoint p2
  let cross := (sp1.x - sp0.x) * (sp2.y - sp0.y) - (sp2.x - sp0.x) * (sp1.y - sp0.y)
  if cross ≤ 0 then r
  else
    let faceNormal := ((p1.sub p0).cross (p2.sub p0)).normalized sqrt
    let shade0 := max 0.0 (faceNormal.dot r.lightDir)
    let shade := 0.3 + 0.7 * shade0
    let minX : Int := max 0 ⌊(min sp0.x (min sp1.x sp2.x) + 1.0) * 0.5 * (r.width : K)⌋
    let maxX : Int := min (r.width - 1) ⌈(max sp0.x (max sp1.x sp2.x) + 1.0) * 0.5 * (r.width : K)⌉
    let minY : Int := max 0 ⌊(1.0 - max sp0.y (max sp1.y sp2.y)) * 0.5 * (r.height : K)⌋
    let maxY : Int := min (r.height - 1) ⌈(1.0 - min sp0.y (min sp1.y sp2.y)) * 0.5 * (r.height : K)⌉
    let f : Fragment K := ⟨sp0, sp1, sp2, shade, u0, v0, u1, v1, u2, v2, tex⟩
    (intRange minY maxY).foldl
      (fun acc y => (intRange minX maxX).foldl (fun acc2 x => acc2.shadePixel f y x) acc) r

/-- The arguments `render` passes to `rasterizeTriangle` for one triangle. -/
structure Call (K : Type) where
  p0 : Vec3 K
  p1 : Vec3 K
  p2 : Vec3 K
  n0 : Vec3 K
  n1 : Vec3 K
  n2 : Vec3 K
  u0 : K
  v0 : K
  u1 : K
  v1 : K
  u2 : K
  v2 : K

/-- The body of the loop of `render` up to the call: the vertex, normal and texture
coordinate lookups for one triangle.  `none` when a vertex index, or a normal index of
a triangle with three non-negative ones, is out of range. -/
def resolve (sqrt : K → K) (mesh : Mesh K) (tri : Triangle) : Option (Call K) :=
  match lookup mesh.vertices tri.v0, lookup mesh.vertices tri.v1, lookup mesh.vertices tri.v2 with
  | some p0, some p1, some p2 =>
    let ns : Option (Vec3 K × Vec3 K × Vec3 K) :=
      if tri.n0 ≥ 0 ∧ tri.n1 ≥ 0 ∧ tri.n2 ≥ 0 then
        match lookup mesh.normals tri.n0, lookup mesh.normals tri.n1,
              lookup mesh.normals tri.n2 with
        | some a, some b, some c => some (a, b, c)
        | _, _, _ => none
      else
        let n := ((p1.sub p0).cross (p2.sub p0)).normalized sqrt
        some (n, n, n)
    match ns with
    | some (n0, n1, n2) =>
      if tri.t0 ≥ 0 ∧ tri.t1 ≥ 0 ∧ tri.t2 ≥ 0 ∧ tri.t0 < (mesh.texCoords.length : Int) ∧
          tri.t1 < (mesh.texCoords.length : Int) ∧ tri.t2 < (mesh.texCoords.length : Int) then
        let c0 := mesh.texCoords.getD tri.t0.toNat ⟨0, 0⟩
        let c1 := mesh.texCoords.getD tri.t1.toNat ⟨0, 0⟩
        let c2 := mesh.texCoords.getD tri.t2.toNat ⟨0, 0⟩
        some ⟨p0, p1, p2, n0, n1, n2, c0.u, c0.v, c1.u, c1.v, c2.u, c2.v⟩
      else some ⟨p0, p1, p2, n0, n1, n2, 0, 0, 0, 0, 0, 0⟩
    | none => none
  | _, _, _ => none

/-- One call of `rasterizeTriangle` from `render`. -/
def rasterizeCall (sqrt : K → K) (tex : Option Texture) (r : Renderer K) (c : Call K) :
    Renderer K :=
  r.rasterizeTriangle sqrt c.p0 c.p1 c.p2 c.n0 c.n1 c.n2 c.u0 c.v0 c.u1 c.v1 c.u2 c.v2 tex

/-- The loop `for (const auto& tri : mesh.triangles)` of `render`. -/
def renderLoop (sqrt : K → K) (mesh : Mesh K) (tex : Option Texture) :
    List Triangle → Renderer K → Option (Renderer K)
  | [], r => some r
  | tri :: rest, r =>
    match resolve sqrt mesh tri with
    | some c => renderLoop sqrt mesh tex rest (rasterizeCall sqrt tex r c)
    | none => none

/-- The source `Renderer::render`. -/
def render (sqrt : K → K) (r : Renderer K) (mesh : Mesh K) : Option (Renderer K) :=
  let tex := if mesh.texture.width > 0 then some mesh.texture else none
  renderLoop sqrt mesh tex mesh.triangles r.clear

end Renderer

/-- The framebuffer entry and the zBuffer entry stored at index `i`. -/
def Renderer.cell (r : Renderer K) (i : Nat) : Pixel K × K :=
  (r.framebuffer.getD i Pixel.default, r.zBuffer.getD i 0)

/-- The centre of pixel `(x, y)` in device coordinates, as computed in the inner loop. -/
def pixelCentre (width height : Int) (y x : Int) : K × K :=
  (((x : K) + 0.5) / (width : K) * 2.0 - 1.0, 1.0 - ((y : K) + 0.5) / (height : K) * 2.0)

/-- The result of `insideTriangle` at the centre of pixel `(x, y)` for a fragment. -/
def Fragment.inside (f : Fragment K) (width height : Int) (y x : Int) : Bool × (K × K × K) :=
  insideTriangle (pixelCentre width height y x).1 (pixelCentre width height y x).2
    f.sp0.x f.sp0.y f.sp1.x f.sp1.y f.sp2.x f.sp2.y (0, 0, 0)

/-- The interpolated depth `w0 * sp0.z + w1 * sp1.z + w2 * sp2.z` of a fragment at pixel `(x, y)`. -/
def Fragment.depthAt (f : Fragment K) (width height : Int) (y x : Int) : K :=
  let w := (f.inside width height y x).2
  w.1 * f.sp0.z + w.2.1 * f.sp1.z + w.2.2 * f.sp2.z

/-- The effect of the inner loop body at pixel `(x, y)` on the pair
(framebuffer entry, zBuffer entry) of that pixel. -/
def Fragment.update (f : Fragment K) (width height : Int) (y x : Int) (c : Pixel K × K) :
    Pixel K × K :=
  let w := (f.inside width height y x).2
  if (f.inside width height y x).1 = true ∧ f.depthAt width height y x < c.2 then
    (f.written w.1 w.2.1 w.2.2 (f.depthAt width height y x) c.1, f.depthAt width height y x)
  else c

/-- The projected signed area `cross` tested by the back-face culling of
`rasterizeTriangle`. -/
def Renderer.signedArea (r : Renderer K) (p0 p1 p2 : Vec3 K) : K :=
  ((r.viewProj.transformPoint p1).x - (r.viewProj.transformPoint p0).x) *
      ((r.viewProj.transformPoint p2).y - (r.viewProj.transformPoint p0).y) -
    ((r.viewProj.transformPoint p2).x - (r.viewProj.transformPoint p0).x) *
      ((r.viewProj.transformPoint p1).y - (r.viewProj.transformPoint p0).y)

/-- The shade `0.3 + 0.7 * max(0, faceNormal.dot(lightDir))` of `rasterizeTriangle`. -/
def shadeOf (sqrt : K → K) (lightDir p0 p1 p2 : Vec3 K) : K :=
  0.3 + 0.7 * max 0.0 ((((p1.sub p0).cross (p2.sub p0)).normalized sqrt).dot lightDir)

/-- The fragment `rasterizeTriangle` hands to its loops for one call. -/
def Renderer.fragment (sqrt : K → K) (r : Renderer K) (tex : Option Texture) (c : Renderer.Call K) :
    Fragment K :=
  ⟨r.viewProj.transformPoint c.p0, r.viewProj.transformPoint c.p1,
   r.viewProj.transformPoint c.p2, shadeOf sqrt r.lightDir c.p0 c.p1 c.p2,
   c.u0, c.v0, c.u1, c.v1, c.u2, c.v2, tex⟩

/-- Lower column bound of the bounding box loop. -/
def Fragment.minX (f : Fragment K) (width : Int) : Int :=
  max 0 ⌊(min f.sp0.x (min f.sp1.x f.sp2.x) + 1.0) * 0.5 * (width : K)⌋

/-- Upper column bound of the bounding box loop. -/
def Fragment.maxX (f : Fragment K) (width : Int) : Int :=
  min (width - 1) ⌈(max f.sp0.x (max f.sp1.x f.sp2.x) + 1.0) * 0.5 * (width : K)⌉

/-- Lower row bound of the bounding box loop. -/
def Fragment.minY (f : Fragment K) (height : Int) : Int :=
  max 0 ⌊(1.0 - max f.sp0.y (max f.sp1.y f.sp2.y)) * 0.5 * (height : K)⌋

/-- Upper row bound of the bounding box loop. -/
def Fragment.maxY (f : Fragment K) (height : Int) : Int :=
  min (height - 1) ⌈(1.0 - min f.sp0.y (min f.sp1.y f.sp2.y)) * 0.5 * (height : K)⌉

/-- The effect of one call of `rasterizeTriangle` on the pair
(framebuffer entry, zBuffer entry) of pixel `(x, y)`. -/
def Renderer.cellStep (sqrt : K → K) (r : Renderer K) (tex : Option Texture) (y x : Int)
    (cell : Pixel K × K) (c : Renderer.Call K) : Pixel K × K :=
  if r.signedArea c.p0 c.p1 c.p2 ≤ 0 then cell
  else (r.fragment sqrt tex c).update r.width r.height y x cell

/-- The buffers have the `width * height` entries given to them by the constructor
`Renderer(w, h)`. -/
def Renderer.WF (r : Renderer K) : Prop :=
  r.framebuffer.length = (r.width * r.height).toNat ∧
    r.zBuffer.length = (r.width * r.height).toNat

/-- Every triangle of the mesh has vertex indices inside `vertices` and, when all three
normal indices are non-negative, normal indices inside `normals`. -/
def Mesh.IndexValid (mesh : Mesh K) : Prop :=
  ∀ tri ∈ mesh.triangles,
    (0 ≤ tri.v0 ∧ tri.v0 < (mesh.vertices.length : Int)) ∧
    (0 ≤ tri.v1 ∧ tri.v1 < (mesh.vertices.length : Int)) ∧
    (0 ≤ tri.v2 ∧ tri.v2 < (mesh.vertices.length : Int)) ∧
    (tri.n0 ≥ 0 ∧ tri.n1 ≥ 0 ∧ tri.n2 ≥ 0 →
      tri.n0 < (mesh.normals.length : Int) ∧ tri.n1 < (mesh.normals.length : Int) ∧
        tri.n2 < (mesh.normals.length : Int))

/-- The texture pointer `tex` chosen at the start of `render`. -/
def Mesh.tex (mesh : Mesh K) : Option Texture :=
  if mesh.texture.width > 0 then some mesh.texture else none

/-- Two renderer states with the same dimensions, light, transform and buffer sizes. -/
def Renderer.SameFrame (r s : Renderer K) : Prop :=
  r.width = s.width ∧ r.height = s.height ∧ r.lightDir = s.lightDir ∧
    r.viewProj = s.viewProj ∧ r.framebuffer.length = s.framebuffer.length ∧
    r.zBuffer.length = s.zBuffer.length

/-- The vertex `mesh.vertices[i]` (the zero vector when `i` is out of range). -/
def Mesh.position (mesh : Mesh K) (i : Int) : Vec3 K := (lookup mesh.vertices i).getD ⟨0, 0, 0⟩

/-- The normal `mesh.normals[i]` (the zero vector when `i` is out of range). -/
def Mesh.normal (mesh : Mesh K) (i : Int) : Vec3 K := (lookup mesh.normals i).getD ⟨0, 0, 0⟩

/-- The arguments of the call of `rasterizeTriangle` for `tri`, read off the mesh with
total lookups; it is what `resolve` returns whenever `resolve` succeeds. -/
def Mesh.callOf (sqrt : K → K) (mesh : Mesh K) (tri : Triangle) : Renderer.Call K :=
  let p0 := mesh.position tri.v0
  let p1 := mesh.position tri.v1
  let p2 := mesh.position tri.v2
  let n := ((p1.sub p0).cross (p2.sub p0)).normalized sqrt
  let ns : Vec3 K × Vec3 K × Vec3 K :=
    if tri.n0 ≥ 0 ∧ tri.n1 ≥ 0 ∧ tri.n2 ≥ 0 then
      (mesh.normal tri.n0, mesh.normal tri.n1, mesh.normal tri.n2)
    else (n, n, n)
  if tri.t0 ≥ 0 ∧ tri.t1 ≥ 0 ∧ tri.t2 ≥ 0 ∧ tri.t0 < (mesh.texCoords.length : Int) ∧
      tri.t1 < (mesh.texCoords.length : Int) ∧ tri.t2 < (mesh.texCoords.length : Int) then
    let c0 := mesh.texCoords.getD tri.t0.toNat ⟨0, 0⟩
    let c1 := mesh.texCoords.getD tri.t1.toNat ⟨0, 0⟩
    let c2 := mesh.texCoords.getD tri.t2.toNat ⟨0, 0⟩
    ⟨p0, p1, p2, ns.1, ns.2.1, ns.2.2, c0.u, c0.v, c1.u, c1.v, c2.u, c2.v⟩
  else ⟨p0, p1, p2, ns.1, ns.2.1, ns.2.2, 0, 0, 0, 0, 0, 0⟩

/-- The triangle with object-space corners `p0 p1 p2` passes back-face culling and
`insideTriangle` returns true for its projection at the centre of pixel `(x, y)`. -/
def Renderer.coversPixel (r : Renderer K) (y x : Int) (p0 p1 p2 : Vec3 K) : Bool :=
  decide (0 < r.signedArea p0 p1 p2) &&
    (insideTriangle (pixelCentre r.width r.height y x).1 (pixelCentre r.width r.height y x).2
      (r.viewProj.transformPoint p0).x (r.viewProj.transformPoint p0).y
      (r.viewProj.transformPoint p1).x (r.viewProj.transformPoint p1).y
      (r.viewProj.transformPoint p2).x (r.viewProj.transformPoint p2).y (0, 0, 0)).1

/-- The barycentric weights `(w0, w1, w2)` left by `insideTriangle` at the centre of
pixel `(x, y)` for the projection of the triangle `p0 p1 p2`. -/
def Renderer.weightsAtPixel (r : Renderer K) (y x : Int) (p0 p1 p2 : Vec3 K) : K × K × K :=
  (insideTriangle (pixelCentre r.width r.height y x).1 (pixelCentre r.width r.height y x).2
      (r.viewProj.transformPoint p0).x (r.viewProj.transformPoint p0).y
      (r.viewProj.transformPoint p1).x (r.viewProj.transformPoint p1).y
      (r.viewProj.transformPoint p2).x (r.viewProj.transformPoint p2).y (0, 0, 0)).2

/-- The interpolated depth `w0 * sp0.z + w1 * sp1.z + w2 * sp2.z` of the triangle
`p0 p1 p2` at pixel `(x, y)`. -/
def Renderer.depthAtPixel (r : Renderer K) (y x : Int) (p0 p1 p2 : Vec3 K) : K :=
  (r.weightsAtPixel y x p0 p1 p2).1 * (r.viewProj.transformPoint p0).z +
    (r.weightsAtPixel y x p0 p1 p2).2.1 * (r.viewProj.transformPoint p1).z +
    (r.weightsAtPixel y x p0 p1 p2).2.2 * (r.viewProj.transformPoint p2).z

/-- Triangle `tri` of the mesh is front-facing and covers pixel `(x, y)`. -/
def Renderer.covers (r : Renderer K) (mesh : Mesh K) (y x : Int) (tri : Triangle) : Bool :=
  r.coversPixel y x (mesh.position tri.v0) (mesh.position tri.v1) (mesh.position tri.v2)

/-- The interpolated depth of triangle `tri` of the mesh at pixel `(x, y)`. -/
def Renderer.triDepth (r : Renderer K) (mesh : Mesh K) (y x : Int) (tri : Triangle) : K :=
  r.depthAtPixel y x (mesh.position tri.v0) (mesh.position tri.v1) (mesh.position tri.v2)

/-- The depth-tested write of one triangle on the pair (pixel, depth): `cov t` says the
triangle is front-facing and covers the pixel, `d t` is its depth there and `wr t` the
pixel it writes over the stored one. -/
def depthStep {T : Type} (cov : T → Bool) (d : T → K) (wr : T → Pixel K → Pixel K)
    (cell : Pixel K × K) (t : T) : Pixel K × K :=
  if cov t = true ∧ d t < cell.2 then (wr t cell.1, d t) else cell

/-- The least of `z0` and the depths `d t` of the triangles `t` of a list with `cov t`. -/
def minOver {T : Type} (cov : T → Bool) (d : T → K) (z0 : K) (ts : List T) : K :=
  ((ts.filter cov).map d).foldl min z0

/-- The minimum of the background sentinel and the interpolated depths at pixel
`(x, y)` of all mesh triangles that are front-facing and cover the pixel. -/
def Renderer.minDepth (r : Renderer K) (mesh : Mesh K) (y x : Int) : K :=
  minOver (r.covers mesh y x) (r.triDepth mesh y x) DBL_MAX mesh.triangles

/-- The pixel the loop body writes for triangle `tri` at pixel `(x, y)` over the stored
pixel `old`. -/
def Renderer.writeOf (sqrt : K → K) (r : Renderer K) (mesh : Mesh K) (y x : Int)
    (tri : Triangle) (old : Pixel K) : Pixel K :=
  (r.fragment sqrt mesh.tex (mesh.callOf sqrt tri)).written
    (r.weightsAtPixel y x (mesh.position tri.v0) (mesh.position tri.v1) (mesh.position tri.v2)).1
    (r.weightsAtPixel y x (mesh.position tri.v0) (mesh.position tri.v1) (mesh.position tri.v2)).2.1
    (r.weightsAtPixel y x (mesh.position tri.v0) (mesh.position tri.v1) (mesh.position tri.v2)).2.2
    (r.triDepth mesh y x tri) old

/-- The pixel the loop body writes for triangle `tri` at pixel `(x, y)` over a cleared
pixel. -/
def Renderer.pixelOf (sqrt : K → K) (r : Renderer K) (mesh : Mesh K) (y x : Int)
    (tri : Triangle) : Pixel K :=
  r.writeOf sqrt mesh y x tri Pixel.default

/-- The earliest triangle in mesh order among the front-facing triangles covering pixel
`(x, y)` whose interpolated depth there is the minimum `minDepth`. -/
def Renderer.winner (r : Renderer K) (mesh : Mesh K) (y x : Int) : Option Triangle :=
  mesh.triangles.find? (fun t => r.covers mesh y x t && decide (r.triDepth mesh y x t = r.minDepth mesh y x))

/-- The texture coordinate `(u, v)` interpolated in the loop body for triangle `tri` at
pixel `(x, y)`. -/
def Renderer.uvAtPixel (sqrt : K → K) (r : Renderer K) (mesh : Mesh K) (y x : Int)
    (tri : Triangle) : K × K :=
  ((r.weightsAtPixel y x (mesh.position tri.v0) (mesh.position tri.v1) (mesh.position tri.v2)).1 *
        (mesh.callOf sqrt tri).u0 +
      (r.weightsAtPixel y x (mesh.position tri.v0) (mesh.position tri.v1) (mesh.position tri.v2)).2.1 *
        (mesh.callOf sqrt tri).u1 +
      (r.weightsAtPixel y x (mesh.position tri.v0) (mesh.position tri.v1) (mesh.position tri.v2)).2.2 *
        (mesh.callOf sqrt tri).u2,
   (r.weightsAtPixel y x (mesh.position tri.v0) (mesh.position tri.v1) (mesh.position tri.v2)).1 *
        (mesh.callOf sqrt tri).v0 +
      (r.weightsAtPixel y x (mesh.position tri.v0) (mesh.position tri.v1) (mesh.position tri.v2)).2.1 *
        (mesh.callOf sqrt tri).v1 +
      (r.weightsAtPixel y x (mesh.position tri.v0) (mesh.position tri.v1) (mesh.position tri.v2)).2.2 *
        (mesh.callOf sqrt tri).v2)

/-- A one-pixel renderer in the state left by the constructor, with the light along `+z`
and the identity as `viewProj`. -/
def onePixel : Renderer K :=
  ⟨1, 1, [Pixel.default], [DBL_MAX], ⟨0, 0, 1⟩, Mat4.identity⟩

/-- The triangle on vertices 0, 1, 2 without normals and texture coordinates. -/
def tri012 : Triangle := ⟨0, 1, 2, -1, -1, -1, -1, -1, -1⟩

/-- An untextured mesh with the single counter-clockwise triangle
`(-1,-1,z) (1,-1,z) (0,1,z)`, which contains the origin. -/
def oneTriangle (z : K) : Mesh K :=
  ⟨[⟨-1, -1, z⟩, ⟨1, -1, z⟩, ⟨0, 1, z⟩], [], [], [tri012], Texture.empty⟩

/-- An untextured mesh with the single clockwise triangle
`(-1,-1,0) (0,1,0) (1,-1,0)`: the triangle of `oneTriangle 0` with reversed winding. -/
def backTriangle : Mesh K :=
  ⟨[⟨-1, -1, 0⟩, ⟨0, 1, 0⟩, ⟨1, -1, 0⟩], [], [], [tri012], Texture.empty⟩

/-- A one-pixel renderer like `onePixel` whose buffers hold a stale frame. -/
def staleOnePixel : Renderer K :=
  ⟨1, 1, [⟨1, 1, 1, 1, 0, true⟩], [0], ⟨0, 0, 1⟩, Mat4.identity⟩

/-- A pixel is either the background pixel or a written one: depth below the sentinel,
intensity in `[0.3, 1]` and colour channels in `[0, 1]`. -/
def Pixel.Bounded (p : Pixel K) : Prop :=
  p = Pixel.default ∨
    (p.depth < DBL_MAX ∧ 0.3 ≤ p.intensity ∧ p.intensity ≤ 1 ∧ 0 ≤ p.r ∧ p.r ≤ 1 ∧
      0 ≤ p.g ∧ p.g ≤ 1 ∧ 0 ≤ p.b ∧ p.b ≤ 1)

/-- Every framebuffer entry is `Bounded` and no zBuffer entry exceeds the sentinel. -/
def Renderer.Bounded (r : Renderer K) : Prop :=
  (∀ p ∈ r.framebuffer, p.Bounded) ∧ (∀ z ∈ r.zBuffer, z ≤ DBL_MAX)

/-- A loaded texture of width 1 and height 2: the first stored row holds the texel
`(10, 20, 30)`, the last stored row the texel `(40, 50, 60)`. -/
def twoRows : Texture := ⟨[10, 20, 30, 40, 50, 60], 1, 2, 3⟩

/-! ## math.hpp: matrix factories and product -/

/-- The array index `col * 4 + row` of the entry in column `col` and row `row`. -/
def Mat4.idx (col row : Fin 4) : Fin 16 := ⟨col.val * 4 + row.val, by omega⟩

/-- The assignment `mat.m[i] = v`. -/
def Mat4.set (M : Mat4 K) (i : Fin 16) (v : K) : Mat4 K := ⟨Function.update M.m i v⟩

/-- The source `Mat4::perspective`; `tan` stands for `std::tan`. -/
def Mat4.perspective (tan : K → K) (fov aspect near far : K) : Mat4 K :=
  let tanHalfFov := tan (fov * 0.5 * 3.14159265 / 180.0)
  (((((Mat4.identity.set 0 (1.0 / (aspect * tanHalfFov))).set 5 (1.0 / tanHalfFov)).set 10
    (-(far + near) / (far - near))).set 11 (-1.0)).set 14
    (-(2.0 * far * near) / (far - near))).set 15 0

/-- The source `Mat4::lookAt`. -/
def Mat4.lookAt (sqrt : K → K) (eye target up : Vec3 K) : Mat4 K :=
  let f := (target.sub eye).normalized sqrt
  let r := (f.cross up).normalized sqrt
  let u := r.cross f
  (((((((((((Mat4.identity.set 0 r.x).set 4 r.y).set 8 r.z).set 1 u.x).set 5 u.y).set 9 u.z).set 2
    (-f.x)).set 6 (-f.y)).set 10 (-f.z)).set 12 (-(r.dot eye))).set 13 (-(u.dot eye))).set 14
    (f.dot eye)

/-- The source `Mat4::operator*`: entry `col * 4 + row` of the product accumulates
`m[k * 4 + row] * b.m[col * 4 + k]` for `k = 0, 1, 2, 3`, starting from 0. -/
def Mat4.mul (a b : Mat4 K) : Mat4 K :=
  ⟨fun i =>
    let col : Fin 4 := ⟨i.val / 4, by omega⟩
    let row : Fin 4 := ⟨i.val % 4, by omega⟩
    ([0, 1, 2, 3] : List (Fin 4)).foldl
      (fun acc k => acc + a.m (Mat4.idx k row) * b.m (Mat4.idx col k)) 0⟩

/-- The source `Mat4::scale`. -/
def Mat4.scale (s : K) : Mat4 K :=
  ((Mat4.identity.set 0 s).set 5 s).set 10 s

/-- The source `Mat4::translate`. -/
def Mat4.translate (t : Vec3 K) : Mat4 K :=
  ((Mat4.identity.set 12 t.x).set 13 t.y).set 14 t.z

/-- The source `Mat4::rotateX`; `cos` and `sin` stand for `std::cos` and `std::sin`. -/
def Mat4.rotateX (cos sin : K → K) (rad : K) : Mat4 K :=
  (((Mat4.identity.set 5 (cos rad)).set 6 (sin rad)).set 9 (-(sin rad))).set 10 (cos rad)

/-- The source `Mat4::rotateY`; `cos` and `sin` stand for `std::cos` and `std::sin`. -/
def Mat4.rotateY (cos sin : K → K) (rad : K) : Mat4 K :=
  (((Mat4.identity.set 0 (cos rad)).set 2 (-(sin rad))).set 8 (sin rad)).set 10 (cos rad)

/-- Row `row` of the column-major matrix-vector product `M * v`. -/
def Mat4.mulVec (M : Mat4 K) (v : Fin 4 → K) (row : Fin 4) : K :=
  ∑ k : Fin 4, M.m (Mat4.idx k row) * v k

/-- The homogeneous coordinates `(p.x, p.y, p.z, 1)` of a point. -/
def Vec3.homogeneous (p : Vec3 K) : Fin 4 → K := ![p.x, p.y, p.z, 1]

/-- The homogeneous `w` clamped away from zero as the spec words it: `w` itself when its
magnitude is at least `1e-10`, otherwise `1e-10`. -/
def clampW (w : K) : K := if 1e-10 ≤ |w| then w else 1e-10

/-- Two triangles with the same vertex indices and the same texture-coordinate indices
(their normal indices may differ). -/
def Triangle.SameGeometry (a b : Triangle) : Prop :=
  a.v0 = b.v0 ∧ a.v1 = b.v1 ∧ a.v2 = b.v2 ∧ a.t0 = b.t0 ∧ a.t1 = b.t1 ∧ a.t2 = b.t2

/-- Two meshes that agree on vertices, texture coordinates, texture and, triangle by
triangle, on the vertex and texture-coordinate indices. -/
def Mesh.SameUpToNormals (m1 m2 : Mesh K) : Prop :=
  m1.vertices = m2.vertices ∧ m1.texCoords = m2.texCoords ∧ m1.texture = m2.texture ∧
    List.Forall₂ Triangle.SameGeometry m1.triangles m2.triangles

/-- Every normal index of every triangle is `-1` or inside `normals`. -/
def Mesh.NormalIndicesOK (m : Mesh K) : Prop :=
  ∀ tri ∈ m.triangles,
    (tri.n0 = -1 ∨ (0 ≤ tri.n0 ∧ tri.n0 < (m.normals.length : Int))) ∧
    (tri.n1 = -1 ∨ (0 ≤ tri.n1 ∧ tri.n1 < (m.normals.length : Int))) ∧
    (tri.n2 = -1 ∨ (0 ≤ tri.n2 ∧ tri.n2 < (m.normals.length : Int)))

/-- The mesh of `oneTriangle 0` with a normal array and the triangle referring to it. -/
def oneTriangleWithNormals : Mesh K :=
  ⟨[⟨-1, -1, 0⟩, ⟨1, -1, 0⟩, ⟨0, 1, 0⟩], [⟨1, 0, 0⟩], [],
   [⟨0, 1, 2, 0, 0, 0, -1, -1, -1⟩], Texture.empty⟩

/-- One corner token of a face line after the split at `/` and `std::stoi`: the vertex
index and, when the token supplies them, the texture-coordinate and normal indices. -/
structure FaceToken where
  vi : Int
  ti : Option Int
  ni : Option Int

/-- One line of the OBJ file as the loop of `load` sees it after `getline` and the `>>`
extractions: `skip` is an empty line, a comment, an unknown keyword or a `v`, `vt`, `vn`
line whose numbers could not be read; the path of a `mtllib` line is empty when the line
has no argument, and the extraction `iss >> mtlPath` then leaves `mtlPath` as it was. -/
inductive ObjLine (K : Type) where
  | v (x y z : K)
  | vt (u v : K)
  | vn (x y z : K)
  | mtllib (path : String)
  | f (tokens : List FaceToken)
  | skip

/-- What `load` reads from outside: the lines of the OBJ file at a path (`none` when it
cannot be opened), the lines of a material file as pairs of keyword and first argument
(the argument is empty when there is none), and the result `(width, height, bytes)` of
`stbi_load` with three channels. -/
structure Files (K : Type) where
  obj : String → Option (List (ObjLine K))
  mtl : String → Option (List (String × String))
  image : String → Option (Int × Int × List (Fin 256))

/-- The source `find_last_of` restricted to a character predicate. -/
def findLastOf (s : String) (p : Char → Bool) : Option Nat :=
  match s.toList.reverse.findIdx? p with
  | none => none
  | some k => some (s.toList.length - 1 - k)

/-- A path separator, `/` or backslash. -/
def isSep (c : Char) : Bool := c = '/' || c = Char.ofNat 92

/-- The source `Mesh::dirOf`. -/
def Mesh.dirOf (path : String) : String :=
  match findLastOf path isSep with
  | none => ""
  | some p => path.take (p + 1)

/-- The part of a path after its last separator. -/
def fileName (path : String) : String :=
  match findLastOf path isSep with
  | none => path
  | some p => path.drop (p + 1)

/-- The source `Mesh::baseName`. -/
def Mesh.baseName (path : String) : String :=
  match findLastOf (fileName path) (fun c => c = '.') with
  | none => fileName path
  | some d => (fileName path).take d

/-- The source `Mesh::loadMtl`: the result and the final value of `outMapKd`. -/
def Mesh.loadMtl (files : Files K) (mtlPath : String) (outMapKd : String) : Bool × String :=
  match files.mtl mtlPath with
  | none => (false, outMapKd)
  | some lines =>
    let out := lines.foldl
      (fun acc line => if line.1 = "map_Kd" then (if line.2.isEmpty then acc else line.2) else acc)
      outMapKd
    (!out.isEmpty, out)

/-- The source `Texture::load`: the result and the texture afterwards. -/
def Texture.load (files : Files K) (t : Texture) (path : String) : Bool × Texture :=
  match files.image path with
  | none => (false, t)
  | some img => (true, ⟨img.2.2, img.1, img.2.1, 3⟩)

/-- The three index vectors `vindices`, `tindices`, `nindices` built for one face line. -/
structure FaceIndices where
  vindices : List Int
  tindices : List Int
  nindices : List Int

/-- The body of `while (iss >> token)` from the parsed token on: the three
`push_back`s. -/
def pushToken (mesh : Mesh K) (acc : FaceIndices) (tok : FaceToken) : FaceIndices :=
  let vi := tok.vi
  let ti := tok.ti.getD (-1)
  let ni := tok.ni.getD (-1)
  let vs := acc.vindices ++ [if vi > 0 then vi - 1 else (mesh.vertices.length : Int) + vi]
  let ts :=
    if ti > 0 then acc.tindices ++ [ti - 1]
    else if ti < 0 ∧ ¬ mesh.texCoords.isEmpty then
      acc.tindices ++ [(mesh.texCoords.length : Int) + ti]
    else acc.tindices
  let ns :=
    if ni > 0 then acc.nindices ++ [ni - 1]
    else if ni < 0 ∧ ¬ mesh.normals.isEmpty then
      acc.nindices ++ [(mesh.normals.length : Int) + ni]
    else acc.nindices
  ⟨vs, ts, ns⟩

/-- The fan triangulation `for (size_t i = 1; i + 1 < vindices.size(); i++)`. -/
def fan (fi : FaceIndices) : List Triangle :=
  (List.range (fi.vindices.length - 2)).map (fun j =>
    let i := j + 1
    ⟨fi.vindices.getD 0 0, fi.vindices.getD i 0, fi.vindices.getD (i + 1) 0,
     fi.nindices.getD 0 (-1), fi.nindices.getD i (-1), fi.nindices.getD (i + 1) (-1),
     fi.tindices.getD 0 (-1), fi.tindices.getD i (-1), fi.tindices.getD (i + 1) (-1)⟩)

/-- The mesh under construction together with the local `mtlPath` of `load`. -/
structure LoadState (K : Type) where
  mesh : Mesh K
  mtlPath : String

/-- The body of the `while (std::getline(file, line))` loop of `load`. -/
def stepLine (sqrt : K → K) (s : LoadState K) : ObjLine K → LoadState K
  | ObjLine.v x y z =>
    { s with mesh := { s.mesh with vertices := s.mesh.vertices ++ [⟨x, y, z⟩] } }
  | ObjLine.vt u v =>
    { s with mesh := { s.mesh with texCoords := s.mesh.texCoords ++ [⟨u, v⟩] } }
  | ObjLine.vn x y z =>
    { s with mesh := { s.mesh with
        normals := s.mesh.normals ++ [(⟨x, y, z⟩ : Vec3 K).normalized sqrt] } }
  | ObjLine.mtllib path => if path.isEmpty then s else { s with mtlPath := path }
  | ObjLine.f tokens =>
    { s with mesh := { s.mesh with
        triangles := s.mesh.triangles ++ fan (tokens.foldl (pushToken s.mesh) ⟨[], [], []⟩) } }
  | ObjLine.skip => s

/-- The state after the line loop of `load` on a mesh. -/
def parseLines (sqrt : K → K) (mesh : Mesh K) (lines : List (ObjLine K)) : LoadState K :=
  lines.foldl (stepLine sqrt) ⟨mesh, ""⟩

/-- The path `fullMtl` of the material file `load` tries to open. -/
def Mesh.mtlFile (s : LoadState K) (path : String) : String :=
  Mesh.dirOf path ++ (if s.mtlPath.isEmpty then Mesh.baseName path ++ ".mtl" else s.mtlPath)

/-- The texture part of `load`: `loadMtl` and up to two calls of `texture.load`. -/
def Mesh.loadTexture (files : Files K) (s : LoadState K) (path : String) : Texture :=
  match Mesh.loadMtl files (Mesh.mtlFile s path) "" with
  | (false, _) => s.mesh.texture
  | (true, mapKdPath) =>
    match Texture.load files s.mesh.texture mapKdPath with
    | (true, t) => t
    | (false, t) => (Texture.load files t (Mesh.dirOf path ++ fileName mapKdPath)).2

/-- The source `Mesh::load` on the mesh `mesh`, on lines whose face tokens are already
converted (`Mesh.loadText` converts them): the returned flag and the mesh afterwards. -/
def Mesh.load (sqrt : K → K) (files : Files K) (mesh : Mesh K) (path : String) :
    Bool × Mesh K :=
  match files.obj path with
  | none => (false, mesh)
  | some lines =>
    let s := parseLines sqrt mesh lines
    let m : Mesh K := { s.mesh with texture := Mesh.loadTexture files s path }
    (!m.vertices.isEmpty && !m.triangles.isEmpty, m)

/-- The default-constructed `Mesh`. -/
def Mesh.empty : Mesh K := ⟨[], [], [], [], Texture.empty⟩

/-- The OBJ source `v 0 0 0` followed by `f 1 2 3`: one vertex and a face that refers to
vertices 1, 2 and 3. -/
def danglingFace : List (ObjLine K) :=
  [ObjLine.v 0 0 0, ObjLine.f [⟨1, none, none⟩, ⟨2, none, none⟩, ⟨3, none, none⟩]]

/-- A file system holding the given OBJ lines at every path, no material file and no
image. -/
def onlyObj (lines : List (ObjLine K)) : Files K :=
  ⟨fun _ => some lines, fun _ => none, fun _ => none⟩

/-- The OBJ source `v 0 0 0`, `v 1 0 0`, `v 0 1 0`, `f 1 2 3`. -/
def goodFace : List (ObjLine K) :=
  [ObjLine.v 0 0 0, ObjLine.v 1 0 0, ObjLine.v 0 1 0,
   ObjLine.f [⟨1, none, none⟩, ⟨2, none, none⟩, ⟨3, none, none⟩]]

/-- An affine matrix: the bottom row `m[3], m[7], m[11], m[15]` is `0, 0, 0, 1`. -/
def Mat4.Affine (B : Mat4 K) : Prop := B.m 3 = 0 ∧ B.m 7 = 0 ∧ B.m 11 = 0 ∧ B.m 15 = 1

/-- The OBJ source with three `v` lines, three `vt` lines and the face `f 1/1 2 3/3`,
whose second corner supplies no texture coordinate. -/
def partialUV : List (ObjLine K) :=
  [ObjLine.v 0 0 0, ObjLine.v 1 0 0, ObjLine.v 0 1 0,
   ObjLine.vt 0 0, ObjLine.vt 1 0, ObjLine.vt 0 1,
   ObjLine.f [⟨1, some 1, none⟩, ⟨2, none, none⟩, ⟨3, some 3, none⟩]]

/-- The OBJ source with three `v` lines, no `vt` line and the face `f 1/1 2 3/3`. -/
def partialUVNoCoords : List (ObjLine K) :=
  [ObjLine.v 0 0 0, ObjLine.v 1 0 0, ObjLine.v 0 1 0,
   ObjLine.f [⟨1, some 1, none⟩, ⟨2, none, none⟩, ⟨3, some 3, none⟩]]

/-- Modelled from the spec: the index a triangle corner should carry for the optional
index of its own face token, with `size` entries in the array it refers to: the
sentinel `-1` when the token supplies none, else the resolved 1-based or relative
index. -/
def specIndex (size : Nat) : Option Int → Int
  | none => -1
  | some k => if k > 0 then k - 1 else (size : Int) + k

/-! ## renderer.hpp: 32-bit conversions of the bounding box -/

/-- The value is in the range of the 32-bit `int`. -/
def InInt32 (n : Int) : Prop := -2147483648 ≤ n ∧ n ≤ 2147483647

/-- The conversion `static_cast<int>` of an integral double to the 32-bit `int`: the
value itself when it is in the range of `int`.  Outside that range the conversion is
undefined in C++; the value `INT_MIN` that the x86-64 conversion instruction returns is
taken. -/
def toInt32 (n : Int) : Int :=
  if -2147483648 ≤ n ∧ n ≤ 2147483647 then n else -2147483648

/-- The source `Renderer::rasterizeTriangle` with the four `static_cast<int>` of the
bounding box done at 32 bits (`toInt32`); `rasterizeTriangle` takes them to be exact.
The vertex normals `n0 n1 n2` are accepted and never read, as in the source. -/
def Renderer.rasterizeTriangle32 (sqrt : K → K) (r : Renderer K) (p0 p1 p2 : Vec3 K)
    (_n0 _n1 _n2 : Vec3 K) (u0 v0 u1 v1 u2 v2 : K) (tex : Option Texture) : Renderer K :=
  let sp0 := r.viewProj.transformPoint p0
  let sp1 := r.viewProj.transformPoint p1
  let sp2 := r.viewProj.transformPoint p2
  let cross := (sp1.x - sp0.x) * (sp2.y - sp0.y) - (sp2.x - sp0.x) * (sp1.y - sp0.y)
  if cross ≤ 0 then r
  else
    let faceNormal := ((p1.sub p0).cross (p2.sub p0)).normalized sqrt
    let shade0 := max 0.0 (faceNormal.dot r.lightDir)
    let shade := 0.3 + 0.7 * shade0
    let minX : Int :=
      max 0 (toInt32 ⌊(min sp0.x (min sp1.x sp2.x) + 1.0) * 0.5 * (r.width : K)⌋)
    let maxX : Int :=
      min (r.width - 1) (toInt32 ⌈(max sp0.x (max sp1.x sp2.x) + 1.0) * 0.5 * (r.width : K)⌉)
    let minY : Int :=
      max 0 (toInt32 ⌊(1.0 - max sp0.y (max sp1.y sp2.y)) * 0.5 * (r.height : K)⌋)
    let maxY : Int :=
      min (r.height - 1)
        (toInt32 ⌈(1.0 - min sp0.y (min sp1.y sp2.y)) * 0.5 * (r.height : K)⌉)
    let f : Fragment K := ⟨sp0, sp1, sp2, shade, u0, v0, u1, v1, u2, v2, tex⟩
    (intRange minY maxY).foldl
      (fun acc y => (intRange minX maxX).foldl (fun acc2 x => acc2.shadePixel f y x) acc) r

/-- One call of `rasterizeTriangle32` from `render32`. -/
def Renderer.rasterizeCall32 (sqrt : K → K) (tex : Option Texture) (r : Renderer K)
    (c : Renderer.Call K) : Renderer K :=
  r.rasterizeTriangle32 sqrt c.p0 c.p1 c.p2 c.n0 c.n1 c.n2 c.u0 c.v0 c.u1 c.v1 c.u2 c.v2 tex

/-- The loop `for (const auto& tri : mesh.triangles)` of `render`, calling
`rasterizeTriangle32`. -/
def Renderer.renderLoop32 (sqrt : K → K) (mesh : Mesh K) (tex : Option Texture) :
    List Triangle → Renderer K → Option (Renderer K)
  | [], r => some r
  | tri :: rest, r =>
    match Renderer.resolve sqrt mesh tri with
    | some c => Renderer.renderLoop32 sqrt mesh tex rest (Renderer.rasterizeCall32 sqrt tex r c)
    | none => none

/-- The source `Renderer::render` with the bounding-box conversions done at 32 bits. -/
def Renderer.render32 (sqrt : K → K) (r : Renderer K) (mesh : Mesh K) : Option (Renderer K) :=
  let tex := if mesh.texture.width > 0 then some mesh.texture else none
  Renderer.renderLoop32 sqrt mesh tex mesh.triangles r.clear

/-- The four values that `rasterizeTriangle` converts to `int` for the triangle
`p0 p1 p2` are in the range of `int`. -/
def Renderer.BoxInRange (r : Renderer K) (p0 p1 p2 : Vec3 K) : Prop :=
  InInt32 ⌊(min (r.viewProj.transformPoint p0).x
      (min (r.viewProj.transformPoint p1).x (r.viewProj.transformPoint p2).x) + 1.0) * 0.5 *
        (r.width : K)⌋ ∧
    InInt32 ⌈(max (r.viewProj.transformPoint p0).x
      (max (r.viewProj.transformPoint p1).x (r.viewProj.transformPoint p2).x) + 1.0) * 0.5 *
        (r.width : K)⌉ ∧
    InInt32 ⌊(1.0 - max (r.viewProj.transformPoint p0).y
      (max (r.viewProj.transformPoint p1).y (r.viewProj.transformPoint p2).y)) * 0.5 *
        (r.height : K)⌋ ∧
    InInt32 ⌈(1.0 - min (r.viewProj.transformPoint p0).y
      (min (r.viewProj.transformPoint p1).y (r.viewProj.transformPoint p2).y)) * 0.5 *
        (r.height : K)⌉

/-- Every front-facing triangle of the mesh has its four bounding-box values in the
range of `int`. -/
def Renderer.CastsExact (r : Renderer K) (mesh : Mesh K) : Prop :=
  ∀ tri ∈ mesh.triangles,
    0 < r.signedArea (mesh.position tri.v0) (mesh.position tri.v1) (mesh.position tri.v2) →
      r.BoxInRange (mesh.position tri.v0) (mesh.position tri.v1) (mesh.position tri.v2)

/-- An untextured mesh with the single counter-clockwise triangle
`(-2^33,-2^33,0) (2^33,-2^33,0) (0,2^33,0)`, which contains the origin. -/
def hugeTriangle : Mesh K :=
  ⟨[⟨-8589934592, -8589934592, 0⟩, ⟨8589934592, -8589934592, 0⟩, ⟨0, 8589934592, 0⟩],
   [], [], [tri012], Texture.empty⟩

/-! ## obj_parser.hpp: `Mesh::load` from raw face tokens -/

/-- A pixel is either the background pixel or a written one: depth below the sentinel,
intensity in `[0.3, M]` and colour channels in `[0, M]`. -/
def Pixel.BoundedBy (M : K) (p : Pixel K) : Prop :=
  p = Pixel.default ∨
    (p.depth < DBL_MAX ∧ 0.3 ≤ p.intensity ∧ p.intensity ≤ M ∧ 0 ≤ p.r ∧ p.r ≤ M ∧
      0 ≤ p.g ∧ p.g ≤ M ∧ 0 ≤ p.b ∧ p.b ≤ M)

/-- Every framebuffer entry is `BoundedBy M` and no zBuffer entry exceeds the sentinel. -/
def Renderer.BoundedBy (M : K) (r : Renderer K) : Prop :=
  (∀ p ∈ r.framebuffer, p.BoundedBy M) ∧ (∀ z ∈ r.zBuffer, z ≤ DBL_MAX)

/-- The face normal `(p1 - p0).cross(p2 - p0).normalized()` that `rasterizeTriangle`
computes for a triangle of the mesh. -/
def Mesh.faceNormal (sqrt : K → K) (mesh : Mesh K) (tri : Triangle) : Vec3 K :=
  (((mesh.position tri.v1).sub (mesh.position tri.v0)).cross
    ((mesh.position tri.v2).sub (mesh.position tri.v0))).normalized sqrt

/-- The largest shade of a triangle of the mesh, and at least 0.3. -/
def Renderer.maxShade (sqrt : K → K) (r : Renderer K) (mesh : Mesh K) : K :=
  (mesh.triangles.map (fun tri => shadeOf sqrt r.lightDir (mesh.position tri.v0)
    (mesh.position tri.v1) (mesh.position tri.v2))).foldl max 0.3

/-! ## renderer.hpp: the constructor and a nearly parallel face -/

/-- The source constructor `Renderer(w, h)`: both buffers get `w * h` entries, the light
is `Vec3(0.5, 0.5, 1.0).normalized()` and `viewProj` is the identity of `Mat4()`. -/
def Renderer.new (sqrt : K → K) (w h : Int) : Renderer K :=
  ⟨w, h, List.replicate (w * h).toNat Pixel.default, List.replicate (w * h).toNat DBL_MAX,
   (⟨0.5, 0.5, 1.0⟩ : Vec3 K).normalized sqrt, Mat4.identity⟩

/-- The values that `std::sqrt` returns (binary64, round to nearest) at the two arguments
it receives in the example `nearParallel`: `1.224744871391589` at `1.5`, the squared
length of `(0.5, 0.5, 1)`, and `1.2247448721520107` at the squared length of the face
normal of that triangle.  Both are written as the exact rational value of the double. -/
def sqrtNearParallel (a : ℚ) : ℚ :=
  if a = 3 / 2 then 2757880273211543 / 2251799813685248
  else 5515760549847721 / 4503599627370496

/-- An untextured mesh with the single triangle `(0,0,0) (1,0,-a) (0,1,-b)`,
`a = 0.5 - 6 * 2^-30` and `b = 0.5 + 8 * 2^-30`, whose face normal `(a, b, 1)` is nearly
parallel to `(0.5, 0.5, 1)`. -/
def nearParallel : Mesh ℚ :=
  ⟨[⟨0, 0, 0⟩, ⟨1, 0, -(268435453 / 536870912)⟩, ⟨0, 1, -(67108865 / 134217728)⟩],
   [], [], [tri012], Texture.empty⟩

/-! ## math.hpp: the square root of 76 in binary64 -/

/-- A loaded texture of width 5 and height 1 whose texel in column `c` is
`(10 c, 10 c, 10 c)`. -/
def fiveColumns : Texture :=
  ⟨[0, 0, 0, 10, 10, 10, 20, 20, 20, 30, 30, 30, 40, 40, 40], 5, 1, 3⟩

/-- The `double` written `0.2`: the binary64 number nearest to one fifth, as its exact
rational value. -/
def doubleFifth : ℚ := 3602879701896397 / 18014398509481984

/-- The `double` that the sum `0.2 + 1.0` evaluates to (it prints as `1.2`), as its exact
rational value. -/
def doubleFifthPlusOne : ℚ := 5404319552844595 / 4503599627370496

/-! ## math.hpp: `perspective` and `transformPoint` with explicit rounding -/

/-- Rounding to binary64 at the results that determine `transformPoint` of `(0, 0, -1)`
under `perspective(45, 1.5, 1, 100)`: the quotients `-101/99` and `-200/99` are rounded
to the nearest doubles `-1.02020202020202` and `-2.0202020202020203`, written as their
exact rational values; every other such result (`101`, `99`, `200`, the products by 0 and
by `-1`, the sum of the two entries) is a double already and is returned unchanged. -/
def rndNearPlane (x : ℚ) : ℚ :=
  if x = -101 / 99 then -(4594581438024445 / 4503599627370496)
  else if x = -200 / 99 then -(4549090532697471 / 2251799813685248)
  else x

set_option linter.unusedSectionVars false

/-! ## Loop ranges -/

theorem mem_intRange (lo hi a : Int) : a ∈ intRange lo hi ↔ lo ≤ a ∧ a ≤ hi := by
  unfold intRange
  simp only [List.mem_map, List.mem_range]
  constructor
  · rintro ⟨i, hi1, rfl⟩
    omega
  · rintro ⟨h1, h2⟩
    exact ⟨(a - lo).toNat, by omega, by omega⟩

theorem nodup_intRange (lo hi : Int) : (intRange lo hi).Nodup := by
  unfold intRange
  refine List.Nodup.map ?_ (List.nodup_range _)
  intro a b hab
  simp only at hab
  omega

/-- Row-major pixel indices of two pixels on a line of width `w` agree only when the
pixels agree. -/
theorem pixel_index_inj (w y1 x1 y2 x2 : Int) (h1 : 0 ≤ x1) (h1w : x1 < w) (h2 : 0 ≤ x2)
    (h2w : x2 < w) (hy1 : 0 ≤ y1) (hy2 : 0 ≤ y2)
    (h : (y1 * w + x1).toNat = (y2 * w + x2).toNat) : y1 = y2 ∧ x1 = x2 := by
  have hw : 0 < w := by omega
  have e1 : 0 ≤ y1 * w := mul_nonneg hy1 hw.le
  have e2 : 0 ≤ y2 * w := mul_nonneg hy2 hw.le
  have h3 : y1 * w + x1 = y2 * w + x2 := by omega
  have hy : y1 = y2 := by
    have a1 : (y1 * w + x1) / w = y1 := by
      rw [add_comm, Int.add_mul_ediv_right _ _ (ne_of_gt hw), Int.ediv_eq_zero_of_lt h1 h1w]
      simp
    have a2 : (y2 * w + x2) / w = y2 := by
      rw [add_comm, Int.add_mul_ediv_right _ _ (ne_of_gt hw), Int.ediv_eq_zero_of_lt h2 h2w]
      simp
    rw [← a1, ← a2, h3]
  subst hy
  exact ⟨rfl, by omega⟩

/-- Row-major index of a pixel inside a `w` by `h` frame is below `w * h`. -/
theorem pixel_index_lt (w h y x : Int) (hx : 0 ≤ x) (hxw : x < w) (hy : 0 ≤ y) (hyh : y < h) :
    (y * w + x).toNat < (w * h).toNat := by
  have hw : 0 < w := by omega
  have e1 : 0 ≤ y * w := mul_nonneg hy hw.le
  have e2 : (y + 1) * w ≤ h * w := mul_le_mul_of_nonneg_right (by omega) hw.le
  have e3 : (y + 1) * w = y * w + w := by ring
  have e4 : h * w = w * h := by ring
  omega

/-! ## The loop body acts on one buffer entry -/

theorem Renderer.SameFrame.refl (r : Renderer K) : r.SameFrame r :=
  ⟨rfl, rfl, rfl, rfl, rfl, rfl⟩

theorem Renderer.SameFrame.trans {r s t : Renderer K} (h1 : r.SameFrame s) (h2 : s.SameFrame t) :
    r.SameFrame t := by
  obtain ⟨a1, a2, a3, a4, a5, a6⟩ := h1
  obtain ⟨b1, b2, b3, b4, b5, b6⟩ := h2
  exact ⟨a1.trans b1, a2.trans b2, a3.trans b3, a4.trans b4, a5.trans b5, a6.trans b6⟩

theorem insideTriangle_eq_inside (f : Fragment K) (width height y x : Int) :
    insideTriangle (((x : K) + 0.5) / (width : K) * 2.0 - 1.0)
      (1.0 - ((y : K) + 0.5) / (height : K) * 2.0)
      f.sp0.x f.sp0.y f.sp1.x f.sp1.y f.sp2.x f.sp2.y (0, 0, 0) = f.inside width height y x := rfl

theorem shadePixel_sameFrame (r : Renderer K) (f : Fragment K) (y x : Int) :
    (r.shadePixel f y x).SameFrame r := by
  unfold Renderer.shadePixel
  simp only
  split
  · exact Renderer.SameFrame.refl r
  · split
    · exact ⟨rfl, rfl, rfl, rfl, by simp, by simp⟩
    · exact Renderer.SameFrame.refl r

theorem shadePixel_cell (r : Renderer K) (f : Fragment K) (y x : Int) (i : Nat)
    (h1 : i < r.framebuffer.length) (h2 : i < r.zBuffer.length) :
    (r.shadePixel f y x).cell i =
      if i = (y * r.width + x).toNat then f.update r.width r.height y x (r.cell i)
      else r.cell i := by
  unfold Renderer.shadePixel Fragment.update Fragment.depthAt
  simp only []
  rw [insideTriangle_eq_inside]
  generalize f.inside r.width r.height y x = ins
  obtain ⟨b, w0, w1, w2⟩ := ins
  cases b
  · simp
  · simp only [true_and]
    by_cases hi : i = (y * r.width + x).toNat
    · subst hi
      simp only [if_true, Renderer.cell]
      split
      · simp [List.getD_eq_getElem?_getD, List.getElem?_set, h1, h2]
      · rfl
    · simp only [if_neg hi]
      split
      · simp [Renderer.cell, List.getD_eq_getElem?_getD, List.getElem?_set, Ne.symm hi]
      · rfl

theorem foldl_rows (f : Fragment K) (ys xs : List Int) (r : Renderer K) :
    ys.foldl (fun acc y => xs.foldl (fun acc2 x => acc2.shadePixel f y x) acc) r =
      (List.product ys xs).foldl (fun acc p => acc.shadePixel f p.1 p.2) r := by
  induction ys generalizing r with
  | nil => rfl
  | cons a l ih =>
    have e : (a :: l).product xs = List.map (fun b => (a, b)) xs ++ l.product xs :=
      List.product_cons a l xs
    rw [List.foldl_cons, ih, e, List.foldl_append, List.foldl_map]

theorem foldl_shadePixel_sameFrame (f : Fragment K) (L : List (Int × Int)) (r : Renderer K) :
    (L.foldl (fun acc p => acc.shadePixel f p.1 p.2) r).SameFrame r := by
  induction L generalizing r with
  | nil => exact Renderer.SameFrame.refl r
  | cons p l ih =>
    rw [List.foldl_cons]
    exact (ih _).trans (shadePixel_sameFrame r f p.1 p.2)

theorem foldl_shadePixel_cell (f : Fragment K) (L : List (Int × Int)) (hnd : L.Nodup)
    (r : Renderer K) (hL : ∀ p ∈ L, 0 ≤ p.1 ∧ 0 ≤ p.2 ∧ p.2 < r.width)
    (y x : Int) (hx : 0 ≤ x) (hxw : x < r.width) (hy : 0 ≤ y)
    (h1 : (y * r.width + x).toNat < r.framebuffer.length)
    (h2 : (y * r.width + x).toNat < r.zBuffer.length) :
    (L.foldl (fun acc p => acc.shadePixel f p.1 p.2) r).cell (y * r.width + x).toNat =
      if (y, x) ∈ L then f.update r.width r.height y x (r.cell (y * r.width + x).toNat)
      else r.cell (y * r.width + x).toNat := by
  induction L generalizing r with
  | nil => simp
  | cons p l ih =>
    rw [List.foldl_cons]
    have hs := shadePixel_sameFrame r f p.1 p.2
    obtain ⟨e1, e2, -, -, e5, e6⟩ := hs
    have hnd2 := List.nodup_cons.mp hnd
    have ih2 := ih hnd2.2 (r.shadePixel f p.1 p.2)
      (by intro q hq; rw [e1]; exact hL q (List.mem_cons_of_mem _ hq))
      (by rw [e1]; exact hxw) (by rw [e1, e5]; exact h1) (by rw [e1, e6]; exact h2)
    rw [e1, e2] at ih2
    rw [ih2, shadePixel_cell r f p.1 p.2 _ h1 h2]
    by_cases hp : p = (y, x)
    · subst hp
      simp only [List.mem_cons, true_or, if_true]
      rw [if_neg hnd2.1]
    · have hne : (y * r.width + x).toNat ≠ (p.1 * r.width + p.2).toNat := by
        intro h
        obtain ⟨q1, q2, q3⟩ := hL p (List.mem_cons_self _ _)
        obtain ⟨a, b⟩ := pixel_index_inj r.width y x p.1 p.2 hx hxw q2 q3 hy q1 h
        exact hp (Prod.ext a.symm b.symm)
      rw [if_neg hne]
      have : ((y, x) ∈ p :: l) ↔ (y, x) ∈ l := by
        simp only [List.mem_cons]
        constructor
        · rintro (h | h)
          · exact absurd h.symm hp
          · exact h
        · exact Or.inr
      simp only [this]

/-! ## The bounding box contains every covered pixel of the frame -/

theorem rasterizeCall_eq (sqrt : K → K) (tex : Option Texture) (r : Renderer K)
    (c : Renderer.Call K) :
    Renderer.rasterizeCall sqrt tex r c =
      if r.signedArea c.p0 c.p1 c.p2 ≤ 0 then r
      else
        (intRange ((r.fragment sqrt tex c).minY r.height)
            ((r.fragment sqrt tex c).maxY r.height)).foldl
          (fun acc y =>
            (intRange ((r.fragment sqrt tex c).minX r.width)
                ((r.fragment sqrt tex c).maxX r.width)).foldl
              (fun acc2 x => acc2.shadePixel (r.fragment sqrt tex c) y x) acc) r := rfl

/-- What a `true` result of `insideTriangle` says about the weights it leaves. -/
theorem insideTriangle_true (x y x0 y0 x1 y1 x2 y2 : K) (w : K × K × K)
    (h : (insideTriangle x y x0 y0 x1 y1 x2 y2 w).1 = true) :
    0 ≤ (insideTriangle x y x0 y0 x1 y1 x2 y2 w).2.1 ∧
    0 ≤ (insideTriangle x y x0 y0 x1 y1 x2 y2 w).2.2.1 ∧
    0 ≤ (insideTriangle x y x0 y0 x1 y1 x2 y2 w).2.2.2 ∧
    (insideTriangle x y x0 y0 x1 y1 x2 y2 w).2.1 +
      (insideTriangle x y x0 y0 x1 y1 x2 y2 w).2.2.1 +
      (insideTriangle x y x0 y0 x1 y1 x2 y2 w).2.2.2 = 1 ∧
    (insideTriangle x y x0 y0 x1 y1 x2 y2 w).2.1 * x0 +
      (insideTriangle x y x0 y0 x1 y1 x2 y2 w).2.2.1 * x1 +
      (insideTriangle x y x0 y0 x1 y1 x2 y2 w).2.2.2 * x2 = x ∧
    (insideTriangle x y x0 y0 x1 y1 x2 y2 w).2.1 * y0 +
      (insideTriangle x y x0 y0 x1 y1 x2 y2 w).2.2.1 * y1 +
      (insideTriangle x y x0 y0 x1 y1 x2 y2 w).2.2.2 * y2 = y := by
  unfold insideTriangle at h ⊢
  simp only [] at h ⊢
  split_ifs at h ⊢ with hd
  have hd0 : (x1 - x0) * (y2 - y0) - (x2 - x0) * (y1 - y0) ≠ 0 := by
    intro h0
    apply hd
    rw [h0]
    norm_num
  simp only [decide_eq_true_eq] at h
  obtain ⟨a, b, c⟩ := h
  refine ⟨a, b, c, ?_, ?_, ?_⟩
  · norm_num
    ring
  · field_simp
    ring
  · field_simp
    ring

/-- A convex combination lies between the least and the greatest of its three points. -/
theorem convex_bounds (w0 w1 w2 a0 a1 a2 : K) (h0 : 0 ≤ w0) (h1 : 0 ≤ w1) (h2 : 0 ≤ w2)
    (hs : w0 + w1 + w2 = 1) :
    min a0 (min a1 a2) ≤ w0 * a0 + w1 * a1 + w2 * a2 ∧
      w0 * a0 + w1 * a1 + w2 * a2 ≤ max a0 (max a1 a2) := by
  have m0 : min a0 (min a1 a2) ≤ a0 := min_le_left _ _
  have m1 : min a0 (min a1 a2) ≤ a1 := le_trans (min_le_right _ _) (min_le_left _ _)
  have m2 : min a0 (min a1 a2) ≤ a2 := le_trans (min_le_right _ _) (min_le_right _ _)
  have M0 : a0 ≤ max a0 (max a1 a2) := le_max_left _ _
  have M1 : a1 ≤ max a0 (max a1 a2) := le_trans (le_max_left _ _) (le_max_right _ _)
  have M2 : a2 ≤ max a0 (max a1 a2) := le_trans (le_max_right _ _) (le_max_right _ _)
  have e1 : min a0 (min a1 a2) = (w0 + w1 + w2) * min a0 (min a1 a2) := by rw [hs, one_mul]
  have e2 : max a0 (max a1 a2) = (w0 + w1 + w2) * max a0 (max a1 a2) := by rw [hs, one_mul]
  constructor
  · rw [e1]
    nlinarith [mul_le_mul_of_nonneg_left m0 h0, mul_le_mul_of_nonneg_left m1 h1,
      mul_le_mul_of_nonneg_left m2 h2]
  · rw [e2]
    nlinarith [mul_le_mul_of_nonneg_left M0 h0, mul_le_mul_of_nonneg_left M1 h1,
      mul_le_mul_of_nonneg_left M2 h2]

/-- A pixel of the frame whose centre passes `insideTriangle` is visited by the
bounding box loops. -/
theorem inside_mem_box (f : Fragment K) (width height y x : Int) (hx : 0 ≤ x)
    (hxw : x < width) (hy : 0 ≤ y) (hyh : y < height)
    (h : (f.inside width height y x).1 = true) :
    (y, x) ∈ List.product (intRange (f.minY height) (f.maxY height))
      (intRange (f.minX width) (f.maxX width)) := by
  have hw : (0 : K) < (width : K) := by exact_mod_cast (by omega : (0 : Int) < width)
  have hh : (0 : K) < (height : K) := by exact_mod_cast (by omega : (0 : Int) < height)
  obtain ⟨a0, a1, a2, hs, ex, ey⟩ := insideTriangle_true _ _ _ _ _ _ _ _ _ h
  have bx := convex_bounds _ _ _ f.sp0.x f.sp1.x f.sp2.x a0 a1 a2 hs
  have by1 := convex_bounds _ _ _ f.sp0.y f.sp1.y f.sp2.y a0 a1 a2 hs
  rw [ex] at bx
  rw [ey] at by1
  simp only [pixelCentre] at bx by1
  have cx : (((x : K) + 0.5) / (width : K) * 2.0 - 1.0 + 1.0) * 0.5 * (width : K) = (x : K) + 0.5 := by
    field_simp
    ring
  have cy : (1.0 - (1.0 - ((y : K) + 0.5) / (height : K) * 2.0)) * 0.5 * (height : K) = (y : K) + 0.5 := by
    field_simp
    ring
  have hwh : (0 : K) ≤ 0.5 * (width : K) := by positivity
  have hhh : (0 : K) ≤ 0.5 * (height : K) := by positivity
  refine List.mem_product.mpr ?_
  rw [mem_intRange, mem_intRange]
  unfold Fragment.minX Fragment.maxX Fragment.minY Fragment.maxY
  refine ⟨⟨max_le hy ?_, le_min (by omega) ?_⟩, ⟨max_le hx ?_, le_min (by omega) ?_⟩⟩
  · rw [Int.floor_le_iff]
    have := mul_le_mul_of_nonneg_right (sub_le_sub_left by1.2 (1.0 : K)) hhh
    rw [← mul_assoc, ← mul_assoc, cy] at this
    have e : ((y : K) + 0.5) < (y : K) + 1 := by norm_num
    exact lt_of_le_of_lt this e
  · have := mul_le_mul_of_nonneg_right (sub_le_sub_left by1.1 (1.0 : K)) hhh
    rw [← mul_assoc, ← mul_assoc, cy] at this
    have e : ((y : K) - 1) < (y : K) + 0.5 := by norm_num; linarith
    have := lt_of_lt_of_le e this
    have h3 : (y : Int) - 1 < ⌈(1.0 - min f.sp0.y (min f.sp1.y f.sp2.y)) * 0.5 * (height : K)⌉ := by
      rw [Int.lt_ceil]
      push_cast
      exact this
    omega
  · rw [Int.floor_le_iff]
    have := mul_le_mul_of_nonneg_right (add_le_add_right bx.1 (1.0 : K)) hwh
    rw [← mul_assoc, ← mul_assoc, cx] at this
    have e : ((x : K) + 0.5) < (x : K) + 1 := by norm_num
    exact lt_of_le_of_lt this e
  · have := mul_le_mul_of_nonneg_right (add_le_add_right bx.2 (1.0 : K)) hwh
    rw [← mul_assoc, ← mul_assoc, cx] at this
    have e : ((x : K) - 1) < (x : K) + 0.5 := by norm_num; linarith
    have := lt_of_lt_of_le e this
    have h3 : (x : Int) - 1 < ⌈(max f.sp0.x (max f.sp1.x f.sp2.x) + 1.0) * 0.5 * (width : K)⌉ := by
      rw [Int.lt_ceil]
      push_cast
      exact this
    omega

theorem rasterizeCall_sameFrame (sqrt : K → K) (tex : Option Texture) (r : Renderer K)
    (c : Renderer.Call K) : (Renderer.rasterizeCall sqrt tex r c).SameFrame r := by
  rw [rasterizeCall_eq]
  split_ifs
  · exact Renderer.SameFrame.refl r
  · rw [foldl_rows]
    exact foldl_shadePixel_sameFrame _ _ r

theorem update_of_not_inside (f : Fragment K) (width height y x : Int) (c : Pixel K × K)
    (h : ¬ (f.inside width height y x).1 = true) : f.update width height y x c = c := by
  unfold Fragment.update
  simp only []
  rw [if_neg]
  exact fun hh => h hh.1

/-- One call of `rasterizeTriangle` acts on every pixel of the frame as `cellStep`. -/
theorem rasterizeCall_cell (sqrt : K → K) (tex : Option Texture) (r : Renderer K)
    (c : Renderer.Call K) (hwf : r.WF) (y x : Int) (hx : 0 ≤ x) (hxw : x < r.width)
    (hy : 0 ≤ y) (hyh : y < r.height) :
    (Renderer.rasterizeCall sqrt tex r c).cell (y * r.width + x).toNat =
      r.cellStep sqrt tex y x (r.cell (y * r.width + x).toNat) c := by
  have hlt := pixel_index_lt r.width r.height y x hx hxw hy hyh
  rw [rasterizeCall_eq]
  unfold Renderer.cellStep
  split_ifs with hc
  · rfl
  · rw [foldl_rows]
    have hnd : (List.product
        (intRange ((r.fragment sqrt tex c).minY r.height) ((r.fragment sqrt tex c).maxY r.height))
        (intRange ((r.fragment sqrt tex c).minX r.width)
          ((r.fragment sqrt tex c).maxX r.width))).Nodup :=
      List.Nodup.product (nodup_intRange _ _) (nodup_intRange _ _)
    rw [foldl_shadePixel_cell _ _ hnd
      r ?_ y x hx hxw hy (by rw [hwf.1]; exact hlt) (by rw [hwf.2]; exact hlt)]
    · by_cases hin : ((r.fragment sqrt tex c).inside r.width r.height y x).1 = true
      · rw [if_pos (inside_mem_box _ _ _ _ _ hx hxw hy hyh hin)]
      · rw [update_of_not_inside _ _ _ _ _ _ hin]
        simp
    · intro p hp
      obtain ⟨h1, h2⟩ := List.mem_product.mp hp
      rw [mem_intRange] at h1 h2
      unfold Fragment.minY at h1
      unfold Fragment.minX Fragment.maxX at h2
      have a1 := le_max_left (0 : Int)
        ⌊(1.0 - max (r.fragment sqrt tex c).sp0.y
          (max (r.fragment sqrt tex c).sp1.y (r.fragment sqrt tex c).sp2.y)) * 0.5 * (r.height : K)⌋
      have a2 := le_max_left (0 : Int)
        ⌊(min (r.fragment sqrt tex c).sp0.x
          (min (r.fragment sqrt tex c).sp1.x (r.fragment sqrt tex c).sp2.x) + 1.0) * 0.5 * (r.width : K)⌋
      have a3 := min_le_left (r.width - 1)
        ⌈(max (r.fragment sqrt tex c).sp0.x
          (max (r.fragment sqrt tex c).sp1.x (r.fragment sqrt tex c).sp2.x) + 1.0) * 0.5 * (r.width : K)⌉
      refine ⟨le_trans a1 h1.1, le_trans a2 h2.1, ?_⟩
      have := le_trans h2.2 a3
      omega

/-! ## `render` as a fold of per-pixel steps -/

theorem cellStep_congr (sqrt : K → K) (tex : Option Texture) (r s : Renderer K)
    (h : r.SameFrame s) (y x : Int) (cell : Pixel K × K) (c : Renderer.Call K) :
    r.cellStep sqrt tex y x cell c = s.cellStep sqrt tex y x cell c := by
  obtain ⟨e1, e2, e3, e4, -, -⟩ := h
  simp only [Renderer.cellStep, Renderer.signedArea, Renderer.fragment, e1, e2, e3, e4]

theorem WF_of_sameFrame {r s : Renderer K} (h : r.SameFrame s) (hs : s.WF) : r.WF := by
  obtain ⟨e1, e2, -, -, e5, e6⟩ := h
  unfold Renderer.WF
  rw [e1, e2, e5, e6]
  exact hs

/-- The loop of `render` acts on every pixel of the frame as the fold of `cellStep`
over the resolved calls. -/
theorem renderLoop_cell (sqrt : K → K) (mesh : Mesh K) (tex : Option Texture)
    (tris : List Triangle) (r r' : Renderer K) (hwf : r.WF)
    (h : Renderer.renderLoop sqrt mesh tex tris r = some r') :
    r'.SameFrame r ∧ ∀ y x : Int, 0 ≤ x → x < r.width → 0 ≤ y → y < r.height →
      r'.cell (y * r.width + x).toNat =
        (tris.filterMap (Renderer.resolve sqrt mesh)).foldl (r.cellStep sqrt tex y x)
          (r.cell (y * r.width + x).toNat) := by
  induction tris generalizing r with
  | nil =>
    simp only [Renderer.renderLoop, Option.some.injEq] at h
    subst h
    exact ⟨Renderer.SameFrame.refl _, fun _ _ _ _ _ _ => rfl⟩
  | cons tri rest ih =>
    unfold Renderer.renderLoop at h
    cases hres : Renderer.resolve sqrt mesh tri with
    | none => rw [hres] at h; simp at h
    | some c =>
      rw [hres] at h
      simp only [] at h
      have hsf := rasterizeCall_sameFrame sqrt tex r c
      obtain ⟨g1, g2⟩ := ih (Renderer.rasterizeCall sqrt tex r c) (WF_of_sameFrame hsf hwf) h
      refine ⟨g1.trans hsf, ?_⟩
      intro y x hx hxw hy hyh
      have e1 := hsf.1
      have e2 := hsf.2.1
      have := g2 y x hx (by rw [e1]; exact hxw) hy (by rw [e2]; exact hyh)
      rw [e1] at this
      rw [this, List.filterMap_cons, hres, List.foldl_cons,
        rasterizeCall_cell sqrt tex r c hwf y x hx hxw hy hyh]
      congr 1
      funext cell c2
      exact cellStep_congr sqrt tex _ _ hsf y x cell c2

theorem resolve_isSome (sqrt : K → K) (mesh : Mesh K) (hv : mesh.IndexValid) (tri : Triangle)
    (ht : tri ∈ mesh.triangles) : ∃ c, Renderer.resolve sqrt mesh tri = some c ∧
      lookup mesh.vertices tri.v0 = some c.p0 ∧ lookup mesh.vertices tri.v1 = some c.p1 ∧
      lookup mesh.vertices tri.v2 = some c.p2 := by
  obtain ⟨⟨a0, a1⟩, ⟨b0, b1⟩, ⟨c0, c1⟩, hn⟩ := hv tri ht
  have lk : ∀ {α : Type} (xs : List α) (i : Int), 0 ≤ i → i < (xs.length : Int) →
      ∃ v, lookup xs i = some v := by
    intro α xs i h0 h1
    unfold lookup
    rw [if_pos h0]
    have : i.toNat < xs.length := by omega
    exact ⟨xs[i.toNat], List.getElem?_eq_getElem this⟩
  obtain ⟨p0, hp0⟩ := lk mesh.vertices tri.v0 a0 a1
  obtain ⟨p1, hp1⟩ := lk mesh.vertices tri.v1 b0 b1
  obtain ⟨p2, hp2⟩ := lk mesh.vertices tri.v2 c0 c1
  unfold Renderer.resolve
  rw [hp0, hp1, hp2]
  simp only []
  by_cases hnn : tri.n0 ≥ 0 ∧ tri.n1 ≥ 0 ∧ tri.n2 ≥ 0
  · obtain ⟨d0, d1, d2⟩ := hn hnn
    obtain ⟨n0, hn0⟩ := lk mesh.normals tri.n0 hnn.1 d0
    obtain ⟨n1, hn1⟩ := lk mesh.normals tri.n1 hnn.2.1 d1
    obtain ⟨n2, hn2⟩ := lk mesh.normals tri.n2 hnn.2.2 d2
    rw [if_pos hnn, hn0, hn1, hn2]
    simp only []
    split_ifs
    · exact ⟨_, rfl, rfl, rfl, rfl⟩
    · exact ⟨_, rfl, rfl, rfl, rfl⟩
  · rw [if_neg hnn]
    simp only []
    split_ifs
    · exact ⟨_, rfl, rfl, rfl, rfl⟩
    · exact ⟨_, rfl, rfl, rfl, rfl⟩

theorem renderLoop_isSome (sqrt : K → K) (mesh : Mesh K) (tex : Option Texture)
    (tris : List Triangle) (h : ∀ tri ∈ tris, ∃ c, Renderer.resolve sqrt mesh tri = some c)
    (r : Renderer K) : ∃ r', Renderer.renderLoop sqrt mesh tex tris r = some r' := by
  induction tris generalizing r with
  | nil => exact ⟨r, rfl⟩
  | cons tri rest ih =>
    obtain ⟨c, hc⟩ := h tri (List.mem_cons_self _ _)
    unfold Renderer.renderLoop
    rw [hc]
    exact ih (fun t ht => h t (List.mem_cons_of_mem _ ht)) _

theorem callOf_positions (sqrt : K → K) (mesh : Mesh K) (tri : Triangle) :
    (mesh.callOf sqrt tri).p0 = mesh.position tri.v0 ∧
    (mesh.callOf sqrt tri).p1 = mesh.position tri.v1 ∧
    (mesh.callOf sqrt tri).p2 = mesh.position tri.v2 := by
  unfold Mesh.callOf
  simp only []
  split_ifs <;> exact ⟨rfl, rfl, rfl⟩

theorem resolve_eq_callOf (sqrt : K → K) (mesh : Mesh K) (tri : Triangle) (c : Renderer.Call K)
    (h : Renderer.resolve sqrt mesh tri = some c) : c = mesh.callOf sqrt tri := by
  unfold Renderer.resolve at h
  unfold Mesh.callOf Mesh.position Mesh.normal
  cases h0 : lookup mesh.vertices tri.v0 with
  | none => simp [h0] at h
  | some p0 =>
    cases h1 : lookup mesh.vertices tri.v1 with
    | none => simp [h0, h1] at h
    | some p1 =>
      cases h2 : lookup mesh.vertices tri.v2 with
      | none => simp [h0, h1, h2] at h
      | some p2 =>
        simp only [h0, h1, h2] at h
        simp only [Option.getD_some]
        by_cases hn : tri.n0 ≥ 0 ∧ tri.n1 ≥ 0 ∧ tri.n2 ≥ 0
        · simp only [if_pos hn] at h ⊢
          cases g0 : lookup mesh.normals tri.n0 with
          | none => simp [g0] at h
          | some n0 =>
            cases g1 : lookup mesh.normals tri.n1 with
            | none => simp [g0, g1] at h
            | some n1 =>
              cases g2 : lookup mesh.normals tri.n2 with
              | none => simp [g0, g1, g2] at h
              | some n2 =>
                simp only [g0, g1, g2, Option.getD_some] at h ⊢
                split_ifs at h ⊢ <;> simp only [Option.some.injEq] at h <;> exact h.symm
        · simp only [if_neg hn] at h ⊢
          split_ifs at h ⊢ <;> simp only [Option.some.injEq] at h <;> exact h.symm

theorem calls_eq_map (sqrt : K → K) (mesh : Mesh K) (tris : List Triangle)
    (h : ∀ tri ∈ tris, ∃ c, Renderer.resolve sqrt mesh tri = some c) :
    tris.filterMap (Renderer.resolve sqrt mesh) = tris.map (mesh.callOf sqrt) := by
  induction tris with
  | nil => rfl
  | cons t rest ih =>
    obtain ⟨c, hc⟩ := h t (List.mem_cons_self _ _)
    rw [List.filterMap_cons, hc, List.map_cons, ih (fun t ht => h t (List.mem_cons_of_mem _ ht)),
      resolve_eq_callOf sqrt mesh t c hc]

/-! ## Depth-tested writes on one pixel -/

theorem minOver_nil {T : Type} (cov : T → Bool) (d : T → K) (z0 : K) :
    minOver cov d z0 [] = z0 := rfl

theorem minOver_cons {T : Type} (cov : T → Bool) (d : T → K) (z0 : K) (t : T) (ts : List T) :
    minOver cov d z0 (t :: ts) =
      minOver cov d (if cov t = true then min z0 (d t) else z0) ts := by
  unfold minOver
  by_cases h : cov t = true
  · simp [List.filter_cons, h]
  · simp [List.filter_cons, h]

theorem minOver_le {T : Type} (cov : T → Bool) (d : T → K) (z0 : K) (ts : List T) :
    minOver cov d z0 ts ≤ z0 := by
  induction ts generalizing z0 with
  | nil => exact le_refl _
  | cons t ts ih =>
    rw [minOver_cons]
    split_ifs
    · exact le_trans (ih _) (min_le_left _ _)
    · exact ih _

theorem minOver_le_of_mem {T : Type} (cov : T → Bool) (d : T → K) (z0 : K) (ts : List T)
    (t : T) (ht : t ∈ ts) (hc : cov t = true) : minOver cov d z0 ts ≤ d t := by
  induction ts generalizing z0 with
  | nil => cases ht
  | cons a ts ih =>
    rw [minOver_cons]
    rcases List.mem_cons.mp ht with h | h
    · subst h
      rw [if_pos hc]
      exact le_trans (minOver_le _ _ _ _) (min_le_right _ _)
    · exact ih _ h

theorem minOver_attained {T : Type} (cov : T → Bool) (d : T → K) (z0 : K) (ts : List T) :
    minOver cov d z0 ts = z0 ∨ ∃ t ∈ ts, cov t = true ∧ d t = minOver cov d z0 ts := by
  induction ts generalizing z0 with
  | nil => exact Or.inl rfl
  | cons a ts ih =>
    rw [minOver_cons]
    rcases ih (if cov a = true then min z0 (d a) else z0) with h | ⟨t, ht, hc, hd⟩
    · rw [h]
      split_ifs with hc
      · rcases min_choice z0 (d a) with e | e
        · exact Or.inl e
        · exact Or.inr ⟨a, List.mem_cons_self _ _, hc, e.symm⟩
      · exact Or.inl rfl
    · exact Or.inr ⟨t, List.mem_cons_of_mem _ ht, hc, hd⟩

/-- The depth component after a run of depth-tested writes is the running minimum. -/
theorem foldl_depthStep_snd {T : Type} (cov : T → Bool) (d : T → K)
    (wr : T → Pixel K → Pixel K) (ts : List T) (cell : Pixel K × K) :
    (ts.foldl (depthStep cov d wr) cell).2 = minOver cov d cell.2 ts := by
  induction ts generalizing cell with
  | nil => rfl
  | cons t ts ih =>
    rw [List.foldl_cons, ih, minOver_cons]
    congr 1
    unfold depthStep
    by_cases hc : cov t = true
    · by_cases hd : d t < cell.2
      · simp only [hc, hd, and_self, if_true, min_eq_right hd.le]
      · simp only [hc, hd, and_false, if_false, if_true, min_eq_left (not_lt.mp hd)]
    · simp only [hc, false_and, if_false]
      simp

/-- The full result of a run of depth-tested writes: when some covering triangle is
strictly nearer than the initial depth, the pixel is the one written by the first
triangle of the list that attains the minimum; otherwise nothing changes. -/
theorem foldl_depthStep {T : Type} (cov : T → Bool) (d : T → K) (wr : T → Pixel K → Pixel K)
    (habs : ∀ t t2 p, wr t (wr t2 p) = wr t p) (ts : List T) (p0 : Pixel K) (z0 : K) :
    (minOver cov d z0 ts < z0 →
      ∃ w, ts.find? (fun t => cov t && decide (d t = minOver cov d z0 ts)) = some w ∧
        ts.foldl (depthStep cov d wr) (p0, z0) = (wr w p0, minOver cov d z0 ts)) ∧
    (¬ minOver cov d z0 ts < z0 → ts.foldl (depthStep cov d wr) (p0, z0) = (p0, z0)) := by
  induction ts generalizing p0 z0 with
  | nil =>
    constructor
    · intro h
      exact absurd h (lt_irrefl _)
    · intro _
      rfl
  | cons t ts ih =>
    rw [minOver_cons, List.foldl_cons]
    by_cases hc : cov t = true
    · by_cases hd : d t < z0
      · have hstep : depthStep cov d wr (p0, z0) t = (wr t p0, d t) := by
          unfold depthStep
          exact if_pos ⟨hc, hd⟩
        have hmin : (if cov t = true then min z0 (d t) else z0) = d t := by
          rw [if_pos hc, min_eq_right hd.le]
        rw [hstep, hmin]
        obtain ⟨i1, i2⟩ := ih (wr t p0) (d t)
        have hle := minOver_le cov d (d t) ts
        constructor
        · intro _
          by_cases hm : minOver cov d (d t) ts < d t
          · obtain ⟨w, hw1, hw2⟩ := i1 hm
            refine ⟨w, ?_, ?_⟩
            · rw [List.find?_cons]
              have : (cov t && decide (d t = minOver cov d (d t) ts)) = false := by
                simp [ne_of_gt hm]
              rw [this]
              exact hw1
            · rw [hw2, habs]
          · have he : minOver cov d (d t) ts = d t := le_antisymm hle (not_lt.mp hm)
            refine ⟨t, ?_, ?_⟩
            · rw [List.find?_cons]
              have : (cov t && decide (d t = minOver cov d (d t) ts)) = true := by
                simp [hc, he]
              rw [this]
            · rw [i2 hm, he]
        · intro h
          exact absurd (lt_of_le_of_lt hle hd) h
      · have hstep : depthStep cov d wr (p0, z0) t = (p0, z0) := by
          unfold depthStep
          exact if_neg (fun h => hd h.2)
        have hmin : (if cov t = true then min z0 (d t) else z0) = z0 := by
          rw [if_pos hc, min_eq_left (not_lt.mp hd)]
        rw [hstep, hmin]
        obtain ⟨i1, i2⟩ := ih p0 z0
        constructor
        · intro hm
          obtain ⟨w, hw1, hw2⟩ := i1 hm
          refine ⟨w, ?_, hw2⟩
          rw [List.find?_cons]
          have : (cov t && decide (d t = minOver cov d z0 ts)) = false := by
            have : d t ≠ minOver cov d z0 ts := by
              intro e
              rw [← e] at hm
              exact hd hm
            simp [this]
          rw [this]
          exact hw1
        · exact i2
    · have hstep : depthStep cov d wr (p0, z0) t = (p0, z0) := by
        unfold depthStep
        exact if_neg (fun h => hc h.1)
      have hmin : (if cov t = true then min z0 (d t) else z0) = z0 := if_neg hc
      rw [hstep, hmin]
      obtain ⟨i1, i2⟩ := ih p0 z0
      constructor
      · intro hm
        obtain ⟨w, hw1, hw2⟩ := i1 hm
        refine ⟨w, ?_, hw2⟩
        rw [List.find?_cons]
        have : (cov t && decide (d t = minOver cov d z0 ts)) = false := by
          simp [hc]
        rw [this]
        exact hw1
      · exact i2

theorem written_absorb (f g : Fragment K) (h : f.tex = g.tex) (a b c z a2 b2 c2 z2 : K)
    (p : Pixel K) : f.written a b c z (g.written a2 b2 c2 z2 p) = f.written a b c z p := by
  unfold Fragment.written
  rw [← h]
  cases f.tex with
  | none => rfl
  | some t =>
    simp only []
    split_ifs <;> rfl

theorem writeOf_absorb (sqrt : K → K) (r : Renderer K) (mesh : Mesh K) (y x : Int)
    (t t2 : Triangle) (p : Pixel K) :
    r.writeOf sqrt mesh y x t (r.writeOf sqrt mesh y x t2 p) = r.writeOf sqrt mesh y x t p := by
  unfold Renderer.writeOf
  apply written_absorb
  rfl

/-- On the call made for a mesh triangle, `cellStep` is the depth-tested write. -/
theorem cellStep_callOf (sqrt : K → K) (r : Renderer K) (mesh : Mesh K) (y x : Int)
    (cell : Pixel K × K) (tri : Triangle) :
    r.cellStep sqrt mesh.tex y x cell (mesh.callOf sqrt tri) =
      depthStep (r.covers mesh y x) (r.triDepth mesh y x) (r.writeOf sqrt mesh y x) cell tri := by
  obtain ⟨e0, e1, e2⟩ := callOf_positions sqrt mesh tri
  unfold Renderer.cellStep depthStep Fragment.update Renderer.covers Renderer.coversPixel
    Renderer.writeOf Renderer.triDepth Renderer.depthAtPixel Renderer.weightsAtPixel
    Fragment.depthAt Fragment.inside Renderer.fragment
  simp only [e0, e1, e2, Bool.and_eq_true, decide_eq_true_eq]
  by_cases hc : r.signedArea (mesh.position tri.v0) (mesh.position tri.v1)
      (mesh.position tri.v2) ≤ 0
  · rw [if_pos hc, if_neg]
    intro h
    exact absurd h.1.1 (not_lt.mpr hc)
  · rw [if_neg hc]
    have hpos := not_le.mp hc
    simp only [hpos, true_and]

theorem clear_sameFrame (r : Renderer K) : r.clear.SameFrame r := by
  unfold Renderer.clear
  exact ⟨rfl, rfl, rfl, rfl, by simp, by simp⟩

theorem clear_cell (r : Renderer K) (i : Nat) (h1 : i < r.framebuffer.length)
    (h2 : i < r.zBuffer.length) : r.clear.cell i = (Pixel.default, DBL_MAX) := by
  unfold Renderer.clear Renderer.cell
  simp only [List.getD_eq_getElem?_getD, List.getElem?_map, List.getElem?_eq_getElem h1,
    List.getElem?_eq_getElem h2, Option.map_some', Option.getD_some]

theorem render_eq_renderLoop (sqrt : K → K) (r : Renderer K) (mesh : Mesh K) :
    r.render sqrt mesh = Renderer.renderLoop sqrt mesh mesh.tex mesh.triangles r.clear := rfl

/-- On a well-formed renderer and an index-valid mesh, `render` returns, and the pair
(framebuffer entry, zBuffer entry) of every pixel of the frame is the result of the
depth-tested writes of the mesh triangles, in mesh order, on a cleared pixel. -/
theorem render_cell (sqrt : K → K) (r : Renderer K) (mesh : Mesh K) (hwf : r.WF)
    (hv : mesh.IndexValid) :
    ∃ r', r.render sqrt mesh = some r' ∧ r'.SameFrame r ∧
      ∀ y x : Int, 0 ≤ x → x < r.width → 0 ≤ y → y < r.height →
        r'.cell (y * r.width + x).toNat =
          mesh.triangles.foldl
            (depthStep (r.covers mesh y x) (r.triDepth mesh y x) (r.writeOf sqrt mesh y x))
            (Pixel.default, DBL_MAX) := by
  have hres : ∀ tri ∈ mesh.triangles, ∃ c, Renderer.resolve sqrt mesh tri = some c := by
    intro tri ht
    obtain ⟨c, hc, -⟩ := resolve_isSome sqrt mesh hv tri ht
    exact ⟨c, hc⟩
  obtain ⟨r', hr'⟩ := renderLoop_isSome sqrt mesh mesh.tex mesh.triangles hres r.clear
  have hcs := clear_sameFrame r
  have hwfc : r.clear.WF := WF_of_sameFrame hcs hwf
  obtain ⟨g1, g2⟩ := renderLoop_cell sqrt mesh mesh.tex mesh.triangles r.clear r' hwfc hr'
  refine ⟨r', hr', g1.trans hcs, ?_⟩
  intro y x hx hxw hy hyh
  have e1 := hcs.1
  have e2 := hcs.2.1
  have hlt := pixel_index_lt r.width r.height y x hx hxw hy hyh
  have := g2 y x hx (by rw [e1]; exact hxw) hy (by rw [e2]; exact hyh)
  rw [e1] at this
  rw [this, calls_eq_map sqrt mesh mesh.triangles hres, List.foldl_map,
    clear_cell r _ (by rw [hwf.1]; exact hlt) (by rw [hwf.2]; exact hlt)]
  congr 1
  funext cell tri
  rw [cellStep_congr sqrt mesh.tex _ _ hcs, cellStep_callOf]

theorem cell_getElem (r : Renderer K) (i : Nat) (h1 : i < r.framebuffer.length)
    (h2 : i < r.zBuffer.length) :
    r.framebuffer[i]? = some (r.cell i).1 ∧ r.zBuffer[i]? = some (r.cell i).2 := by
  unfold Renderer.cell
  simp [List.getD_eq_getElem?_getD, List.getElem?_eq_getElem h1, List.getElem?_eq_getElem h2]

theorem writeOf_depth (sqrt : K → K) (r : Renderer K) (mesh : Mesh K) (y x : Int)
    (tri : Triangle) (p : Pixel K) :
    (r.writeOf sqrt mesh y x tri p).depth = r.triDepth mesh y x tri := by
  unfold Renderer.writeOf Fragment.written
  simp only []
  split
  · split_ifs <;> rfl
  · rfl

theorem writeOf_intensity (sqrt : K → K) (r : Renderer K) (mesh : Mesh K) (y x : Int)
    (tri : Triangle) (p : Pixel K) :
    (r.writeOf sqrt mesh y x tri p).intensity =
      shadeOf sqrt r.lightDir (mesh.position tri.v0) (mesh.position tri.v1)
        (mesh.position tri.v2) := by
  obtain ⟨e0, e1, e2⟩ := callOf_positions sqrt mesh tri
  unfold Renderer.writeOf Fragment.written Renderer.fragment
  simp only [e0, e1, e2]
  split
  · split_ifs <;> rfl
  · rfl

/-! ## Example scenes -/

theorem DBL_MAX_pos : (0 : K) < DBL_MAX := by
  unfold DBL_MAX
  have h : (2 : K) ^ 971 < 2 ^ 1024 := pow_lt_pow_right₀ (by norm_num) (by norm_num)
  linarith

theorem onePixel_WF : (onePixel : Renderer K).WF := by
  unfold Renderer.WF onePixel
  simp

theorem oneTriangle_indexValid (z : K) : (oneTriangle z).IndexValid := by
  intro tri ht
  simp only [oneTriangle, List.mem_singleton] at ht
  subst ht
  simp [oneTriangle, tri012]

theorem backTriangle_indexValid : (backTriangle : Mesh K).IndexValid := by
  intro tri ht
  simp only [backTriangle, List.mem_singleton] at ht
  subst ht
  simp [backTriangle, tri012]

theorem identity_transformPoint (p : Vec3 K) :
    (Mat4.identity : Mat4 K).transformPoint p = p := by
  unfold Mat4.transformPoint Mat4.identity
  simp
  norm_num

theorem position_oneTriangle (z : K) :
    (oneTriangle z).position tri012.v0 = ⟨-1, -1, z⟩ ∧
      (oneTriangle z).position tri012.v1 = ⟨1, -1, z⟩ ∧
      (oneTriangle z).position tri012.v2 = ⟨0, 1, z⟩ := by
  simp [Mesh.position, lookup, oneTriangle, tri012]

theorem position_backTriangle :
    (backTriangle : Mesh K).position tri012.v0 = ⟨-1, -1, 0⟩ ∧
      (backTriangle : Mesh K).position tri012.v1 = ⟨0, 1, 0⟩ ∧
      (backTriangle : Mesh K).position tri012.v2 = ⟨1, -1, 0⟩ := by
  simp [Mesh.position, lookup, backTriangle, tri012]

theorem covers_oneTriangle (z : K) :
    (onePixel : Renderer K).covers (oneTriangle z) 0 0 tri012 = true := by
  obtain ⟨e0, e1, e2⟩ := position_oneTriangle z
  simp only [Renderer.covers, Renderer.coversPixel, e0, e1, e2, Renderer.signedArea, onePixel,
    identity_transformPoint, pixelCentre, insideTriangle]
  norm_num

theorem triDepth_oneTriangle (z : K) :
    (onePixel : Renderer K).triDepth (oneTriangle z) 0 0 tri012 = z := by
  obtain ⟨e0, e1, e2⟩ := position_oneTriangle z
  simp only [Renderer.triDepth, Renderer.depthAtPixel, Renderer.weightsAtPixel, e0, e1, e2,
    onePixel, identity_transformPoint, pixelCentre, insideTriangle]
  norm_num
  ring

theorem signedArea_backTriangle :
    (onePixel : Renderer K).signedArea ((backTriangle : Mesh K).position tri012.v0)
      ((backTriangle : Mesh K).position tri012.v1)
      ((backTriangle : Mesh K).position tri012.v2) ≤ 0 := by
  obtain ⟨e0, e1, e2⟩ := position_backTriangle (K := K)
  simp only [e0, e1, e2, Renderer.signedArea, onePixel, identity_transformPoint]
  norm_num

/-! ## Depth buffer contents after `render` -/

theorem minDepth_oneTriangle (z : K) (hz : z ≤ DBL_MAX) :
    (onePixel : Renderer K).minDepth (oneTriangle z) 0 0 = z := by
  unfold Renderer.minDepth
  have : (oneTriangle z).triangles = [tri012] := rfl
  rw [this, minOver_cons, minOver_nil, if_pos (covers_oneTriangle z), triDepth_oneTriangle,
    min_eq_right hz]

theorem winner_oneTriangle (z : K) (hz : z ≤ DBL_MAX) :
    (onePixel : Renderer K).winner (oneTriangle z) 0 0 = some tri012 := by
  unfold Renderer.winner
  have : (oneTriangle z).triangles = [tri012] := rfl
  rw [this, List.find?_cons, covers_oneTriangle z, triDepth_oneTriangle,
    minDepth_oneTriangle z hz]
  simp

/-- With the bounding-box conversions taken to be exact: after `render` of an
index-valid mesh on a well-formed renderer, for every pixel
`(x, y)` with `0 <= x < width` and `0 <= y < height` the depth stored in
`framebuffer[y*width+x]` and in `zBuffer[y*width+x]` is `minDepth`, the minimum of the
sentinel and the interpolated depths of the mesh triangles that pass back-face culling
and whose projection contains the pixel centre: it is at most the sentinel and at most
the depth of every such triangle, and it is the sentinel or the depth of one of them;
it is the sentinel when there is no such triangle. -/
theorem render_depth_is_min (sqrt : K → K) (r : Renderer K) (mesh : Mesh K) (hwf : r.WF)
    (hv : mesh.IndexValid) :
    ∃ r', r.render sqrt mesh = some r' ∧
      ∀ y x : Int, 0 ≤ x → x < r.width → 0 ≤ y → y < r.height →
        (r'.framebuffer[(y * r.width + x).toNat]?).map Pixel.depth =
            some (r.minDepth mesh y x) ∧
          r'.zBuffer[(y * r.width + x).toNat]? = some (r.minDepth mesh y x) ∧
          r.minDepth mesh y x ≤ DBL_MAX ∧
          (∀ tri ∈ mesh.triangles, r.covers mesh y x tri = true →
            r.minDepth mesh y x ≤ r.triDepth mesh y x tri) ∧
          (r.minDepth mesh y x = DBL_MAX ∨
            ∃ tri ∈ mesh.triangles, r.covers mesh y x tri = true ∧
              r.triDepth mesh y x tri = r.minDepth mesh y x) ∧
          ((∀ tri ∈ mesh.triangles, r.covers mesh y x tri = false) →
            r.minDepth mesh y x = DBL_MAX) := by
  obtain ⟨r', h1, hsf, h2⟩ := render_cell sqrt r mesh hwf hv
  refine ⟨r', h1, ?_⟩
  intro y x hx hxw hy hyh
  have hlt := pixel_index_lt r.width r.height y x hx hxw hy hyh
  have hc := h2 y x hx hxw hy hyh
  obtain ⟨g1, g2⟩ := cell_getElem r' (y * r.width + x).toNat
    (by rw [hsf.2.2.2.2.1, hwf.1]; exact hlt) (by rw [hsf.2.2.2.2.2, hwf.2]; exact hlt)
  have hz : (r'.cell (y * r.width + x).toNat).2 = r.minDepth mesh y x := by
    rw [hc, foldl_depthStep_snd]
    rfl
  have hd : (r'.cell (y * r.width + x).toNat).1.depth = r.minDepth mesh y x := by
    obtain ⟨i1, i2⟩ := foldl_depthStep (r.covers mesh y x) (r.triDepth mesh y x)
      (r.writeOf sqrt mesh y x) (writeOf_absorb sqrt r mesh y x) mesh.triangles
      Pixel.default DBL_MAX
    by_cases hm : minOver (r.covers mesh y x) (r.triDepth mesh y x) DBL_MAX mesh.triangles
        < DBL_MAX
    · obtain ⟨w, hw1, hw2⟩ := i1 hm
      rw [hc, hw2]
      simp only []
      rw [writeOf_depth]
      have := List.find?_some hw1
      simp only [Bool.and_eq_true, decide_eq_true_eq] at this
      exact this.2
    · rw [hc, i2 hm]
      have hle := minOver_le (r.covers mesh y x) (r.triDepth mesh y x) DBL_MAX mesh.triangles
      exact (le_antisymm hle (not_lt.mp hm)).symm
  have hatt := minOver_attained (r.covers mesh y x) (r.triDepth mesh y x) DBL_MAX
    mesh.triangles
  refine ⟨?_, ?_, minOver_le _ _ _ _, fun tri ht hcov => minOver_le_of_mem _ _ _ _ tri ht hcov,
    hatt, ?_⟩
  · rw [g1, Option.map_some', hd]
  · rw [g2, hz]
  · intro hnone
    rcases hatt with h | ⟨t, ht, hcov, -⟩
    · exact h
    · rw [hnone t ht] at hcov
      cases hcov

theorem render_depth_is_min_witness :
    (onePixel : Renderer ℝ).WF ∧ (oneTriangle (0 : ℝ)).IndexValid ∧
      ∃ r', (onePixel : Renderer ℝ).render Real.sqrt (oneTriangle 0) = some r' ∧
        (r'.framebuffer[0]?).map Pixel.depth = some 0 ∧ r'.zBuffer[0]? = some 0 := by
  obtain ⟨r', h1, h2⟩ := render_depth_is_min Real.sqrt (onePixel : Renderer ℝ) (oneTriangle 0)
    onePixel_WF (oneTriangle_indexValid 0)
  obtain ⟨a, b, -⟩ := h2 0 0 (le_refl _) (by simp [onePixel]) (le_refl _) (by simp [onePixel])
  rw [minDepth_oneTriangle (0 : ℝ) DBL_MAX_pos.le] at a b
  refine ⟨onePixel_WF, oneTriangle_indexValid 0, r', h1, ?_, ?_⟩
  · simpa [onePixel] using a
  · simpa [onePixel] using b

/-! ## Back-face culling -/

theorem rasterizeTriangle_culled (sqrt : K → K) (r : Renderer K) (p0 p1 p2 n0 n1 n2 : Vec3 K)
    (u0 v0 u1 v1 u2 v2 : K) (tex : Option Texture) (hc : r.signedArea p0 p1 p2 ≤ 0) :
    r.rasterizeTriangle sqrt p0 p1 p2 n0 n1 n2 u0 v0 u1 v1 u2 v2 tex = r := by
  unfold Renderer.rasterizeTriangle
  unfold Renderer.signedArea at hc
  simp only []
  rw [if_pos hc]

theorem renderLoop_culled (sqrt : K → K) (mesh : Mesh K) (tex : Option Texture)
    (tris : List Triangle) (r : Renderer K)
    (h : ∀ tri ∈ tris, ∃ c, Renderer.resolve sqrt mesh tri = some c ∧
      r.signedArea c.p0 c.p1 c.p2 ≤ 0) :
    Renderer.renderLoop sqrt mesh tex tris r = some r := by
  induction tris with
  | nil => rfl
  | cons t rest ih =>
    obtain ⟨c, hc, ha⟩ := h t (List.mem_cons_self _ _)
    unfold Renderer.renderLoop
    rw [hc]
    simp only []
    unfold Renderer.rasterizeCall
    rw [rasterizeTriangle_culled sqrt r _ _ _ _ _ _ _ _ _ _ _ _ tex ha]
    exact ih (fun t2 ht2 => h t2 (List.mem_cons_of_mem _ ht2))

/-- C3: a triangle whose projected signed area is zero or negative makes
`rasterizeTriangle` return the renderer unchanged (no pixel of the framebuffer or of the
zBuffer is written); consequently `render` of an index-valid mesh all of whose triangles
are such leaves the cleared buffers: every framebuffer entry is the background pixel and
every zBuffer entry is the sentinel. -/
theorem culled_triangle_writes_nothing (sqrt : K → K) (r : Renderer K) (mesh : Mesh K)
    (p0 p1 p2 n0 n1 n2 : Vec3 K) (u0 v0 u1 v1 u2 v2 : K) (tex : Option Texture)
    (hc : r.signedArea p0 p1 p2 ≤ 0) (hv : mesh.IndexValid)
    (hall : ∀ tri ∈ mesh.triangles,
      r.signedArea (mesh.position tri.v0) (mesh.position tri.v1) (mesh.position tri.v2) ≤ 0) :
    r.rasterizeTriangle sqrt p0 p1 p2 n0 n1 n2 u0 v0 u1 v1 u2 v2 tex = r ∧
      ∃ r', r.render sqrt mesh = some r' ∧ r'.width = r.width ∧ r'.height = r.height ∧
        r'.framebuffer.length = r.framebuffer.length ∧
        r'.zBuffer.length = r.zBuffer.length ∧
        (∀ p ∈ r'.framebuffer, p = Pixel.default) ∧ (∀ z ∈ r'.zBuffer, z = DBL_MAX) := by
  refine ⟨rasterizeTriangle_culled sqrt r p0 p1 p2 n0 n1 n2 u0 v0 u1 v1 u2 v2 tex hc,
    r.clear, ?_, rfl, rfl, ?_, ?_, ?_, ?_⟩
  · rw [render_eq_renderLoop]
    apply renderLoop_culled
    intro tri ht
    obtain ⟨c, h1, h2, h3, h4⟩ := resolve_isSome sqrt mesh hv tri ht
    refine ⟨c, h1, ?_⟩
    have e := resolve_eq_callOf sqrt mesh tri c h1
    obtain ⟨e0, e1, e2⟩ := callOf_positions sqrt mesh tri
    rw [e, e0, e1, e2]
    exact hall tri ht
  · simp [Renderer.clear]
  · simp [Renderer.clear]
  · intro p hp
    simp only [Renderer.clear, List.mem_map] at hp
    obtain ⟨_, _, rfl⟩ := hp
    rfl
  · intro z hz
    simp only [Renderer.clear, List.mem_map] at hz
    obtain ⟨_, _, rfl⟩ := hz
    rfl

theorem culled_triangle_writes_nothing_witness :
    (onePixel : Renderer ℝ).signedArea ⟨-1, -1, 0⟩ ⟨0, 1, 0⟩ ⟨1, -1, 0⟩ ≤ 0 ∧
      (backTriangle : Mesh ℝ).IndexValid ∧
      (onePixel : Renderer ℝ).rasterizeTriangle Real.sqrt ⟨-1, -1, 0⟩ ⟨0, 1, 0⟩ ⟨1, -1, 0⟩
          ⟨0, 0, 1⟩ ⟨0, 0, 1⟩ ⟨0, 0, 1⟩ 0 0 0 0 0 0 none = onePixel ∧
      ∃ r', (onePixel : Renderer ℝ).render Real.sqrt backTriangle = some r' ∧
        r'.width = 1 ∧ r'.height = 1 ∧ r'.framebuffer.length = 1 ∧ r'.zBuffer.length = 1 ∧
        (∀ p ∈ r'.framebuffer, p = Pixel.default) ∧ (∀ z ∈ r'.zBuffer, z = DBL_MAX) := by
  have hc : (onePixel : Renderer ℝ).signedArea ⟨-1, -1, 0⟩ ⟨0, 1, 0⟩ ⟨1, -1, 0⟩ ≤ 0 := by
    simp only [Renderer.signedArea, onePixel, identity_transformPoint]
    norm_num
  have hall : ∀ tri ∈ (backTriangle : Mesh ℝ).triangles,
      (onePixel : Renderer ℝ).signedArea ((backTriangle : Mesh ℝ).position tri.v0)
        ((backTriangle : Mesh ℝ).position tri.v1) ((backTriangle : Mesh ℝ).position tri.v2) ≤ 0 := by
    intro tri ht
    simp only [backTriangle, List.mem_singleton] at ht
    subst ht
    exact signedArea_backTriangle
  have h := culled_triangle_writes_nothing Real.sqrt onePixel backTriangle ⟨-1, -1, 0⟩ ⟨0, 1, 0⟩
    ⟨1, -1, 0⟩ ⟨0, 0, 1⟩ ⟨0, 0, 1⟩ ⟨0, 0, 1⟩ 0 0 0 0 0 0 none hc backTriangle_indexValid hall
  exact ⟨hc, backTriangle_indexValid, h⟩

/-! ## Tie-breaking: the earliest nearest triangle wins -/

theorem shadeOf_ge (sqrt : K → K) (lightDir p0 p1 p2 : Vec3 K) :
    0.3 ≤ shadeOf sqrt lightDir p0 p1 p2 := by
  unfold shadeOf
  have : (0 : K) ≤ max 0.0
      ((((p1.sub p0).cross (p2.sub p0)).normalized sqrt).dot lightDir) := by
    norm_num
  linarith

theorem pixelOf_textured (sqrt : K → K) (r : Renderer K) (mesh : Mesh K) (y x : Int)
    (tri : Triangle) (t : Texture) (ht : mesh.tex = some t) :
    (r.pixelOf sqrt mesh y x tri).hasColor = true ∧
    (r.pixelOf sqrt mesh y x tri).r = (t.sample (r.uvAtPixel sqrt mesh y x tri).1
        (r.uvAtPixel sqrt mesh y x tri).2 : K × K × K).1 *
      shadeOf sqrt r.lightDir (mesh.position tri.v0) (mesh.position tri.v1)
        (mesh.position tri.v2) ∧
    (r.pixelOf sqrt mesh y x tri).g = (t.sample (r.uvAtPixel sqrt mesh y x tri).1
        (r.uvAtPixel sqrt mesh y x tri).2 : K × K × K).2.1 *
      shadeOf sqrt r.lightDir (mesh.position tri.v0) (mesh.position tri.v1)
        (mesh.position tri.v2) ∧
    (r.pixelOf sqrt mesh y x tri).b = (t.sample (r.uvAtPixel sqrt mesh y x tri).1
        (r.uvAtPixel sqrt mesh y x tri).2 : K × K × K).2.2 *
      shadeOf sqrt r.lightDir (mesh.position tri.v0) (mesh.position tri.v1)
        (mesh.position tri.v2) := by
  have hw : t.width > 0 := by
    unfold Mesh.tex at ht
    split_ifs at ht with h
    simp only [Option.some.injEq] at ht
    rw [← ht]
    exact h
  obtain ⟨e0, e1, e2⟩ := callOf_positions sqrt mesh tri
  unfold Renderer.pixelOf Renderer.writeOf Fragment.written Renderer.fragment
    Renderer.uvAtPixel
  simp only [ht, if_pos hw, e0, e1, e2, and_self]

/-- The stored pixel of a rendered frame at a pixel that some front-facing covering
triangle reaches below the sentinel. -/
theorem render_pixel (sqrt : K → K) (r : Renderer K) (mesh : Mesh K) (hwf : r.WF)
    (hv : mesh.IndexValid) :
    ∃ r', r.render sqrt mesh = some r' ∧ r'.SameFrame r ∧
      ∀ y x : Int, 0 ≤ x → x < r.width → 0 ≤ y → y < r.height →
        (r.minDepth mesh y x < DBL_MAX →
          ∃ w, r.winner mesh y x = some w ∧
            r'.framebuffer[(y * r.width + x).toNat]? = some (r.pixelOf sqrt mesh y x w)) ∧
        (¬ r.minDepth mesh y x < DBL_MAX →
          r'.framebuffer[(y * r.width + x).toNat]? = some Pixel.default) := by
  obtain ⟨r', h1, hsf, h2⟩ := render_cell sqrt r mesh hwf hv
  refine ⟨r', h1, hsf, ?_⟩
  intro y x hx hxw hy hyh
  have hlt := pixel_index_lt r.width r.height y x hx hxw hy hyh
  have hc := h2 y x hx hxw hy hyh
  obtain ⟨g1, -⟩ := cell_getElem r' (y * r.width + x).toNat
    (by rw [hsf.2.2.2.2.1, hwf.1]; exact hlt) (by rw [hsf.2.2.2.2.2, hwf.2]; exact hlt)
  obtain ⟨i1, i2⟩ := foldl_depthStep (r.covers mesh y x) (r.triDepth mesh y x)
    (r.writeOf sqrt mesh y x) (writeOf_absorb sqrt r mesh y x) mesh.triangles
    Pixel.default DBL_MAX
  constructor
  · intro hm
    obtain ⟨w, hw1, hw2⟩ := i1 hm
    refine ⟨w, hw1, ?_⟩
    rw [g1, hc, hw2]
    rfl
  · intro hm
    rw [g1, hc, i2 hm]

/-- With the bounding-box conversions taken to be exact: after `render` of an
index-valid mesh on a well-formed renderer, at
every pixel of the frame that is covered by at least one front-facing triangle whose
interpolated depth there is below the sentinel, the stored pixel is the one written by
the earliest triangle in mesh order among the covering front-facing triangles that
attain the minimum depth: its intensity is that triangle's shade and, when the mesh is
textured, its colour is the texture sample at the interpolated UV times that shade. -/
theorem render_earliest_nearest_wins (sqrt : K → K) (r : Renderer K) (mesh : Mesh K)
    (hwf : r.WF) (hv : mesh.IndexValid) :
    ∃ r', r.render sqrt mesh = some r' ∧
      ∀ y x : Int, 0 ≤ x → x < r.width → 0 ≤ y → y < r.height →
        (∃ tri ∈ mesh.triangles, r.covers mesh y x tri = true ∧
          r.triDepth mesh y x tri < DBL_MAX) →
        ∃ w, r.winner mesh y x = some w ∧
          r'.framebuffer[(y * r.width + x).toNat]? = some (r.pixelOf sqrt mesh y x w) ∧
          (r.pixelOf sqrt mesh y x w).intensity =
            shadeOf sqrt r.lightDir (mesh.position w.v0) (mesh.position w.v1)
              (mesh.position w.v2) ∧
          (∀ t, mesh.tex = some t →
            (r.pixelOf sqrt mesh y x w).hasColor = true ∧
            (r.pixelOf sqrt mesh y x w).r =
              (t.sample (r.uvAtPixel sqrt mesh y x w).1
                (r.uvAtPixel sqrt mesh y x w).2 : K × K × K).1 *
              shadeOf sqrt r.lightDir (mesh.position w.v0) (mesh.position w.v1)
                (mesh.position w.v2) ∧
            (r.pixelOf sqrt mesh y x w).g =
              (t.sample (r.uvAtPixel sqrt mesh y x w).1
                (r.uvAtPixel sqrt mesh y x w).2 : K × K × K).2.1 *
              shadeOf sqrt r.lightDir (mesh.position w.v0) (mesh.position w.v1)
                (mesh.position w.v2) ∧
            (r.pixelOf sqrt mesh y x w).b =
              (t.sample (r.uvAtPixel sqrt mesh y x w).1
                (r.uvAtPixel sqrt mesh y x w).2 : K × K × K).2.2 *
              shadeOf sqrt r.lightDir (mesh.position w.v0) (mesh.position w.v1)
                (mesh.position w.v2)) := by
  obtain ⟨r', h1, -, h2⟩ := render_pixel sqrt r mesh hwf hv
  refine ⟨r', h1, ?_⟩
  intro y x hx hxw hy hyh hex
  obtain ⟨tri, ht, hcov, hd⟩ := hex
  have hm : r.minDepth mesh y x < DBL_MAX :=
    lt_of_le_of_lt (minOver_le_of_mem _ _ _ _ tri ht hcov) hd
  obtain ⟨w, hw1, hw2⟩ := (h2 y x hx hxw hy hyh).1 hm
  exact ⟨w, hw1, hw2, writeOf_intensity sqrt r mesh y x w Pixel.default,
    fun t htex => pixelOf_textured sqrt r mesh y x w t htex⟩

theorem render_earliest_nearest_wins_witness :
    (onePixel : Renderer ℝ).WF ∧ (oneTriangle (0 : ℝ)).IndexValid ∧
      (∃ tri ∈ (oneTriangle (0 : ℝ)).triangles,
        (onePixel : Renderer ℝ).covers (oneTriangle 0) 0 0 tri = true ∧
        (onePixel : Renderer ℝ).triDepth (oneTriangle 0) 0 0 tri < DBL_MAX) ∧
      ∃ r', (onePixel : Renderer ℝ).render Real.sqrt (oneTriangle 0) = some r' ∧
        r'.framebuffer[0]? =
          some ((onePixel : Renderer ℝ).pixelOf Real.sqrt (oneTriangle 0) 0 0 tri012) ∧
        ((onePixel : Renderer ℝ).pixelOf Real.sqrt (oneTriangle 0) 0 0 tri012).intensity =
          shadeOf Real.sqrt (⟨0, 0, 1⟩ : Vec3 ℝ) ⟨-1, -1, 0⟩ ⟨1, -1, 0⟩ ⟨0, 1, 0⟩ := by
  have hex : ∃ tri ∈ (oneTriangle (0 : ℝ)).triangles,
      (onePixel : Renderer ℝ).covers (oneTriangle 0) 0 0 tri = true ∧
      (onePixel : Renderer ℝ).triDepth (oneTriangle 0) 0 0 tri < DBL_MAX := by
    refine ⟨tri012, List.mem_singleton.mpr rfl, covers_oneTriangle 0, ?_⟩
    rw [triDepth_oneTriangle]
    exact DBL_MAX_pos
  obtain ⟨r', h1, h2⟩ := render_earliest_nearest_wins Real.sqrt (onePixel : Renderer ℝ)
    (oneTriangle 0) onePixel_WF (oneTriangle_indexValid 0)
  obtain ⟨w, hw, hp, hi, -⟩ :=
    h2 0 0 (le_refl _) (by simp [onePixel]) (le_refl _) (by simp [onePixel]) hex
  rw [winner_oneTriangle (0 : ℝ) DBL_MAX_pos.le] at hw
  simp only [Option.some.injEq] at hw
  subst hw
  obtain ⟨e0, e1, e2⟩ := position_oneTriangle (0 : ℝ)
  rw [e0, e1, e2] at hi
  refine ⟨onePixel_WF, oneTriangle_indexValid 0, hex, r', h1, ?_, hi⟩
  simpa [onePixel] using hp

theorem clear_eq_of_sameFrame (r s : Renderer K) (h : r.SameFrame s) : r.clear = s.clear := by
  obtain ⟨e1, e2, e3, e4, e5, e6⟩ := h
  have f1 : r.framebuffer.map (fun _ => (Pixel.default : Pixel K)) =
      s.framebuffer.map (fun _ => (Pixel.default : Pixel K)) := by
    rw [List.map_const', List.map_const', e5]
  have f2 : r.zBuffer.map (fun _ => (DBL_MAX : K)) = s.zBuffer.map (fun _ => (DBL_MAX : K)) := by
    rw [List.map_const', List.map_const', e6]
  unfold Renderer.clear
  rw [f1, f2, e1, e2, e3, e4]

theorem renderLoop_sameFrame (sqrt : K → K) (mesh : Mesh K) (tex : Option Texture)
    (tris : List Triangle) (r r' : Renderer K)
    (h : Renderer.renderLoop sqrt mesh tex tris r = some r') : r'.SameFrame r := by
  induction tris generalizing r with
  | nil =>
    simp only [Renderer.renderLoop, Option.some.injEq] at h
    subst h
    exact Renderer.SameFrame.refl _
  | cons tri rest ih =>
    unfold Renderer.renderLoop at h
    cases hres : Renderer.resolve sqrt mesh tri with
    | none => rw [hres] at h; simp at h
    | some c =>
      rw [hres] at h
      exact (ih _ h).trans (rasterizeCall_sameFrame sqrt tex r c)

/-- C5: `render` does not depend on the previous buffer contents.  Two renderer states
with the same width, height, light, transform and buffer sizes, whatever their
framebuffer and zBuffer hold, give the same result of `render` (same framebuffer, same
zBuffer); and rendering the mesh again on the state left by `render` gives that state
again. -/
theorem render_ignores_old_buffers (sqrt : K → K) (r1 r2 : Renderer K) (mesh : Mesh K)
    (hw : r1.width = r2.width) (hh : r1.height = r2.height) (hl : r1.lightDir = r2.lightDir)
    (hvp : r1.viewProj = r2.viewProj)
    (hfb : r1.framebuffer.length = r2.framebuffer.length)
    (hzb : r1.zBuffer.length = r2.zBuffer.length) :
    r1.render sqrt mesh = r2.render sqrt mesh ∧
      ∀ r', r1.render sqrt mesh = some r' → r'.render sqrt mesh = some r' := by
  have key : ∀ a b : Renderer K, a.SameFrame b → a.render sqrt mesh = b.render sqrt mesh := by
    intro a b hab
    rw [render_eq_renderLoop, render_eq_renderLoop, clear_eq_of_sameFrame a b hab]
  refine ⟨key r1 r2 ⟨hw, hh, hl, hvp, hfb, hzb⟩, ?_⟩
  intro r' h
  have hsf : r'.SameFrame r1 := by
    rw [render_eq_renderLoop] at h
    exact (renderLoop_sameFrame sqrt mesh _ _ _ _ h).trans (clear_sameFrame r1)
  rw [key r' r1 hsf]
  exact h

theorem render_ignores_old_buffers_witness :
    ((staleOnePixel : Renderer ℝ).width = (onePixel : Renderer ℝ).width ∧
      (staleOnePixel : Renderer ℝ).height = (onePixel : Renderer ℝ).height ∧
      (staleOnePixel : Renderer ℝ).lightDir = (onePixel : Renderer ℝ).lightDir ∧
      (staleOnePixel : Renderer ℝ).viewProj = (onePixel : Renderer ℝ).viewProj ∧
      (staleOnePixel : Renderer ℝ).framebuffer.length =
        (onePixel : Renderer ℝ).framebuffer.length ∧
      (staleOnePixel : Renderer ℝ).zBuffer.length = (onePixel : Renderer ℝ).zBuffer.length) ∧
    ((staleOnePixel : Renderer ℝ).render Real.sqrt (oneTriangle 0) =
        (onePixel : Renderer ℝ).render Real.sqrt (oneTriangle 0) ∧
      ∀ r', (staleOnePixel : Renderer ℝ).render Real.sqrt (oneTriangle 0) = some r' →
        r'.render Real.sqrt (oneTriangle 0) = some r') :=
  ⟨⟨rfl, rfl, rfl, rfl, rfl, rfl⟩,
    render_ignores_old_buffers Real.sqrt staleOnePixel onePixel (oneTriangle 0) rfl rfl rfl rfl
      rfl rfl⟩

/-! ## Coverage of a single triangle -/

theorem dot_sq_le (a b : Vec3 K) : a.dot b * a.dot b ≤ a.dot a * b.dot b := by
  unfold Vec3.dot
  nlinarith [sq_nonneg (a.x * b.y - a.y * b.x), sq_nonneg (a.x * b.z - a.z * b.x),
    sq_nonneg (a.y * b.z - a.z * b.y)]

theorem normalized_dot_self_le_one (sqrt : K → K) (hsqrt : ∀ a : K, 0 ≤ a → sqrt a * sqrt a = a)
    (v : Vec3 K) : (v.normalized sqrt).dot (v.normalized sqrt) ≤ 1 := by
  unfold Vec3.normalized
  simp only []
  split_ifs with h
  · have hpos : (0 : K) < v.length sqrt := lt_trans (by norm_num) h
    have hne : v.length sqrt ≠ 0 := ne_of_gt hpos
    have hsq : v.length sqrt * v.length sqrt = v.x * v.x + v.y * v.y + v.z * v.z := by
      unfold Vec3.length
      apply hsqrt
      nlinarith [mul_self_nonneg v.x, mul_self_nonneg v.y, mul_self_nonneg v.z]
    unfold Vec3.dot Vec3.div
    simp only []
    have : v.x / v.length sqrt * (v.x / v.length sqrt) +
        v.y / v.length sqrt * (v.y / v.length sqrt) +
        v.z / v.length sqrt * (v.z / v.length sqrt) =
        (v.x * v.x + v.y * v.y + v.z * v.z) / (v.length sqrt * v.length sqrt) := by
      field_simp
    rw [this, ← hsq, div_self (mul_ne_zero hne hne)]
  · unfold Vec3.dot
    norm_num

theorem dot_le_one (n l : Vec3 K) (hn : n.dot n ≤ 1) (hl : l.dot l ≤ 1) : n.dot l ≤ 1 := by
  by_contra h
  have h1 : 1 < n.dot l := not_le.mp h
  have h2 := dot_sq_le n l
  have hn0 : 0 ≤ n.dot n := by
    unfold Vec3.dot
    nlinarith [mul_self_nonneg n.x, mul_self_nonneg n.y, mul_self_nonneg n.z]
  have hl0 : 0 ≤ l.dot l := by
    unfold Vec3.dot
    nlinarith [mul_self_nonneg l.x, mul_self_nonneg l.y, mul_self_nonneg l.z]
  have h3 : n.dot n * l.dot l ≤ 1 := by nlinarith
  nlinarith

theorem shadeOf_le_one (sqrt : K → K) (hsqrt : ∀ a : K, 0 ≤ a → sqrt a * sqrt a = a)
    (lightDir p0 p1 p2 : Vec3 K) (hl : lightDir.dot lightDir ≤ 1) :
    shadeOf sqrt lightDir p0 p1 p2 ≤ 1 := by
  unfold shadeOf
  have h1 := dot_le_one _ lightDir
    (normalized_dot_self_le_one sqrt hsqrt ((p1.sub p0).cross (p2.sub p0))) hl
  have h2 : max 0.0 ((((p1.sub p0).cross (p2.sub p0)).normalized sqrt).dot lightDir) ≤ 1 :=
    max_le (by norm_num) h1
  generalize max 0.0 ((((p1.sub p0).cross (p2.sub p0)).normalized sqrt).dot lightDir) = m
    at h2
  norm_num
  linarith

/-- C6 (amended): the shade `0.3 + 0.7 * max(0, faceNormal.dot(lightDir))` computed by
`rasterizeTriangle` (no upper clamp is applied) is at least 0.3 for every triangle and
every light direction; it is 0.3 when the dot product is not positive and at most 1.0
whenever the dot product is at most 1. -/
theorem shade_bounds (sqrt : K → K) (lightDir p0 p1 p2 : Vec3 K) :
    0.3 ≤ shadeOf sqrt lightDir p0 p1 p2 ∧
      ((((p1.sub p0).cross (p2.sub p0)).normalized sqrt).dot lightDir ≤ 0 →
        shadeOf sqrt lightDir p0 p1 p2 = 0.3) ∧
      ((((p1.sub p0).cross (p2.sub p0)).normalized sqrt).dot lightDir ≤ 1 →
        shadeOf sqrt lightDir p0 p1 p2 ≤ 1.0) := by
  refine ⟨shadeOf_ge sqrt lightDir p0 p1 p2, ?_, ?_⟩
  · intro h
    unfold shadeOf
    have e : (0.0 : K) = 0 := by norm_num
    rw [e, max_eq_left h]
    norm_num
  · intro h
    unfold shadeOf
    have h2 : max 0.0 ((((p1.sub p0).cross (p2.sub p0)).normalized sqrt).dot lightDir) ≤ 1 :=
      max_le (by norm_num) h
    generalize max 0.0 ((((p1.sub p0).cross (p2.sub p0)).normalized sqrt).dot lightDir) = m
      at h2
    norm_num
    linarith

theorem shade_bounds_witness :
    (((((⟨1, 0, 0⟩ : Vec3 ℝ).sub ⟨0, 0, 0⟩).cross ((⟨0, 1, 0⟩ : Vec3 ℝ).sub ⟨0, 0, 0⟩)).normalized
        Real.sqrt).dot ⟨0, 0, 1⟩ ≤ 1) ∧
      (0.3 : ℝ) ≤ shadeOf Real.sqrt ⟨0, 0, 1⟩ ⟨0, 0, 0⟩ ⟨1, 0, 0⟩ ⟨0, 1, 0⟩ ∧
      shadeOf Real.sqrt (⟨0, 0, 1⟩ : Vec3 ℝ) ⟨0, 0, 0⟩ ⟨1, 0, 0⟩ ⟨0, 1, 0⟩ ≤ 1.0 := by
  have hd : ((((⟨1, 0, 0⟩ : Vec3 ℝ).sub ⟨0, 0, 0⟩).cross
      ((⟨0, 1, 0⟩ : Vec3 ℝ).sub ⟨0, 0, 0⟩)).normalized Real.sqrt).dot ⟨0, 0, 1⟩ ≤ 1 := by
    simp only [Vec3.sub, Vec3.cross, Vec3.normalized, Vec3.length, Vec3.div, Vec3.dot]
    norm_num
  have h := shade_bounds Real.sqrt (⟨0, 0, 1⟩ : Vec3 ℝ) ⟨0, 0, 0⟩ ⟨1, 0, 0⟩ ⟨0, 1, 0⟩
  exact ⟨hd, h.1, h.2.2 hd⟩

/-- C6 as stated fails: for the triangle `(0,0,0) (1,0,0) (0,1,0)`, whose face normal is
`(0,0,1)`, and the finite light direction `(0,0,10)` the shade is `0.3 + 0.7 * 10 = 7.3`,
outside `[0.3, 1.0]`: the code bounds the dot product below by 0 but not above by 1. -/
theorem shade_exceeds_one_for_long_light :
    shadeOf Real.sqrt (⟨0, 0, 10⟩ : Vec3 ℝ) ⟨0, 0, 0⟩ ⟨1, 0, 0⟩ ⟨0, 1, 0⟩ = 7.3 ∧
      ¬ (shadeOf Real.sqrt (⟨0, 0, 10⟩ : Vec3 ℝ) ⟨0, 0, 0⟩ ⟨1, 0, 0⟩ ⟨0, 1, 0⟩ ≤ 1.0) := by
  have h : shadeOf Real.sqrt (⟨0, 0, 10⟩ : Vec3 ℝ) ⟨0, 0, 0⟩ ⟨1, 0, 0⟩ ⟨0, 1, 0⟩ = 7.3 := by
    simp only [shadeOf, Vec3.sub, Vec3.cross, Vec3.normalized, Vec3.length, Vec3.div, Vec3.dot]
    norm_num
  rw [h]
  refine ⟨rfl, ?_⟩
  norm_num

/-! ## Pixel ranges -/

theorem byte_range (b : Fin 256) : (0 : K) ≤ (b.val : K) / 255.0 ∧ (b.val : K) / 255.0 ≤ 1 := by
  have h1 : (0 : K) ≤ (b.val : K) := Nat.cast_nonneg _
  have h2 : (b.val : K) ≤ 255 := by
    have : b.val ≤ 255 := by omega
    exact_mod_cast this
  have e : (255.0 : K) = 255 := by norm_num
  rw [e]
  constructor
  · exact div_nonneg h1 (by norm_num)
  · rw [div_le_one (by norm_num)]
    exact h2

theorem sample_range (t : Texture) (u v : K) :
    (0 ≤ (t.sample u v : K × K × K).1 ∧ (t.sample u v : K × K × K).1 ≤ 1) ∧
    (0 ≤ (t.sample u v : K × K × K).2.1 ∧ (t.sample u v : K × K × K).2.1 ≤ 1) ∧
    (0 ≤ (t.sample u v : K × K × K).2.2 ∧ (t.sample u v : K × K × K).2.2 ≤ 1) := by
  unfold Texture.sample
  split_ifs
  · norm_num
  · exact ⟨byte_range _, byte_range _, byte_range _⟩

theorem Pixel.Bounded.channels {p : Pixel K} (h : p.Bounded) :
    0 ≤ p.r ∧ p.r ≤ 1 ∧ 0 ≤ p.g ∧ p.g ≤ 1 ∧ 0 ≤ p.b ∧ p.b ≤ 1 := by
  rcases h with h | h
  · rw [h]
    simp [Pixel.default]
  · exact h.2.2.2

theorem default_bounded : (Pixel.default : Pixel K).Bounded := Or.inl rfl

theorem written_bounded (f : Fragment K) (h1 : 0.3 ≤ f.shade) (h2 : f.shade ≤ 1)
    (a b c z : K) (hz : z < DBL_MAX) (old : Pixel K) (ho : old.Bounded) :
    (f.written a b c z old).Bounded := by
  obtain ⟨r0, r1, g0, g1, b0, b1⟩ := ho.channels
  have hs0 : (0 : K) ≤ f.shade := le_trans (by norm_num) h1
  right
  unfold Fragment.written
  simp only []
  split
  · rename_i tex _
    split_ifs
    · obtain ⟨⟨s0, s1⟩, ⟨s2, s3⟩, ⟨s4, s5⟩⟩ := sample_range tex
        (a * f.u0 + b * f.u1 + c * f.u2 : K) (a * f.v0 + b * f.v1 + c * f.v2)
      exact ⟨hz, h1, h2, mul_nonneg s0 hs0, mul_le_one₀ s1 hs0 h2, mul_nonneg s2 hs0,
        mul_le_one₀ s3 hs0 h2, mul_nonneg s4 hs0, mul_le_one₀ s5 hs0 h2⟩
    · exact ⟨hz, h1, h2, r0, r1, g0, g1, b0, b1⟩
  · exact ⟨hz, h1, h2, r0, r1, g0, g1, b0, b1⟩

theorem getD_bounded (l : List (Pixel K)) (h : ∀ p ∈ l, p.Bounded) (i : Nat) :
    (l.getD i Pixel.default).Bounded := by
  rw [List.getD_eq_getElem?_getD]
  cases hi : l[i]? with
  | none => exact default_bounded
  | some p => exact h p (List.getElem?_mem hi)

theorem getD_le (l : List K) (h : ∀ z ∈ l, z ≤ DBL_MAX) (i : Nat) :
    l.getD i 0 ≤ DBL_MAX := by
  rw [List.getD_eq_getElem?_getD]
  cases hi : l[i]? with
  | none => exact DBL_MAX_pos.le
  | some p => exact h p (List.getElem?_mem hi)

theorem shadePixel_bounded (r : Renderer K) (f : Fragment K) (h1 : 0.3 ≤ f.shade)
    (h2 : f.shade ≤ 1) (y x : Int) (hr : r.Bounded) : (r.shadePixel f y x).Bounded := by
  unfold Renderer.shadePixel
  simp only []
  split
  · exact hr
  · split_ifs with hz
    · have hz2 := lt_of_lt_of_le hz (getD_le r.zBuffer hr.2 _)
      constructor
      · intro p hp
        rcases List.mem_or_eq_of_mem_set hp with h | h
        · exact hr.1 p h
        · rw [h]
          exact written_bounded f h1 h2 _ _ _ _ hz2 _ (getD_bounded _ hr.1 _)
      · intro z hzm
        rcases List.mem_or_eq_of_mem_set hzm with h | h
        · exact hr.2 z h
        · rw [h]
          exact hz2.le
    · exact hr

theorem foldl_shadePixel_bounded (f : Fragment K) (h1 : 0.3 ≤ f.shade) (h2 : f.shade ≤ 1)
    (L : List (Int × Int)) (r : Renderer K) (hr : r.Bounded) :
    (L.foldl (fun acc p => acc.shadePixel f p.1 p.2) r).Bounded := by
  induction L generalizing r with
  | nil => exact hr
  | cons p l ih =>
    rw [List.foldl_cons]
    exact ih _ (shadePixel_bounded r f h1 h2 p.1 p.2 hr)

theorem rasterizeCall_bounded (sqrt : K → K) (hsqrt : ∀ a : K, 0 ≤ a → sqrt a * sqrt a = a)
    (tex : Option Texture) (r : Renderer K) (hl : r.lightDir.dot r.lightDir ≤ 1)
    (c : Renderer.Call K) (hr : r.Bounded) : (Renderer.rasterizeCall sqrt tex r c).Bounded := by
  rw [rasterizeCall_eq]
  split_ifs
  · exact hr
  · rw [foldl_rows]
    exact foldl_shadePixel_bounded _ (shadeOf_ge sqrt r.lightDir c.p0 c.p1 c.p2)
      (shadeOf_le_one sqrt hsqrt r.lightDir c.p0 c.p1 c.p2 hl) _ r hr

theorem renderLoop_bounded (sqrt : K → K) (hsqrt : ∀ a : K, 0 ≤ a → sqrt a * sqrt a = a)
    (mesh : Mesh K) (tex : Option Texture) (tris : List Triangle) (r r' : Renderer K)
    (hl : r.lightDir.dot r.lightDir ≤ 1) (hr : r.Bounded)
    (h : Renderer.renderLoop sqrt mesh tex tris r = some r') : r'.Bounded := by
  induction tris generalizing r with
  | nil =>
    simp only [Renderer.renderLoop, Option.some.injEq] at h
    subst h
    exact hr
  | cons tri rest ih =>
    unfold Renderer.renderLoop at h
    cases hres : Renderer.resolve sqrt mesh tri with
    | none => rw [hres] at h; simp at h
    | some c =>
      rw [hres] at h
      have hsf := rasterizeCall_sameFrame sqrt tex r c
      exact ih _ (by rw [hsf.2.2.1]; exact hl) (rasterizeCall_bounded sqrt hsqrt tex r hl c hr) h

theorem clear_bounded (r : Renderer K) : r.clear.Bounded := by
  constructor
  · intro p hp
    simp only [Renderer.clear, List.mem_map] at hp
    obtain ⟨_, _, rfl⟩ := hp
    exact default_bounded
  · intro z hz
    simp only [Renderer.clear, List.mem_map] at hz
    obtain ⟨_, _, rfl⟩ := hz
    exact le_refl _

/-- In exact arithmetic: with a light direction of length exactly 1 (and `sqrt` an exact
square root on the non-negative numbers), `render` of an index-valid mesh with any `viewProj` returns, and every
framebuffer pixel of the result has intensity and `r`, `g`, `b` in `[0, 1]`; a written
pixel (depth below the sentinel) has intensity in `[0.3, 1]` and a background pixel
(depth at the sentinel) has intensity 0. -/
theorem render_pixels_in_unit_range (sqrt : K → K)
    (hsqrt : ∀ a : K, 0 ≤ a → sqrt a * sqrt a = a) (r : Renderer K) (mesh : Mesh K)
    (hunit : r.lightDir.dot r.lightDir = 1) (hv : mesh.IndexValid) :
    ∃ r', r.render sqrt mesh = some r' ∧
      ∀ p ∈ r'.framebuffer,
        (0 ≤ p.intensity ∧ p.intensity ≤ 1 ∧ 0 ≤ p.r ∧ p.r ≤ 1 ∧ 0 ≤ p.g ∧ p.g ≤ 1 ∧
          0 ≤ p.b ∧ p.b ≤ 1) ∧
        (p.depth < DBL_MAX → 0.3 ≤ p.intensity ∧ p.intensity ≤ 1) ∧
        (p.depth = DBL_MAX → p.intensity = 0) := by
  have hres : ∀ tri ∈ mesh.triangles, ∃ c, Renderer.resolve sqrt mesh tri = some c := by
    intro tri ht
    obtain ⟨c, hc, -⟩ := resolve_isSome sqrt mesh hv tri ht
    exact ⟨c, hc⟩
  obtain ⟨r', hr'⟩ := renderLoop_isSome sqrt mesh mesh.tex mesh.triangles hres r.clear
  refine ⟨r', hr', ?_⟩
  have hb := renderLoop_bounded sqrt hsqrt mesh mesh.tex mesh.triangles r.clear r'
    (le_of_eq hunit) (clear_bounded r) hr'
  intro p hp
  have hpb := hb.1 p hp
  obtain ⟨c0, c1, c2, c3, c4, c5⟩ := hpb.channels
  rcases hpb with h | h
  · refine ⟨⟨?_, ?_, c0, c1, c2, c3, c4, c5⟩, ?_, ?_⟩
    · rw [h]
      simp [Pixel.default]
    · rw [h]
      simp [Pixel.default]
    · intro hd
      rw [h] at hd
      exact absurd hd (lt_irrefl _)
    · intro _
      rw [h]
      rfl
  · refine ⟨⟨le_trans (by norm_num) h.2.1, h.2.2.1, c0, c1, c2, c3, c4, c5⟩, ?_, ?_⟩
    · intro _
      exact ⟨h.2.1, h.2.2.1⟩
    · intro hd
      exact absurd h.1 (by rw [hd]; exact lt_irrefl _)

theorem render_pixels_in_unit_range_witness :
    (∀ a : ℝ, 0 ≤ a → Real.sqrt a * Real.sqrt a = a) ∧
      (onePixel : Renderer ℝ).lightDir.dot (onePixel : Renderer ℝ).lightDir = 1 ∧
      (oneTriangle (0 : ℝ)).IndexValid ∧
      ∃ r', (onePixel : Renderer ℝ).render Real.sqrt (oneTriangle 0) = some r' ∧
        ∀ p ∈ r'.framebuffer,
          (0 ≤ p.intensity ∧ p.intensity ≤ 1 ∧ 0 ≤ p.r ∧ p.r ≤ 1 ∧ 0 ≤ p.g ∧ p.g ≤ 1 ∧
            0 ≤ p.b ∧ p.b ≤ 1) ∧
          (p.depth < DBL_MAX → 0.3 ≤ p.intensity ∧ p.intensity ≤ 1) ∧
          (p.depth = DBL_MAX → p.intensity = 0) := by
  have hs : ∀ a : ℝ, 0 ≤ a → Real.sqrt a * Real.sqrt a = a := fun a ha => Real.mul_self_sqrt ha
  have hu : (onePixel : Renderer ℝ).lightDir.dot (onePixel : Renderer ℝ).lightDir = 1 := by
    simp [onePixel, Vec3.dot]
  exact ⟨hs, hu, oneTriangle_indexValid 0,
    render_pixels_in_unit_range Real.sqrt hs onePixel (oneTriangle 0) hu
      (oneTriangle_indexValid 0)⟩

/-! ## Texture sampling -/

/-- The wrapping of `sample` (`fmod` by 1, then `+ 1` when negative) is the fractional
part. -/
theorem wrap_eq_fract (u : K) : Texture.wrap u = Int.fract u := by
  unfold Texture.wrap fmod trunc
  have e : (1.0 : K) = 1 := by norm_num
  simp only [e, div_one, mul_one]
  by_cases h0 : 0 ≤ u
  · rw [if_pos h0, Int.self_sub_floor, if_neg (not_lt.mpr (Int.fract_nonneg u))]
  · rw [if_neg h0]
    have hle : u ≤ (⌈u⌉ : K) := Int.le_ceil u
    by_cases h1 : u - (⌈u⌉ : K) < 0
    · rw [if_pos h1]
      have hlt : ((⌊u⌋ : Int) : K) < ((⌈u⌉ : Int) : K) :=
        lt_of_le_of_lt (Int.floor_le u) (by linarith)
      have h2 : ⌊u⌋ < ⌈u⌉ := by exact_mod_cast hlt
      have h3 := Int.ceil_le_floor_add_one u
      have h4 : ⌈u⌉ = ⌊u⌋ + 1 := by omega
      rw [h4, ← Int.self_sub_floor]
      push_cast
      ring
    · rw [if_neg h1]
      have h5 : u = (⌈u⌉ : K) := le_antisymm hle (by linarith)
      have h6 : Int.fract u = 0 := by
        rw [h5]
        exact Int.fract_intCast _
      rw [h6]
      linarith

theorem texel_one (n : Int) (hn : 0 < n) : Texture.texel (1 : K) n = 0 := by
  unfold Texture.texel trunc
  have h0 : (0 : K) ≤ 1 * (n : K) := by
    rw [one_mul]
    exact_mod_cast hn.le
  simp only [if_pos h0, one_mul, Int.floor_intCast, Int.tmod_self]
  simp

theorem texel_of_lt_one (c : K) (n : Int) (hn : 0 < n) (h0 : 0 ≤ c) (h1 : c < 1) :
    Texture.texel c n = ⌊c * (n : K)⌋ ∧ 0 ≤ ⌊c * (n : K)⌋ ∧ ⌊c * (n : K)⌋ < n := by
  have hnK : (0 : K) < (n : K) := by exact_mod_cast hn
  have h2 : (0 : K) ≤ c * (n : K) := mul_nonneg h0 hnK.le
  have h3 : c * (n : K) < (n : K) := by
    have := mul_lt_mul_of_pos_right h1 hnK
    rwa [one_mul] at this
  have f0 : 0 ≤ ⌊c * (n : K)⌋ := Int.floor_nonneg.mpr h2
  have f1 : ⌊c * (n : K)⌋ < n := Int.floor_lt.mpr h3
  refine ⟨?_, f0, f1⟩
  unfold Texture.texel trunc
  simp only [if_pos h2, Int.tmod_eq_of_lt f0 f1]
  rw [if_neg (not_lt.mpr f0)]

/-- In exact arithmetic, where the sum `u + 1.0` is formed without rounding: for every
texture (loaded or not) and all `u`, `v`, `sample(u + 1.0, v)` returns the same `(r, g, b)` as
`sample(u, v)`. -/
theorem sample_periodic_in_u (t : Texture) (u v : K) :
    (t.sample (u + 1.0) v : K × K × K) = t.sample u v := by
  have e : (1.0 : K) = 1 := by norm_num
  have hc : t.column (u + 1.0) = t.column u := by
    unfold Texture.column
    rw [wrap_eq_fract, wrap_eq_fract, e, Int.fract_add_one]
  unfold Texture.sample
  rw [hc]

/-- C10: a texture with no pixel data answers every query with `(0.5, 0.5, 0.5)`. -/
theorem sample_without_data (t : Texture) (h : t.data = []) (u v : K) :
    (t.sample u v : K × K × K) = (0.5, 0.5, 0.5) := by
  unfold Texture.sample
  rw [h]
  rfl

theorem sample_without_data_witness :
    Texture.empty.data = [] ∧
      (Texture.empty.sample (3.25 : ℚ) (-7.5) : ℚ × ℚ × ℚ) = (0.5, 0.5, 0.5) :=
  ⟨rfl, sample_without_data Texture.empty rfl 3.25 (-7.5)⟩

theorem row_of_fract_zero (t : Texture) (hh : 0 < t.height) (v : K) (hv : Int.fract v = 0) :
    t.row v = 0 := by
  have e : (1.0 : K) = 1 := by norm_num
  unfold Texture.row
  rw [wrap_eq_fract, hv, e, sub_zero]
  exact texel_one t.height hh

theorem column_of_fract_zero (t : Texture) (hw : 0 < t.width) (u : K) (hu : Int.fract u = 0) :
    t.column u = 0 := by
  unfold Texture.column
  rw [wrap_eq_fract, hu]
  obtain ⟨h1, -, -⟩ := texel_of_lt_one (0 : K) t.width hw (le_refl _) (by norm_num)
  rw [h1, zero_mul, Int.floor_zero]

/-- C9 fails on the code: on the 1 x 2 texture `twoRows`, `sample(0, 0)` flips `v = 0` to
`1.0`, the modulo `% height` wraps the row `height` to row 0, and the result is the
texel `(10, 20, 30)` of the first stored row (the top row), not the bottom-left texel
`(40, 50, 60)` stored at column 0 of the last row `height - 1 = 1`. -/
theorem sample_origin_is_first_stored_row :
    twoRows.row (0 : ℚ) = 0 ∧ twoRows.row (0 : ℚ) ≠ twoRows.height - 1 ∧
      (twoRows.sample (0 : ℚ) 0 : ℚ × ℚ × ℚ) = (10 / 255, 20 / 255, 30 / 255) ∧
      (twoRows.sample (0 : ℚ) 0 : ℚ × ℚ × ℚ) ≠ (40 / 255, 50 / 255, 60 / 255) := by
  have hr : twoRows.row (0 : ℚ) = 0 := row_of_fract_zero twoRows (by decide) 0 (by simp)
  have hc : twoRows.column (0 : ℚ) = 0 := column_of_fract_zero twoRows (by decide) 0 (by simp)
  have hs : (twoRows.sample (0 : ℚ) 0 : ℚ × ℚ × ℚ) = (10 / 255, 20 / 255, 30 / 255) := by
    have v0 : (twoRows.byteAt ((0 * twoRows.width + 0) * 3)).val = 10 := by decide
    have v1 : (twoRows.byteAt ((0 * twoRows.width + 0) * 3 + 1)).val = 20 := by decide
    have v2 : (twoRows.byteAt ((0 * twoRows.width + 0) * 3 + 2)).val = 30 := by decide
    have hne : twoRows.data.isEmpty = false := by decide
    unfold Texture.sample
    rw [hr, hc, hne]
    simp only [Bool.false_eq_true, if_false, v0, v1, v2]
    norm_num
  refine ⟨hr, ?_, hs, ?_⟩
  · rw [hr]
    decide
  · rw [hs]
    norm_num

/-! ## Homogeneous transform and composition -/

/-- C12: `transformPoint` is the column-major product `M * (p.x, p.y, p.z, 1)` with its
first three components divided by the fourth component `w` clamped away from zero: the
divisor is `w` when `|w| >= 1e-10` and has magnitude exactly `1e-10` otherwise, so its
magnitude is at least `1e-10` and it is never zero. -/
theorem transformPoint_is_clamped_divide (M : Mat4 K) (p : Vec3 K) :
    M.transformPoint p =
        ⟨M.mulVec p.homogeneous 0 / clampW (M.mulVec p.homogeneous 3),
         M.mulVec p.homogeneous 1 / clampW (M.mulVec p.homogeneous 3),
         M.mulVec p.homogeneous 2 / clampW (M.mulVec p.homogeneous 3)⟩ ∧
      (1e-10 ≤ |M.mulVec p.homogeneous 3| →
        clampW (M.mulVec p.homogeneous 3) = M.mulVec p.homogeneous 3) ∧
      (|M.mulVec p.homogeneous 3| < 1e-10 → |clampW (M.mulVec p.homogeneous 3)| = 1e-10) ∧
      1e-10 ≤ |clampW (M.mulVec p.homogeneous 3)| ∧
      clampW (M.mulVec p.homogeneous 3) ≠ 0 := by
  have heps : (0 : K) < 1e-10 := by norm_num
  have i0 : ∀ r : Fin 4, M.mulVec p.homogeneous r =
      M.m (Mat4.idx 0 r) * p.x + M.m (Mat4.idx 1 r) * p.y + M.m (Mat4.idx 2 r) * p.z +
        M.m (Mat4.idx 3 r) := by
    intro r
    simp [Mat4.mulVec, Vec3.homogeneous, Fin.sum_univ_four]
  have hge : (1e-10 : K) ≤ |clampW (M.mulVec p.homogeneous 3)| := by
    unfold clampW
    split_ifs with h
    · exact h
    · rw [abs_of_pos heps]
  refine ⟨?_, ?_, ?_, hge, ?_⟩
  · unfold Mat4.transformPoint clampW
    simp only [i0]
    have e : ∀ c r : Fin 4, ∀ n : Fin 16, n.val = c.val * 4 + r.val → Mat4.idx c r = n := by
      intro c r n hn
      exact Fin.ext hn.symm
    rw [e 0 0 0 rfl, e 1 0 4 rfl, e 2 0 8 rfl, e 3 0 12 rfl, e 0 1 1 rfl, e 1 1 5 rfl,
      e 2 1 9 rfl, e 3 1 13 rfl, e 0 2 2 rfl, e 1 2 6 rfl, e 2 2 10 rfl, e 3 2 14 rfl,
      e 0 3 3 rfl, e 1 3 7 rfl, e 2 3 11 rfl, e 3 3 15 rfl]
    by_cases h : |M.m 3 * p.x + M.m 7 * p.y + M.m 11 * p.z + M.m 15| < 1e-10
    · simp only [if_pos h, if_neg (not_le.mpr h)]
    · simp only [if_neg h, if_pos (not_lt.mp h)]
  · intro h
    unfold clampW
    rw [if_pos h]
  · intro h
    unfold clampW
    rw [if_neg (not_le.mpr h), abs_of_pos heps]
  · intro h0
    rw [h0, abs_zero] at hge
    exact absurd hge (not_le.mpr heps)

theorem mulVec_homogeneous_w (M : Mat4 K) (p : Vec3 K) :
    M.mulVec p.homogeneous 3 = M.m 3 * p.x + M.m 7 * p.y + M.m 11 * p.z + M.m 15 := by
  have e : ∀ c r : Fin 4, ∀ n : Fin 16, n.val = c.val * 4 + r.val → Mat4.idx c r = n := by
    intro c r n hn
    exact Fin.ext hn.symm
  simp only [Mat4.mulVec, Vec3.homogeneous, Fin.sum_univ_four]
  rw [e 0 3 3 rfl, e 1 3 7 rfl, e 2 3 11 rfl, e 3 3 15 rfl]
  simp

theorem transformPoint_is_clamped_divide_witness :
    (1e-10 : ℚ) ≤ |(Mat4.identity : Mat4 ℚ).mulVec (⟨1, 2, 3⟩ : Vec3 ℚ).homogeneous 3| ∧
      clampW ((Mat4.identity : Mat4 ℚ).mulVec (⟨1, 2, 3⟩ : Vec3 ℚ).homogeneous 3) =
        (Mat4.identity : Mat4 ℚ).mulVec (⟨1, 2, 3⟩ : Vec3 ℚ).homogeneous 3 := by
  have h : (1e-10 : ℚ) ≤
      |(Mat4.identity : Mat4 ℚ).mulVec (⟨1, 2, 3⟩ : Vec3 ℚ).homogeneous 3| := by
    rw [mulVec_homogeneous_w]
    simp [Mat4.identity]
    norm_num
  exact ⟨h, (transformPoint_is_clamped_divide (Mat4.identity : Mat4 ℚ) ⟨1, 2, 3⟩).2.1 h⟩

theorem affine_factories (sqrt cos sin : K → K) (s rad : K) (t eye target up : Vec3 K) :
    (Mat4.identity : Mat4 K).Affine ∧ (Mat4.scale s).Affine ∧ (Mat4.translate t).Affine ∧
      (Mat4.rotateX cos sin rad).Affine ∧ (Mat4.rotateY cos sin rad).Affine ∧
      (Mat4.lookAt sqrt eye target up).Affine := by
  refine ⟨?_, ?_, ?_, ?_, ?_, ?_⟩ <;>
    simp [Mat4.Affine, Mat4.scale, Mat4.translate, Mat4.rotateX, Mat4.rotateY, Mat4.lookAt,
      Mat4.set, Mat4.identity, Function.update]

theorem affine_mul (A B : Mat4 K) (hA : A.Affine) (hB : B.Affine) : (A.mul B).Affine := by
  obtain ⟨a3, a7, a11, a15⟩ := hA
  obtain ⟨b3, b7, b11, b15⟩ := hB
  have e3 : (A.mul B).m 3 = 0 + A.m 3 * B.m 0 + A.m 7 * B.m 1 + A.m 11 * B.m 2 +
      A.m 15 * B.m 3 := rfl
  have e7 : (A.mul B).m 7 = 0 + A.m 3 * B.m 4 + A.m 7 * B.m 5 + A.m 11 * B.m 6 +
      A.m 15 * B.m 7 := rfl
  have e11 : (A.mul B).m 11 = 0 + A.m 3 * B.m 8 + A.m 7 * B.m 9 + A.m 11 * B.m 10 +
      A.m 15 * B.m 11 := rfl
  have e15 : (A.mul B).m 15 = 0 + A.m 3 * B.m 12 + A.m 7 * B.m 13 + A.m 11 * B.m 14 +
      A.m 15 * B.m 15 := rfl
  refine ⟨?_, ?_, ?_, ?_⟩
  · rw [e3, a3, a7, a11, a15, b3]
    ring
  · rw [e7, a3, a7, a11, a15, b7]
    ring
  · rw [e11, a3, a7, a11, a15, b11]
    ring
  · rw [e15, a3, a7, a11, a15, b15]
    ring

theorem perspective_entries (tan : K → K) (fov aspect near far : K) :
    (Mat4.perspective tan fov aspect near far).m 2 = 0 ∧
    (Mat4.perspective tan fov aspect near far).m 6 = 0 ∧
    (Mat4.perspective tan fov aspect near far).m 10 = -(far + near) / (far - near) ∧
    (Mat4.perspective tan fov aspect near far).m 14 = -(2.0 * far * near) / (far - near) ∧
    (Mat4.perspective tan fov aspect near far).m 3 = 0 ∧
    (Mat4.perspective tan fov aspect near far).m 7 = 0 ∧
    (Mat4.perspective tan fov aspect near far).m 11 = -1.0 ∧
    (Mat4.perspective tan fov aspect near far).m 15 = 0 := by
  simp [Mat4.perspective, Mat4.set, Mat4.identity, Function.update]

/-- The depth produced by the perspective matrix for a point at distance `d` in front of
the camera. -/
theorem perspective_z (tan : K → K) (fov aspect near far : K) (p : Vec3 K) (d : K)
    (hp : p.z = -d) (hd : 1e-10 ≤ |d|) :
    ((Mat4.perspective tan fov aspect near far).transformPoint p).z =
      ((far + near) * d - 2 * far * near) / ((far - near) * d) := by
  obtain ⟨e2, e6, e10, e14, e3, e7, e11, e15⟩ := perspective_entries tan fov aspect near far
  have heps : (0 : K) < 1e-10 := by norm_num
  have hd0 : d ≠ 0 := by
    intro h
    rw [h, abs_zero] at hd
    exact absurd hd (not_le.mpr heps)
  unfold Mat4.transformPoint
  simp only [e2, e6, e10, e14, e3, e7, e11, e15, hp]
  have hw : (0 : K) * p.x + 0 * p.y + -1.0 * -d + 0 = d := by norm_num
  rw [hw, if_neg (not_lt.mpr hd)]
  by_cases hfn : far - near = 0
  · rw [hfn]
    simp
  · field_simp
    ring

/-- In exact arithmetic: for `0 < near < far` and a view-space point `p` with `p.z = -d`, `|d| >= 1e-10`,
the `z` component of `perspective(fov, aspect, near, far).transformPoint(p)` lies in
`[-1, 1]` exactly when `near <= d <= far`; `d = near` maps to `-1`, `d = far` maps to
`+1`, and a point behind the camera (`d < 0`) maps above `1`. -/
theorem perspective_depth_range (tan : K → K) (fov aspect near far : K) (hn : 0 < near)
    (hf : near < far) (p : Vec3 K) (d : K) (hp : p.z = -d) (hd : 1e-10 ≤ |d|) :
    ((-1 ≤ ((Mat4.perspective tan fov aspect near far).transformPoint p).z ∧
        ((Mat4.perspective tan fov aspect near far).transformPoint p).z ≤ 1) ↔
      (near ≤ d ∧ d ≤ far)) ∧
    (d = near → ((Mat4.perspective tan fov aspect near far).transformPoint p).z = -1) ∧
    (d = far → ((Mat4.perspective tan fov aspect near far).transformPoint p).z = 1) ∧
    (d < 0 → 1 < ((Mat4.perspective tan fov aspect near far).transformPoint p).z) := by
  rw [perspective_z tan fov aspect near far p d hp hd]
  have heps : (0 : K) < 1e-10 := by norm_num
  have hd0 : d ≠ 0 := by
    intro h
    rw [h, abs_zero] at hd
    exact absurd hd (not_le.mpr heps)
  have hfn : 0 < far - near := sub_pos.mpr hf
  have hfar : 0 < far := lt_trans hn hf
  have hneg : d < 0 → 1 < ((far + near) * d - 2 * far * near) / ((far - near) * d) := by
    intro h
    have hden : (far - near) * d < 0 := mul_neg_of_pos_of_neg hfn h
    rw [lt_div_iff_of_neg hden]
    nlinarith
  refine ⟨?_, ?_, ?_, hneg⟩
  · rcases lt_or_gt_of_ne hd0 with h | h
    · have h1 := hneg h
      constructor
      · intro hh
        exact absurd hh.2 (not_le.mpr h1)
      · intro hh
        exact absurd (lt_of_lt_of_le hn hh.1) (not_lt.mpr h.le)
    · have hden : 0 < (far - near) * d := mul_pos hfn h
      rw [le_div_iff₀ hden, div_le_iff₀ hden]
      constructor
      · intro hh
        constructor
        · nlinarith [hh.1]
        · nlinarith [hh.2]
      · intro hh
        constructor
        · nlinarith [hh.1]
        · nlinarith [hh.2]
  · intro h
    subst h
    have hden : (far - d) * d ≠ 0 := mul_ne_zero (ne_of_gt hfn) hd0
    rw [div_eq_iff hden]
    ring
  · intro h
    subst h
    have hden : (d - near) * d ≠ 0 := mul_ne_zero (ne_of_gt hfn) hd0
    rw [div_eq_iff hden]
    ring

theorem perspective_depth_range_witness :
    (0 : ℝ) < 1 ∧ (1 : ℝ) < 100 ∧ (⟨0, 0, -1⟩ : Vec3 ℝ).z = -1 ∧ (1e-10 : ℝ) ≤ |1| ∧
      ((Mat4.perspective Real.tan 45 1.5 1 100).transformPoint (⟨0, 0, -1⟩ : Vec3 ℝ)).z = -1 := by
  have h1 : (0 : ℝ) < 1 := by norm_num
  have h2 : (1 : ℝ) < 100 := by norm_num
  have h3 : (⟨0, 0, -1⟩ : Vec3 ℝ).z = -1 := rfl
  have h4 : (1e-10 : ℝ) ≤ |1| := by norm_num
  exact ⟨h1, h2, h3, h4,
    (perspective_depth_range Real.tan 45 1.5 1 100 h1 h2 ⟨0, 0, -1⟩ 1 h3 h4).2.1 rfl⟩

/-! ## Normalisation -/

theorem sqrt_one (sqrt : K → K) (hsq : ∀ a : K, 0 ≤ a → sqrt a * sqrt a = a)
    (hnn : ∀ a : K, 0 ≤ a → 0 ≤ sqrt a) : sqrt 1 = 1 := by
  have h1 := hsq 1 zero_le_one
  have h2 := hnn 1 zero_le_one
  nlinarith [sq_nonneg (sqrt 1 - 1), sq_nonneg (sqrt 1 + 1)]

theorem length_sq (sqrt : K → K) (hsq : ∀ a : K, 0 ≤ a → sqrt a * sqrt a = a) (v : Vec3 K) :
    v.length sqrt * v.length sqrt = v.x * v.x + v.y * v.y + v.z * v.z := by
  unfold Vec3.length
  apply hsq
  nlinarith [mul_self_nonneg v.x, mul_self_nonneg v.y, mul_self_nonneg v.z]

/-- In exact arithmetic: `normalized()` returns the zero vector when the length is below
`1e-10`; it
divides only by a length above `1e-10`, hence never by zero; and when the length is above
`1e-10` the result has length exactly 1 and is a positive multiple of the vector
(`sqrt` being the non-negative square root). -/
theorem normalized_spec (sqrt : K → K) (hsq : ∀ a : K, 0 ≤ a → sqrt a * sqrt a = a)
    (hnn : ∀ a : K, 0 ≤ a → 0 ≤ sqrt a) (v : Vec3 K) :
    (v.length sqrt < 1e-10 → v.normalized sqrt = ⟨0, 0, 0⟩) ∧
    ((v.normalized sqrt = ⟨0, 0, 0⟩ ∧ v.length sqrt ≤ 1e-10) ∨
      (v.normalized sqrt = v.div (v.length sqrt) ∧ 1e-10 < v.length sqrt ∧
        v.length sqrt ≠ 0)) ∧
    (1e-10 < v.length sqrt →
      (v.normalized sqrt).length sqrt = 1 ∧
      ∃ c : K, 0 < c ∧ v.normalized sqrt = v.mul c) := by
  have heps : (0 : K) < 1e-10 := by norm_num
  refine ⟨?_, ?_, ?_⟩
  · intro h
    unfold Vec3.normalized
    simp only []
    rw [if_neg (not_lt.mpr h.le)]
  · by_cases h : v.length sqrt > 1e-10
    · right
      refine ⟨?_, h, ne_of_gt (lt_trans heps h)⟩
      unfold Vec3.normalized
      simp only []
      rw [if_pos h]
    · left
      refine ⟨?_, not_lt.mp h⟩
      unfold Vec3.normalized
      simp only []
      rw [if_neg h]
  · intro h
    have hpos : 0 < v.length sqrt := lt_trans heps h
    have hne : v.length sqrt ≠ 0 := ne_of_gt hpos
    have hn : v.normalized sqrt = v.div (v.length sqrt) := by
      unfold Vec3.normalized
      simp only []
      rw [if_pos h]
    have hsqv := length_sq sqrt hsq v
    rw [hn]
    constructor
    · have harg : (v.div (v.length sqrt)).x * (v.div (v.length sqrt)).x +
          (v.div (v.length sqrt)).y * (v.div (v.length sqrt)).y +
          (v.div (v.length sqrt)).z * (v.div (v.length sqrt)).z = 1 := by
        unfold Vec3.div
        simp only []
        have : v.x / v.length sqrt * (v.x / v.length sqrt) +
            v.y / v.length sqrt * (v.y / v.length sqrt) +
            v.z / v.length sqrt * (v.z / v.length sqrt) =
            (v.x * v.x + v.y * v.y + v.z * v.z) / (v.length sqrt * v.length sqrt) := by
          field_simp
        rw [this, ← hsqv, div_self (mul_ne_zero hne hne)]
      have : (v.div (v.length sqrt)).length sqrt = sqrt 1 := by
        unfold Vec3.length at harg ⊢
        rw [harg]
      rw [this]
      exact sqrt_one sqrt hsq hnn
    · refine ⟨1 / v.length sqrt, one_div_pos.mpr hpos, ?_⟩
      unfold Vec3.div Vec3.mul
      rw [div_eq_mul_one_div v.x, div_eq_mul_one_div v.y, div_eq_mul_one_div v.z]

theorem normalized_spec_witness :
    (∀ a : ℝ, 0 ≤ a → Real.sqrt a * Real.sqrt a = a) ∧
      (∀ a : ℝ, 0 ≤ a → 0 ≤ Real.sqrt a) ∧
      (1e-10 : ℝ) < (⟨0, 0, 4⟩ : Vec3 ℝ).length Real.sqrt ∧
      ((⟨0, 0, 4⟩ : Vec3 ℝ).normalized Real.sqrt).length Real.sqrt = 1 := by
  have hs : ∀ a : ℝ, 0 ≤ a → Real.sqrt a * Real.sqrt a = a := fun a ha => Real.mul_self_sqrt ha
  have hn : ∀ a : ℝ, 0 ≤ a → 0 ≤ Real.sqrt a := fun a _ => Real.sqrt_nonneg a
  have hl : (⟨0, 0, 4⟩ : Vec3 ℝ).length Real.sqrt = 4 := by
    unfold Vec3.length
    have : ((0 : ℝ) * 0 + 0 * 0 + 4 * 4) = 4 ^ 2 := by norm_num
    simp only []
    rw [this, Real.sqrt_sq (by norm_num)]
  have h : (1e-10 : ℝ) < (⟨0, 0, 4⟩ : Vec3 ℝ).length Real.sqrt := by
    rw [hl]
    norm_num
  exact ⟨hs, hn, h, ((normalized_spec Real.sqrt hs hn ⟨0, 0, 4⟩).2.2 h).1⟩

/-! ## Barycentric weights -/

theorem lookup_isSome {α : Type} (xs : List α) (i : Int) (h0 : 0 ≤ i)
    (h1 : i < (xs.length : Int)) : ∃ v, lookup xs i = some v := by
  unfold lookup
  rw [if_pos h0]
  have : i.toNat < xs.length := by omega
  exact ⟨xs[i.toNat], List.getElem?_eq_getElem this⟩

/-- With admissible normal indices, `resolve` fails exactly when a vertex lookup fails,
and otherwise returns `callOf`. -/
theorem resolve_of_normalsOK (sqrt : K → K) (mesh : Mesh K) (tri : Triangle)
    (h0 : tri.n0 = -1 ∨ (0 ≤ tri.n0 ∧ tri.n0 < (mesh.normals.length : Int)))
    (h1 : tri.n1 = -1 ∨ (0 ≤ tri.n1 ∧ tri.n1 < (mesh.normals.length : Int)))
    (h2 : tri.n2 = -1 ∨ (0 ≤ tri.n2 ∧ tri.n2 < (mesh.normals.length : Int))) :
    Renderer.resolve sqrt mesh tri =
      match lookup mesh.vertices tri.v0, lookup mesh.vertices tri.v1,
          lookup mesh.vertices tri.v2 with
      | some _, some _, some _ => some (mesh.callOf sqrt tri)
      | _, _, _ => none := by
  cases e0 : lookup mesh.vertices tri.v0 with
  | none => simp [Renderer.resolve, e0]
  | some p0 =>
    cases e1 : lookup mesh.vertices tri.v1 with
    | none => simp [Renderer.resolve, e0, e1]
    | some p1 =>
      cases e2 : lookup mesh.vertices tri.v2 with
      | none => simp [Renderer.resolve, e0, e1, e2]
      | some p2 =>
        simp only []
        have hsome : ∃ c, Renderer.resolve sqrt mesh tri = some c := by
          unfold Renderer.resolve
          rw [e0, e1, e2]
          simp only []
          by_cases hn : tri.n0 ≥ 0 ∧ tri.n1 ≥ 0 ∧ tri.n2 ≥ 0
          · have g0 : 0 ≤ tri.n0 ∧ tri.n0 < (mesh.normals.length : Int) := by
              rcases h0 with h | h
              · omega
              · exact h
            have g1 : 0 ≤ tri.n1 ∧ tri.n1 < (mesh.normals.length : Int) := by
              rcases h1 with h | h
              · omega
              · exact h
            have g2 : 0 ≤ tri.n2 ∧ tri.n2 < (mesh.normals.length : Int) := by
              rcases h2 with h | h
              · omega
              · exact h
            obtain ⟨a, ha⟩ := lookup_isSome mesh.normals tri.n0 g0.1 g0.2
            obtain ⟨b, hb⟩ := lookup_isSome mesh.normals tri.n1 g1.1 g1.2
            obtain ⟨c, hc⟩ := lookup_isSome mesh.normals tri.n2 g2.1 g2.2
            rw [if_pos hn, ha, hb, hc]
            simp only []
            split_ifs
            · exact ⟨_, rfl⟩
            · exact ⟨_, rfl⟩
          · rw [if_neg hn]
            simp only []
            split_ifs
            · exact ⟨_, rfl⟩
            · exact ⟨_, rfl⟩
        obtain ⟨c, hc⟩ := hsome
        rw [hc, resolve_eq_callOf sqrt mesh tri c hc]

theorem rasterizeCall_ignores_normals (sqrt : K → K) (tex : Option Texture) (r : Renderer K)
    (c d : Renderer.Call K) (h0 : c.p0 = d.p0) (h1 : c.p1 = d.p1) (h2 : c.p2 = d.p2)
    (g0 : c.u0 = d.u0) (g1 : c.v0 = d.v0) (g2 : c.u1 = d.u1) (g3 : c.v1 = d.v1)
    (g4 : c.u2 = d.u2) (g5 : c.v2 = d.v2) :
    Renderer.rasterizeCall sqrt tex r c = Renderer.rasterizeCall sqrt tex r d := by
  unfold Renderer.rasterizeCall Renderer.rasterizeTriangle
  rw [h0, h1, h2, g0, g1, g2, g3, g4, g5]

theorem callOf_sameGeometry (sqrt : K → K) (m1 m2 : Mesh K) (t1 t2 : Triangle)
    (hv : m1.vertices = m2.vertices) (ht : m1.texCoords = m2.texCoords)
    (hg : t1.SameGeometry t2) :
    (m1.callOf sqrt t1).p0 = (m2.callOf sqrt t2).p0 ∧
    (m1.callOf sqrt t1).p1 = (m2.callOf sqrt t2).p1 ∧
    (m1.callOf sqrt t1).p2 = (m2.callOf sqrt t2).p2 ∧
    (m1.callOf sqrt t1).u0 = (m2.callOf sqrt t2).u0 ∧
    (m1.callOf sqrt t1).v0 = (m2.callOf sqrt t2).v0 ∧
    (m1.callOf sqrt t1).u1 = (m2.callOf sqrt t2).u1 ∧
    (m1.callOf sqrt t1).v1 = (m2.callOf sqrt t2).v1 ∧
    (m1.callOf sqrt t1).u2 = (m2.callOf sqrt t2).u2 ∧
    (m1.callOf sqrt t1).v2 = (m2.callOf sqrt t2).v2 := by
  obtain ⟨a0, a1, a2, b0, b1, b2⟩ := hg
  unfold Mesh.callOf Mesh.position
  simp only [hv, ht, a0, a1, a2, b0, b1, b2]
  split_ifs <;> exact ⟨rfl, rfl, rfl, rfl, rfl, rfl, rfl, rfl, rfl⟩

theorem renderLoop_ignores_normals (sqrt : K → K) (m1 m2 : Mesh K) (tex : Option Texture)
    (hv : m1.vertices = m2.vertices) (ht : m1.texCoords = m2.texCoords)
    (ts1 ts2 : List Triangle) (hts : List.Forall₂ Triangle.SameGeometry ts1 ts2)
    (h1 : ∀ tri ∈ ts1,
      (tri.n0 = -1 ∨ (0 ≤ tri.n0 ∧ tri.n0 < (m1.normals.length : Int))) ∧
      (tri.n1 = -1 ∨ (0 ≤ tri.n1 ∧ tri.n1 < (m1.normals.length : Int))) ∧
      (tri.n2 = -1 ∨ (0 ≤ tri.n2 ∧ tri.n2 < (m1.normals.length : Int))))
    (h2 : ∀ tri ∈ ts2,
      (tri.n0 = -1 ∨ (0 ≤ tri.n0 ∧ tri.n0 < (m2.normals.length : Int))) ∧
      (tri.n1 = -1 ∨ (0 ≤ tri.n1 ∧ tri.n1 < (m2.normals.length : Int))) ∧
      (tri.n2 = -1 ∨ (0 ≤ tri.n2 ∧ tri.n2 < (m2.normals.length : Int))))
    (r : Renderer K) :
    Renderer.renderLoop sqrt m1 tex ts1 r = Renderer.renderLoop sqrt m2 tex ts2 r := by
  induction hts generalizing r with
  | nil => rfl
  | @cons t1 t2 l1 l2 hg _ ih =>
    obtain ⟨p0, p1, p2⟩ := h1 t1 (List.mem_cons_self _ _)
    obtain ⟨q0, q1, q2⟩ := h2 t2 (List.mem_cons_self _ _)
    have r1 := resolve_of_normalsOK sqrt m1 t1 p0 p1 p2
    have r2 := resolve_of_normalsOK sqrt m2 t2 q0 q1 q2
    have hg2 := hg
    obtain ⟨a0, a1, a2, -, -, -⟩ := hg2
    rw [← hv, ← a0, ← a1, ← a2] at r2
    unfold Renderer.renderLoop
    rw [r1, r2]
    cases lookup m1.vertices t1.v0 with
    | none => rfl
    | some x0 =>
      cases lookup m1.vertices t1.v1 with
      | none => rfl
      | some x1 =>
        cases lookup m1.vertices t1.v2 with
        | none => rfl
        | some x2 =>
          simp only []
          obtain ⟨c0, c1, c2, c3, c4, c5, c6, c7, c8⟩ :=
            callOf_sameGeometry sqrt m1 m2 t1 t2 hv ht hg
          rw [rasterizeCall_ignores_normals sqrt tex r (m1.callOf sqrt t1) (m2.callOf sqrt t2)
            c0 c1 c2 c3 c4 c5 c6 c7 c8]
          exact ih (fun t h => h1 t (List.mem_cons_of_mem _ h))
            (fun t h => h2 t (List.mem_cons_of_mem _ h)) _

/-- C16: per-vertex normals do not influence the rendered image.  Two meshes that agree
on vertices, texture coordinates, texture and the vertex and texture-coordinate indices
of every triangle, and whose normal indices are each `-1` or in range, give the same
result of `render` (same framebuffer and zBuffer); and the shade handed to the loops for
a triangle is the one computed from the face normal of its object-space positions. -/
theorem render_ignores_normals (sqrt : K → K) (r : Renderer K) (m1 m2 : Mesh K)
    (hs : m1.SameUpToNormals m2) (h1 : m1.NormalIndicesOK) (h2 : m2.NormalIndicesOK) :
    r.render sqrt m1 = r.render sqrt m2 ∧
      ∀ tri ∈ m1.triangles, ∀ s : Renderer K,
        (s.fragment sqrt m1.tex (m1.callOf sqrt tri)).shade =
          shadeOf sqrt s.lightDir (m1.position tri.v0) (m1.position tri.v1)
            (m1.position tri.v2) := by
  obtain ⟨hv, ht, htex, hts⟩ := hs
  constructor
  · rw [render_eq_renderLoop, render_eq_renderLoop]
    have e : m1.tex = m2.tex := by
      unfold Mesh.tex
      rw [htex]
    rw [e]
    exact renderLoop_ignores_normals sqrt m1 m2 m2.tex hv ht _ _ hts h1 h2 r.clear
  · intro tri _ s
    obtain ⟨e0, e1, e2⟩ := callOf_positions sqrt m1 tri
    unfold Renderer.fragment
    simp only [e0, e1, e2]

theorem render_ignores_normals_witness :
    (oneTriangle (0 : ℝ)).SameUpToNormals oneTriangleWithNormals ∧
      (oneTriangle (0 : ℝ)).NormalIndicesOK ∧
      (oneTriangleWithNormals : Mesh ℝ).NormalIndicesOK ∧
      (onePixel : Renderer ℝ).render Real.sqrt (oneTriangle 0) =
        (onePixel : Renderer ℝ).render Real.sqrt oneTriangleWithNormals := by
  have hs : (oneTriangle (0 : ℝ)).SameUpToNormals oneTriangleWithNormals := by
    refine ⟨rfl, rfl, rfl, ?_⟩
    exact List.Forall₂.cons ⟨rfl, rfl, rfl, rfl, rfl, rfl⟩ List.Forall₂.nil
  have h1 : (oneTriangle (0 : ℝ)).NormalIndicesOK := by
    intro tri ht
    simp only [oneTriangle, List.mem_singleton] at ht
    subst ht
    simp [tri012]
  have h2 : (oneTriangleWithNormals : Mesh ℝ).NormalIndicesOK := by
    intro tri ht
    simp only [oneTriangleWithNormals, List.mem_singleton] at ht
    subst ht
    simp [oneTriangleWithNormals]
  exact ⟨hs, h1, h2, (render_ignores_normals Real.sqrt onePixel _ _ hs h1 h2).1⟩

/-! ## Colour tagging -/

theorem pixelOf_depth (sqrt : K → K) (r : Renderer K) (mesh : Mesh K) (y x : Int)
    (tri : Triangle) : (r.pixelOf sqrt mesh y x tri).depth = r.triDepth mesh y x tri :=
  writeOf_depth sqrt r mesh y x tri Pixel.default

theorem pushToken_vindices_length (mesh : Mesh K) (toks : List FaceToken) (acc : FaceIndices) :
    (toks.foldl (pushToken mesh) acc).vindices.length = acc.vindices.length + toks.length := by
  induction toks generalizing acc with
  | nil => rfl
  | cons t ts ih =>
    rw [List.foldl_cons, ih]
    simp only [pushToken, List.length_append, List.length_cons, List.length_nil]
    omega

theorem fan_eq_nil (fi : FaceIndices) : fan fi = [] ↔ fi.vindices.length < 3 := by
  unfold fan
  rw [List.map_eq_nil_iff, List.range_eq_nil]
  omega

theorem face_triangles_eq_nil (mesh : Mesh K) (toks : List FaceToken) :
    fan (toks.foldl (pushToken mesh) ⟨[], [], []⟩) = [] ↔ toks.length < 3 := by
  rw [fan_eq_nil, pushToken_vindices_length]
  simp

theorem parse_vertices_eq_nil (sqrt : K → K) (lines : List (ObjLine K)) (s : LoadState K) :
    (lines.foldl (stepLine sqrt) s).mesh.vertices = [] ↔
      s.mesh.vertices = [] ∧ ∀ x y z, ObjLine.v x y z ∉ lines := by
  induction lines generalizing s with
  | nil => simp
  | cons l ls ih =>
    rw [List.foldl_cons, ih]
    cases l with
    | v a b c =>
      constructor
      · intro h
        simp [stepLine] at h
      · rintro ⟨-, h2⟩
        exact absurd (List.mem_cons_self _ _) (h2 a b c)
    | vt u v => simp [stepLine]
    | vn x y z => simp [stepLine]
    | mtllib p =>
      have e : (stepLine sqrt s (ObjLine.mtllib p)).mesh = s.mesh := by
        simp only [stepLine]
        split_ifs <;> rfl
      rw [e]
      simp
    | f toks => simp [stepLine]
    | skip => simp [stepLine]

theorem parse_triangles_eq_nil (sqrt : K → K) (lines : List (ObjLine K)) (s : LoadState K) :
    (lines.foldl (stepLine sqrt) s).mesh.triangles = [] ↔
      s.mesh.triangles = [] ∧ ∀ toks, ObjLine.f toks ∈ lines → toks.length < 3 := by
  induction lines generalizing s with
  | nil => simp
  | cons l ls ih =>
    rw [List.foldl_cons, ih]
    cases l with
    | f toks =>
      simp only [stepLine, List.append_eq_nil, face_triangles_eq_nil, List.mem_cons,
        ObjLine.f.injEq]
      constructor
      · rintro ⟨⟨h1, h2⟩, h3⟩
        refine ⟨h1, ?_⟩
        intro t ht
        rcases ht with h | h
        · rw [h]
          exact h2
        · exact h3 t h
      · rintro ⟨h1, h2⟩
        exact ⟨⟨h1, h2 toks (Or.inl rfl)⟩, fun t ht => h2 t (Or.inr ht)⟩
    | v x y z => simp [stepLine]
    | vt u v => simp [stepLine]
    | vn x y z => simp [stepLine]
    | mtllib p =>
      have e : (stepLine sqrt s (ObjLine.mtllib p)).mesh = s.mesh := by
        simp only [stepLine]
        split_ifs <;> rfl
      rw [e]
      simp
    | skip => simp [stepLine]

theorem parse_texture (sqrt : K → K) (lines : List (ObjLine K)) (s : LoadState K) :
    (lines.foldl (stepLine sqrt) s).mesh.texture = s.mesh.texture := by
  induction lines generalizing s with
  | nil => rfl
  | cons l ls ih =>
    rw [List.foldl_cons, ih]
    cases l with
    | mtllib p =>
      have e : (stepLine sqrt s (ObjLine.mtllib p)).mesh = s.mesh := by
        simp only [stepLine]
        split_ifs <;> rfl
      rw [e]
    | v x y z => rfl
    | vt u v => rfl
    | vn x y z => rfl
    | f toks => rfl
    | skip => rfl

theorem loadTexture_of_missing_mtl (files : Files K) (s : LoadState K) (path : String)
    (h : files.mtl (Mesh.mtlFile s path) = none) :
    Mesh.loadTexture files s path = s.mesh.texture := by
  unfold Mesh.loadTexture Mesh.loadMtl
  rw [h]

theorem loadTexture_of_no_image (files : Files K) (s : LoadState K) (path : String)
    (h : ∀ p, files.image p = none) : Mesh.loadTexture files s path = s.mesh.texture := by
  unfold Mesh.loadTexture
  generalize Mesh.loadMtl files (Mesh.mtlFile s path) "" = res
  obtain ⟨ok, mapKd⟩ := res
  cases ok
  · rfl
  · simp only [Texture.load, h]

theorem load_flag (sqrt : K → K) (files : Files K) (path : String)
    (lines : List (ObjLine K)) (h : files.obj path = some lines) :
    (Mesh.load sqrt files Mesh.empty path).1 =
        (!(parseLines sqrt (Mesh.empty : Mesh K) lines).mesh.vertices.isEmpty &&
          !(parseLines sqrt (Mesh.empty : Mesh K) lines).mesh.triangles.isEmpty) ∧
      (Mesh.load sqrt files Mesh.empty path).2.vertices =
        (parseLines sqrt (Mesh.empty : Mesh K) lines).mesh.vertices ∧
      (Mesh.load sqrt files Mesh.empty path).2.triangles =
        (parseLines sqrt (Mesh.empty : Mesh K) lines).mesh.triangles ∧
      (Mesh.load sqrt files Mesh.empty path).2.texture =
        Mesh.loadTexture files (parseLines sqrt (Mesh.empty : Mesh K) lines) path := by
  unfold Mesh.load
  rw [h]
  exact ⟨rfl, rfl, rfl, rfl⟩

/-- On converted lines: `load` on a fresh mesh returns false when the file cannot be
opened; when it
can, it returns false exactly when the mesh ends with zero vertices or zero triangles,
and true exactly when the source has at least one vertex line and at least one face line
with three or more corners; the flag does not depend on the material files and images,
and a missing material file or failing image loads leave `texture.width == 0`. -/
theorem load_reports_failure (sqrt : K → K) (files : Files K) (path : String) :
    (files.obj path = none → (Mesh.load sqrt files Mesh.empty path).1 = false) ∧
    (∀ lines, files.obj path = some lines →
      ((Mesh.load sqrt files Mesh.empty path).1 = false ↔
        ((Mesh.load sqrt files Mesh.empty path).2.vertices = [] ∨
          (Mesh.load sqrt files Mesh.empty path).2.triangles = [])) ∧
      ((Mesh.load sqrt files Mesh.empty path).1 = true ↔
        ((∃ x y z, ObjLine.v x y z ∈ lines) ∧
          ∃ toks, ObjLine.f toks ∈ lines ∧ 3 ≤ toks.length)) ∧
      (files.mtl (Mesh.mtlFile (parseLines sqrt (Mesh.empty : Mesh K) lines) path) = none →
        (Mesh.load sqrt files Mesh.empty path).2.texture.width = 0) ∧
      ((∀ p, files.image p = none) →
        (Mesh.load sqrt files Mesh.empty path).2.texture.width = 0)) ∧
    (∀ files2 : Files K, files2.obj path = files.obj path →
      (Mesh.load sqrt files2 Mesh.empty path).1 = (Mesh.load sqrt files Mesh.empty path).1) := by
  refine ⟨?_, ?_, ?_⟩
  · intro h
    unfold Mesh.load
    rw [h]
  · intro lines h
    obtain ⟨e1, e2, e3, e4⟩ := load_flag sqrt files path lines h
    have hv := parse_vertices_eq_nil sqrt lines ⟨(Mesh.empty : Mesh K), ""⟩
    have ht := parse_triangles_eq_nil sqrt lines ⟨(Mesh.empty : Mesh K), ""⟩
    have hx := parse_texture sqrt lines ⟨(Mesh.empty : Mesh K), ""⟩
    have hflag : (Mesh.load sqrt files Mesh.empty path).1 = true ↔
        ¬ (parseLines sqrt (Mesh.empty : Mesh K) lines).mesh.vertices = [] ∧
          ¬ (parseLines sqrt (Mesh.empty : Mesh K) lines).mesh.triangles = [] := by
      rw [e1]
      simp [List.isEmpty_iff]
    refine ⟨?_, ?_, ?_, ?_⟩
    · rw [e2, e3, ← Bool.not_eq_true, hflag]
      tauto
    · rw [hflag]
      unfold parseLines
      rw [hv, ht]
      simp only [Mesh.empty, true_and, not_forall, not_not, not_lt]
      constructor
      · rintro ⟨⟨x, y, z, h1⟩, ⟨toks, h2, h3⟩⟩
        exact ⟨⟨x, y, z, h1⟩, ⟨toks, h2, h3⟩⟩
      · rintro ⟨⟨x, y, z, h1⟩, ⟨toks, h2, h3⟩⟩
        exact ⟨⟨x, y, z, h1⟩, ⟨toks, h2, h3⟩⟩
    · intro hm
      rw [e4, loadTexture_of_missing_mtl files _ path hm]
      unfold parseLines
      rw [hx]
      rfl
    · intro hi
      rw [e4, loadTexture_of_no_image files _ path hi]
      unfold parseLines
      rw [hx]
      rfl
  · intro files2 h2
    cases h : files.obj path with
    | none =>
      rw [h] at h2
      unfold Mesh.load
      rw [h, h2]
    | some lines =>
      rw [h] at h2
      rw [(load_flag sqrt files path lines h).1, (load_flag sqrt files2 path lines h2).1]

theorem load_reports_failure_witness :
    (onlyObj (goodFace : List (ObjLine ℝ))).obj ("tri.obj") = some goodFace ∧
      (Mesh.load Real.sqrt (onlyObj (goodFace : List (ObjLine ℝ))) Mesh.empty ("tri.obj")).1 =
        true ∧
      (Mesh.load Real.sqrt (onlyObj (goodFace : List (ObjLine ℝ))) Mesh.empty
        ("tri.obj")).2.texture.width = 0 := by
  have h := (load_reports_failure Real.sqrt (onlyObj (goodFace : List (ObjLine ℝ)))
    ("tri.obj")).2.1 goodFace rfl
  refine ⟨rfl, ?_, h.2.2.1 rfl⟩
  rw [h.2.1]
  refine ⟨⟨0, 0, 0, ?_⟩,
    ⟨[⟨1, none, none⟩, ⟨2, none, none⟩, ⟨3, none, none⟩], ?_, by decide⟩⟩
  · simp [goodFace]
  · simp [goodFace]

theorem load_danglingFace (sqrt : K → K) (path : String) :
    Mesh.load sqrt (onlyObj (danglingFace : List (ObjLine K))) Mesh.empty path =
      (true, ⟨[⟨0, 0, 0⟩], [], [], [tri012], Texture.empty⟩) := by
  simp [Mesh.load, onlyObj, parseLines, danglingFace, stepLine, pushToken, fan, Mesh.empty,
    Mesh.loadTexture, Mesh.loadMtl, tri012, List.range_succ]

/-- C18 fails on the code: for the source `v 0 0 0`, `f 1 2 3`, `load` returns true with
one vertex and the triangle `(0, 1, 2)`: the vertex indices 1 and 2 are not below
`vertices.size() = 1`, the mesh is not index-valid and `render` on it reads
`mesh.vertices[1]` out of range. -/
theorem load_keeps_out_of_range_index :
    (Mesh.load Real.sqrt (onlyObj (danglingFace : List (ObjLine ℝ))) Mesh.empty
        ("bad.obj")).1 = true ∧
      (Mesh.load Real.sqrt (onlyObj (danglingFace : List (ObjLine ℝ))) Mesh.empty
        ("bad.obj")).2.vertices.length = 1 ∧
      (Mesh.load Real.sqrt (onlyObj (danglingFace : List (ObjLine ℝ))) Mesh.empty
        ("bad.obj")).2.triangles = [⟨0, 1, 2, -1, -1, -1, -1, -1, -1⟩] ∧
      ¬ (Mesh.load Real.sqrt (onlyObj (danglingFace : List (ObjLine ℝ))) Mesh.empty
        ("bad.obj")).2.IndexValid ∧
      (onePixel : Renderer ℝ).render Real.sqrt
        (Mesh.load Real.sqrt (onlyObj (danglingFace : List (ObjLine ℝ))) Mesh.empty
          ("bad.obj")).2 = none := by
  rw [load_danglingFace]
  refine ⟨rfl, rfl, rfl, ?_, ?_⟩
  · intro h
    have := (h tri012 (List.mem_singleton.mpr rfl)).2.1.2
    simp [tri012] at this
  · simp [Renderer.render, Renderer.renderLoop, Renderer.resolve, lookup, tri012]

/-! ## Buffer accesses of `rasterizeTriangle` -/

theorem load_partialUV (sqrt : K → K) (path : String) :
    (Mesh.load sqrt (onlyObj (partialUV : List (ObjLine K))) Mesh.empty path).2.triangles =
      [⟨0, 1, 2, -1, -1, -1, 0, 2, 2⟩] := by
  simp [Mesh.load, onlyObj, parseLines, partialUV, stepLine, pushToken, fan, Mesh.empty,
    List.range_succ]

theorem load_partialUVNoCoords (sqrt : K → K) (path : String) :
    (Mesh.load sqrt (onlyObj (partialUVNoCoords : List (ObjLine K))) Mesh.empty
      path).2.triangles = [⟨0, 1, 2, -1, -1, -1, 0, 2, -1⟩] := by
  simp [Mesh.load, onlyObj, parseLines, partialUVNoCoords, stepLine, pushToken, fan,
    Mesh.empty, List.range_succ]

/-- Where the loader does keep corners and indices aligned: when every token of a face
supplies a texture-coordinate index that is positive, or negative with a non-empty
`texCoords`, `tindices` holds the resolved index of each token in token order. -/
theorem tindices_of_supplied (mesh : Mesh K) (toks : List FaceToken) (acc : FaceIndices)
    (h : ∀ tok ∈ toks, ∃ k : Int, tok.ti = some k ∧ (k > 0 ∨ (k < 0 ∧ mesh.texCoords ≠ []))) :
    (toks.foldl (pushToken mesh) acc).tindices =
      acc.tindices ++ toks.map (fun tok => specIndex mesh.texCoords.length tok.ti) := by
  induction toks generalizing acc with
  | nil => simp
  | cons tok rest ih =>
    rw [List.foldl_cons, ih _ (fun t ht => h t (List.mem_cons_of_mem _ ht))]
    obtain ⟨k, hk, hcase⟩ := h tok (List.mem_cons_self _ _)
    have e : (pushToken mesh acc tok).tindices =
        acc.tindices ++ [specIndex mesh.texCoords.length tok.ti] := by
      unfold pushToken
      simp only [hk, Option.getD_some, specIndex]
      rcases hcase with hpos | ⟨hneg, hne⟩
      · rw [if_pos hpos, if_pos hpos]
      · have hnp : ¬ k > 0 := by omega
        have hemp : ¬ mesh.texCoords.isEmpty = true := by
          rw [List.isEmpty_iff]
          exact hne
        rw [if_neg hnp, if_neg hnp, if_pos ⟨hneg, hemp⟩]
    rw [e, List.map_cons, List.append_assoc, List.singleton_append]

/-- C23 fails on the code: for the face `f 1/1 2 3/3` after three `v` and three `vt`
lines, `load` returns true with the single triangle whose texture-coordinate indices
are `(0, 2, 2)`: the second corner, whose token supplies no texture coordinate, gets
index 2 and not the sentinel `-1` that `specIndex` asks for.  Without `vt` lines the same
face gives `(0, 2, -1)`: the index of the third token lands on the second corner and the
third corner gets the sentinel although its token supplies index 3. -/
theorem load_misplaces_texture_indices :
    (Mesh.load Real.sqrt (onlyObj (partialUV : List (ObjLine ℝ))) Mesh.empty
        ("uv.obj")).1 = true ∧
      (Mesh.load Real.sqrt (onlyObj (partialUV : List (ObjLine ℝ))) Mesh.empty
        ("uv.obj")).2.texCoords.length = 3 ∧
      (Mesh.load Real.sqrt (onlyObj (partialUV : List (ObjLine ℝ))) Mesh.empty
        ("uv.obj")).2.triangles = [⟨0, 1, 2, -1, -1, -1, 0, 2, 2⟩] ∧
      ([⟨1, some 1, none⟩, ⟨2, none, none⟩, ⟨3, some 3, none⟩] : List FaceToken).map
        (fun tok => specIndex 3 tok.ti) = [0, -1, 2] ∧
      (Mesh.load Real.sqrt (onlyObj (partialUVNoCoords : List (ObjLine ℝ))) Mesh.empty
        ("uv.obj")).1 = true ∧
      (Mesh.load Real.sqrt (onlyObj (partialUVNoCoords : List (ObjLine ℝ))) Mesh.empty
        ("uv.obj")).2.triangles = [⟨0, 1, 2, -1, -1, -1, 0, 2, -1⟩] ∧
      ([⟨1, some 1, none⟩, ⟨2, none, none⟩, ⟨3, some 3, none⟩] : List FaceToken).map
        (fun tok => specIndex 0 tok.ti) = [0, -1, 2] := by
  refine ⟨?_, ?_, load_partialUV Real.sqrt _, by decide, ?_, load_partialUVNoCoords Real.sqrt _,
    by decide⟩
  · simp [Mesh.load, onlyObj, parseLines, partialUV, stepLine, pushToken, fan, Mesh.empty,
      List.range_succ]
  · simp [Mesh.load, onlyObj, parseLines, partialUV, stepLine, Mesh.empty]
  · simp [Mesh.load, onlyObj, parseLines, partialUVNoCoords, stepLine, pushToken, fan,
      Mesh.empty, List.range_succ]

/-! ## 32-bit conversions of the bounding box -/

theorem toInt32_of_inInt32 (n : Int) (h : InInt32 n) : toInt32 n = n := if_pos h

theorem rasterizeTriangle32_eq (sqrt : K → K) (r : Renderer K) (p0 p1 p2 n0 n1 n2 : Vec3 K)
    (u0 v0 u1 v1 u2 v2 : K) (tex : Option Texture)
    (h : 0 < r.signedArea p0 p1 p2 → r.BoxInRange p0 p1 p2) :
    r.rasterizeTriangle32 sqrt p0 p1 p2 n0 n1 n2 u0 v0 u1 v1 u2 v2 tex =
      r.rasterizeTriangle sqrt p0 p1 p2 n0 n1 n2 u0 v0 u1 v1 u2 v2 tex := by
  unfold Renderer.rasterizeTriangle32 Renderer.rasterizeTriangle
  simp only []
  split_ifs with hc
  · rfl
  · obtain ⟨h1, h2, h3, h4⟩ := h (not_le.mp hc)
    rw [toInt32_of_inInt32 _ h1, toInt32_of_inInt32 _ h2, toInt32_of_inInt32 _ h3,
      toInt32_of_inInt32 _ h4]

theorem signedArea_of_sameFrame {r s : Renderer K} (h : r.SameFrame s) (p0 p1 p2 : Vec3 K) :
    r.signedArea p0 p1 p2 = s.signedArea p0 p1 p2 := by
  unfold Renderer.signedArea
  rw [h.2.2.2.1]

theorem boxInRange_of_sameFrame {r s : Renderer K} (h : r.SameFrame s) (p0 p1 p2 : Vec3 K)
    (hb : s.BoxInRange p0 p1 p2) : r.BoxInRange p0 p1 p2 := by
  unfold Renderer.BoxInRange at hb ⊢
  rw [h.1, h.2.1, h.2.2.2.1]
  exact hb

theorem renderLoop32_eq (sqrt : K → K) (mesh : Mesh K) (tex : Option Texture)
    (tris : List Triangle) (r0 r : Renderer K) (hsf : r.SameFrame r0)
    (h : ∀ tri ∈ tris,
      0 < r0.signedArea (mesh.position tri.v0) (mesh.position tri.v1) (mesh.position tri.v2) →
        r0.BoxInRange (mesh.position tri.v0) (mesh.position tri.v1) (mesh.position tri.v2)) :
    Renderer.renderLoop32 sqrt mesh tex tris r = Renderer.renderLoop sqrt mesh tex tris r := by
  induction tris generalizing r with
  | nil => rfl
  | cons tri rest ih =>
    unfold Renderer.renderLoop32 Renderer.renderLoop
    cases hres : Renderer.resolve sqrt mesh tri with
    | none => rfl
    | some c =>
      simp only []
      have hc := resolve_eq_callOf sqrt mesh tri c hres
      obtain ⟨e0, e1, e2⟩ := callOf_positions sqrt mesh tri
      have hcall : Renderer.rasterizeCall32 sqrt tex r c = Renderer.rasterizeCall sqrt tex r c := by
        unfold Renderer.rasterizeCall32 Renderer.rasterizeCall
        apply rasterizeTriangle32_eq
        intro hpos
        rw [hc, e0, e1, e2] at hpos ⊢
        rw [signedArea_of_sameFrame hsf] at hpos
        exact boxInRange_of_sameFrame hsf _ _ _ (h tri (List.mem_cons_self _ _) hpos)
      rw [hcall]
      exact ih _ ((rasterizeCall_sameFrame sqrt tex r c).trans hsf)
        (fun t ht => h t (List.mem_cons_of_mem _ ht))

/-- When the bounding-box values of every front-facing triangle are in the range of
`int`, the 32-bit conversions are exact and `render32` is `render`. -/
theorem render32_eq_render (sqrt : K → K) (r : Renderer K) (mesh : Mesh K)
    (h : r.CastsExact mesh) : r.render32 sqrt mesh = r.render sqrt mesh := by
  unfold Renderer.render32 Renderer.render
  exact renderLoop32_eq sqrt mesh _ mesh.triangles r r.clear (clear_sameFrame r) h

theorem intRange_eq_nil (lo hi : Int) (h : hi < lo) : intRange lo hi = [] := by
  unfold intRange
  have : (hi + 1 - lo).toNat = 0 := by omega
  rw [this]
  rfl

theorem foldl_rows_nil (f : Fragment K) (ys : List Int) (r : Renderer K) :
    ys.foldl (fun acc y => ([] : List Int).foldl (fun acc2 x => acc2.shadePixel f y x) acc) r =
      r := by
  induction ys generalizing r with
  | nil => rfl
  | cons a l ih => exact ih r

/-- A triangle whose upper column bound converts to a negative `int` is not drawn:
the column loop is empty. -/
theorem rasterizeTriangle32_of_maxX_neg (sqrt : K → K) (r : Renderer K)
    (p0 p1 p2 n0 n1 n2 : Vec3 K) (u0 v0 u1 v1 u2 v2 : K) (tex : Option Texture)
    (h : toInt32 ⌈(max (r.viewProj.transformPoint p0).x
      (max (r.viewProj.transformPoint p1).x (r.viewProj.transformPoint p2).x) + 1.0) * 0.5 *
        (r.width : K)⌉ < 0) :
    r.rasterizeTriangle32 sqrt p0 p1 p2 n0 n1 n2 u0 v0 u1 v1 u2 v2 tex = r := by
  unfold Renderer.rasterizeTriangle32
  simp only []
  split_ifs with hc
  · rfl
  · rw [intRange_eq_nil (max 0 _) (min (r.width - 1) _) (by omega)]
    exact foldl_rows_nil _ _ r

theorem position_hugeTriangle :
    (hugeTriangle : Mesh K).position tri012.v0 = ⟨-8589934592, -8589934592, 0⟩ ∧
      (hugeTriangle : Mesh K).position tri012.v1 = ⟨8589934592, -8589934592, 0⟩ ∧
      (hugeTriangle : Mesh K).position tri012.v2 = ⟨0, 8589934592, 0⟩ := by
  simp [Mesh.position, lookup, hugeTriangle, tri012]

theorem hugeTriangle_indexValid : (hugeTriangle : Mesh K).IndexValid := by
  intro tri ht
  simp only [hugeTriangle, List.mem_singleton] at ht
  subst ht
  simp [hugeTriangle, tri012]

theorem covers_hugeTriangle :
    (onePixel : Renderer K).covers hugeTriangle 0 0 tri012 = true := by
  obtain ⟨e0, e1, e2⟩ := position_hugeTriangle (K := K)
  simp only [Renderer.covers, Renderer.coversPixel, e0, e1, e2, Renderer.signedArea, onePixel,
    identity_transformPoint, pixelCentre, insideTriangle]
  norm_num

theorem triDepth_hugeTriangle :
    (onePixel : Renderer K).triDepth hugeTriangle 0 0 tri012 = 0 := by
  obtain ⟨e0, e1, e2⟩ := position_hugeTriangle (K := K)
  simp only [Renderer.triDepth, Renderer.depthAtPixel, Renderer.weightsAtPixel, e0, e1, e2,
    onePixel, identity_transformPoint, pixelCentre, insideTriangle]
  norm_num

theorem minDepth_hugeTriangle : (onePixel : Renderer K).minDepth hugeTriangle 0 0 = 0 := by
  unfold Renderer.minDepth
  have : (hugeTriangle : Mesh K).triangles = [tri012] := rfl
  rw [this, minOver_cons, minOver_nil, if_pos covers_hugeTriangle, triDepth_hugeTriangle,
    min_eq_right DBL_MAX_pos.le]

theorem resolve_hugeTriangle (sqrt : K → K) :
    ∃ c, Renderer.resolve sqrt (hugeTriangle : Mesh K) tri012 = some c ∧
      c.p0 = ⟨-8589934592, -8589934592, 0⟩ ∧ c.p1 = ⟨8589934592, -8589934592, 0⟩ ∧
      c.p2 = ⟨0, 8589934592, 0⟩ := by
  obtain ⟨c, hc, -⟩ := resolve_isSome sqrt (hugeTriangle : Mesh K) hugeTriangle_indexValid
    tri012 (List.mem_singleton.mpr rfl)
  have e := resolve_eq_callOf sqrt _ _ c hc
  obtain ⟨e0, e1, e2⟩ := callOf_positions sqrt (hugeTriangle : Mesh K) tri012
  obtain ⟨q0, q1, q2⟩ := position_hugeTriangle (K := K)
  refine ⟨c, hc, ?_, ?_, ?_⟩
  · rw [e, e0, q0]
  · rw [e, e1, q1]
  · rw [e, e2, q2]

theorem clear_onePixel : (onePixel : Renderer K).clear = onePixel := by
  simp [Renderer.clear, onePixel]

theorem render32_hugeTriangle (sqrt : K → K) :
    (onePixel : Renderer K).render32 sqrt hugeTriangle = some onePixel := by
  obtain ⟨c, hc, c0, c1, c2⟩ := resolve_hugeTriangle sqrt (K := K)
  unfold Renderer.render32
  have ht : (hugeTriangle : Mesh K).triangles = [tri012] := rfl
  rw [ht, clear_onePixel]
  unfold Renderer.renderLoop32
  rw [hc]
  simp only []
  unfold Renderer.renderLoop32 Renderer.rasterizeCall32
  rw [rasterizeTriangle32_of_maxX_neg]
  rw [c0, c1, c2]
  simp only [onePixel, identity_transformPoint]
  have hceil : ⌈(max (-8589934592 : K) (max 8589934592 0) + 1.0) * 0.5 * (((1 : Int) : Int) : K)⌉ =
      4294967297 := by
    rw [Int.ceil_eq_iff]
    norm_num
  rw [hceil]
  decide

theorem inInt32_floor_ceil (t : K) (w : Int) (hw : w ≤ 2147483647) (h0 : 0 ≤ t)
    (h1 : t ≤ (w : K)) : InInt32 ⌊t⌋ ∧ InInt32 ⌈t⌉ := by
  have f0 : 0 ≤ ⌊t⌋ := Int.floor_nonneg.mpr h0
  have f1 : ⌊t⌋ ≤ w := by
    have : ((⌊t⌋ : Int) : K) ≤ (w : K) := le_trans (Int.floor_le t) h1
    exact_mod_cast this
  have c0 : 0 ≤ ⌈t⌉ := Int.ceil_nonneg h0
  have c1 : ⌈t⌉ ≤ w := Int.ceil_le.mpr h1
  unfold InInt32
  omega

theorem scaled_range (a : K) (w : Int) (hw : 0 ≤ w) (h0 : -1 ≤ a) (h1 : a ≤ 1) :
    0 ≤ (a + 1.0) * 0.5 * (w : K) ∧ (a + 1.0) * 0.5 * (w : K) ≤ (w : K) ∧
      0 ≤ (1.0 - a) * 0.5 * (w : K) ∧ (1.0 - a) * 0.5 * (w : K) ≤ (w : K) := by
  have hwK : (0 : K) ≤ (w : K) := by exact_mod_cast hw
  have c1 : (1.0 : K) = 1 := by norm_num
  have c2 : (0.5 : K) = 1 / 2 := by norm_num
  have e1 : (a + 1.0) * 0.5 * (w : K) = (a + 1) / 2 * (w : K) := by
    rw [c1, c2]
    ring
  have e2 : (1.0 - a) * 0.5 * (w : K) = (1 - a) / 2 * (w : K) := by
    rw [c1, c2]
    ring
  rw [e1, e2]
  refine ⟨?_, ?_, ?_, ?_⟩
  · exact mul_nonneg (by linarith) hwK
  · calc (a + 1) / 2 * (w : K) ≤ 1 * (w : K) := mul_le_mul_of_nonneg_right (by linarith) hwK
      _ = (w : K) := one_mul _
  · exact mul_nonneg (by linarith) hwK
  · calc (1 - a) / 2 * (w : K) ≤ 1 * (w : K) := mul_le_mul_of_nonneg_right (by linarith) hwK
      _ = (w : K) := one_mul _

/-- A triangle whose projected vertices have NDC `x, y` in `[-1, 1]` has its
bounding-box values in the range of `int` (the frame dimensions being non-negative
`int`s). -/
theorem boxInRange_of_ndc (r : Renderer K) (p0 p1 p2 : Vec3 K)
    (hw : 0 ≤ r.width) (hw2 : r.width ≤ 2147483647) (hh : 0 ≤ r.height)
    (hh2 : r.height ≤ 2147483647)
    (h0 : (-1 ≤ (r.viewProj.transformPoint p0).x ∧ (r.viewProj.transformPoint p0).x ≤ 1) ∧
      -1 ≤ (r.viewProj.transformPoint p0).y ∧ (r.viewProj.transformPoint p0).y ≤ 1)
    (h1 : (-1 ≤ (r.viewProj.transformPoint p1).x ∧ (r.viewProj.transformPoint p1).x ≤ 1) ∧
      -1 ≤ (r.viewProj.transformPoint p1).y ∧ (r.viewProj.transformPoint p1).y ≤ 1)
    (h2 : (-1 ≤ (r.viewProj.transformPoint p2).x ∧ (r.viewProj.transformPoint p2).x ≤ 1) ∧
      -1 ≤ (r.viewProj.transformPoint p2).y ∧ (r.viewProj.transformPoint p2).y ≤ 1) :
    r.BoxInRange p0 p1 p2 := by
  obtain ⟨⟨a0, a1⟩, a2, a3⟩ := h0
  obtain ⟨⟨b0, b1⟩, b2, b3⟩ := h1
  obtain ⟨⟨c0, c1⟩, c2, c3⟩ := h2
  have mnx := scaled_range _ r.width hw (le_min a0 (le_min b0 c0))
    (le_trans (min_le_left _ _) a1)
  have mxx := scaled_range _ r.width hw (le_trans a0 (le_max_left _ _))
    (max_le a1 (max_le b1 c1))
  have mny := scaled_range _ r.height hh (le_min a2 (le_min b2 c2))
    (le_trans (min_le_left _ _) a3)
  have mxy := scaled_range _ r.height hh (le_trans a2 (le_max_left _ _))
    (max_le a3 (max_le b3 c3))
  exact ⟨(inInt32_floor_ceil _ _ hw2 mnx.1 mnx.2.1).1, (inInt32_floor_ceil _ _ hw2 mxx.1 mxx.2.1).2,
    (inInt32_floor_ceil _ _ hh2 mxy.2.2.1 mxy.2.2.2).1,
    (inInt32_floor_ceil _ _ hh2 mny.2.2.1 mny.2.2.2).2⟩

/-- C1 fails on the code: on the one-pixel renderer with the identity transform, the
triangle `(-2^33,-2^33,0) (2^33,-2^33,0) (0,2^33,0)` of `hugeTriangle` passes back-face
culling, contains the pixel centre and has interpolated depth 0 there, so the minimum
over the covering front-facing triangles is 0; but the upper column bound
`ceil((2^33 + 1) * 0.5 * 1) = 4294967297` does not fit the 32-bit `int`, the conversion
gives `INT_MIN`, the column loop is empty and `render32` leaves both stored depths of
the pixel at the sentinel. -/
theorem render32_skips_huge_triangle :
    (onePixel : Renderer ℝ).WF ∧ (hugeTriangle : Mesh ℝ).IndexValid ∧
      (onePixel : Renderer ℝ).covers hugeTriangle 0 0 tri012 = true ∧
      (onePixel : Renderer ℝ).triDepth hugeTriangle 0 0 tri012 = 0 ∧
      (onePixel : Renderer ℝ).minDepth hugeTriangle 0 0 = 0 ∧
      toInt32 4294967297 = -2147483648 ∧
      ∃ r', (onePixel : Renderer ℝ).render32 Real.sqrt hugeTriangle = some r' ∧
        r'.zBuffer[0]? = some DBL_MAX ∧
        (r'.framebuffer[0]?).map Pixel.depth = some DBL_MAX ∧
        (onePixel : Renderer ℝ).minDepth hugeTriangle 0 0 < DBL_MAX := by
  refine ⟨onePixel_WF, hugeTriangle_indexValid, covers_hugeTriangle, triDepth_hugeTriangle,
    minDepth_hugeTriangle, by decide, onePixel, render32_hugeTriangle Real.sqrt, ?_, ?_, ?_⟩
  · simp [onePixel]
  · simp [onePixel, Pixel.default]
  · rw [minDepth_hugeTriangle]
    exact DBL_MAX_pos

/-- Where every front-facing triangle has its bounding-box values in the range of `int`,
`render32` stores the minimum depth `minDepth` at every pixel of the frame. -/
theorem render32_depth_is_min (sqrt : K → K) (r : Renderer K) (mesh : Mesh K) (hwf : r.WF)
    (hv : mesh.IndexValid) (hc : r.CastsExact mesh) :
    ∃ r', r.render32 sqrt mesh = some r' ∧
      ∀ y x : Int, 0 ≤ x → x < r.width → 0 ≤ y → y < r.height →
        (r'.framebuffer[(y * r.width + x).toNat]?).map Pixel.depth =
            some (r.minDepth mesh y x) ∧
          r'.zBuffer[(y * r.width + x).toNat]? = some (r.minDepth mesh y x) := by
  rw [render32_eq_render sqrt r mesh hc]
  obtain ⟨r', h1, h2⟩ := render_depth_is_min sqrt r mesh hwf hv
  exact ⟨r', h1, fun y x hx hxw hy hyh =>
    ⟨(h2 y x hx hxw hy hyh).1, (h2 y x hx hxw hy hyh).2.1⟩⟩

theorem shadeOf_le_one_of_dot (sqrt : K → K) (lightDir p0 p1 p2 : Vec3 K)
    (h : (((p1.sub p0).cross (p2.sub p0)).normalized sqrt).dot lightDir ≤ 1) :
    shadeOf sqrt lightDir p0 p1 p2 ≤ 1 := by
  unfold shadeOf
  have h2 : max 0.0 ((((p1.sub p0).cross (p2.sub p0)).normalized sqrt).dot lightDir) ≤ 1 :=
    max_le (by norm_num) h
  generalize max 0.0 ((((p1.sub p0).cross (p2.sub p0)).normalized sqrt).dot lightDir) = m
    at h2
  norm_num
  linarith

theorem Pixel.BoundedBy.channelRanges {M : K} {p : Pixel K} (hM : 0 ≤ M) (h : p.BoundedBy M) :
    0 ≤ p.r ∧ p.r ≤ M ∧ 0 ≤ p.g ∧ p.g ≤ M ∧ 0 ≤ p.b ∧ p.b ≤ M := by
  rcases h with h | h
  · rw [h]
    simp [Pixel.default, hM]
  · exact h.2.2.2

theorem written_boundedBy (M : K) (f : Fragment K) (h1 : 0.3 ≤ f.shade) (h2 : f.shade ≤ M)
    (a b c z : K) (hz : z < DBL_MAX) (old : Pixel K) (ho : old.BoundedBy M) :
    (f.written a b c z old).BoundedBy M := by
  have hs0 : (0 : K) ≤ f.shade := le_trans (by norm_num) h1
  obtain ⟨r0, r1, g0, g1, b0, b1⟩ := ho.channelRanges (le_trans hs0 h2)
  have hle : ∀ s : K, 0 ≤ s → s ≤ 1 → s * f.shade ≤ M := by
    intro s _ s1
    calc s * f.shade ≤ 1 * f.shade := mul_le_mul_of_nonneg_right s1 hs0
      _ = f.shade := one_mul _
      _ ≤ M := h2
  right
  unfold Fragment.written
  simp only []
  split
  · rename_i tex _
    split_ifs
    · obtain ⟨⟨s0, s1⟩, ⟨s2, s3⟩, ⟨s4, s5⟩⟩ := sample_range tex
        (a * f.u0 + b * f.u1 + c * f.u2 : K) (a * f.v0 + b * f.v1 + c * f.v2)
      exact ⟨hz, h1, h2, mul_nonneg s0 hs0, hle _ s0 s1, mul_nonneg s2 hs0,
        hle _ s2 s3, mul_nonneg s4 hs0, hle _ s4 s5⟩
    · exact ⟨hz, h1, h2, r0, r1, g0, g1, b0, b1⟩
  · exact ⟨hz, h1, h2, r0, r1, g0, g1, b0, b1⟩

theorem getD_boundedBy (M : K) (l : List (Pixel K)) (h : ∀ p ∈ l, p.BoundedBy M) (i : Nat) :
    (l.getD i Pixel.default).BoundedBy M := by
  rw [List.getD_eq_getElem?_getD]
  cases hi : l[i]? with
  | none => exact Or.inl rfl
  | some p => exact h p (List.getElem?_mem hi)

theorem shadePixel_boundedBy (M : K) (r : Renderer K) (f : Fragment K) (h1 : 0.3 ≤ f.shade)
    (h2 : f.shade ≤ M) (y x : Int) (hr : r.BoundedBy M) : (r.shadePixel f y x).BoundedBy M := by
  unfold Renderer.shadePixel
  simp only []
  split
  · exact hr
  · split_ifs with hz
    · have hz2 := lt_of_lt_of_le hz (getD_le r.zBuffer hr.2 _)
      constructor
      · intro p hp
        rcases List.mem_or_eq_of_mem_set hp with h | h
        · exact hr.1 p h
        · rw [h]
          exact written_boundedBy M f h1 h2 _ _ _ _ hz2 _ (getD_boundedBy M _ hr.1 _)
      · intro z hzm
        rcases List.mem_or_eq_of_mem_set hzm with h | h
        · exact hr.2 z h
        · rw [h]
          exact hz2.le
    · exact hr

theorem foldl_shadePixel_boundedBy (M : K) (f : Fragment K) (h1 : 0.3 ≤ f.shade)
    (h2 : f.shade ≤ M) (L : List (Int × Int)) (r : Renderer K) (hr : r.BoundedBy M) :
    (L.foldl (fun acc p => acc.shadePixel f p.1 p.2) r).BoundedBy M := by
  induction L generalizing r with
  | nil => exact hr
  | cons p l ih =>
    rw [List.foldl_cons]
    exact ih _ (shadePixel_boundedBy M r f h1 h2 p.1 p.2 hr)

theorem rasterizeCall32_sameFrame (sqrt : K → K) (tex : Option Texture) (r : Renderer K)
    (c : Renderer.Call K) : (Renderer.rasterizeCall32 sqrt tex r c).SameFrame r := by
  unfold Renderer.rasterizeCall32 Renderer.rasterizeTriangle32
  simp only []
  split_ifs
  · exact Renderer.SameFrame.refl r
  · rw [foldl_rows]
    exact foldl_shadePixel_sameFrame _ _ r

theorem rasterizeCall32_boundedBy (M : K) (sqrt : K → K) (tex : Option Texture)
    (r : Renderer K) (c : Renderer.Call K)
    (hM : shadeOf sqrt r.lightDir c.p0 c.p1 c.p2 ≤ M) (hr : r.BoundedBy M) :
    (Renderer.rasterizeCall32 sqrt tex r c).BoundedBy M := by
  unfold Renderer.rasterizeCall32 Renderer.rasterizeTriangle32
  simp only []
  split_ifs
  · exact hr
  · rw [foldl_rows]
    exact foldl_shadePixel_boundedBy M _ (shadeOf_ge sqrt r.lightDir c.p0 c.p1 c.p2) hM _ r hr

theorem renderLoop32_boundedBy (M : K) (sqrt : K → K) (mesh : Mesh K) (tex : Option Texture)
    (tris : List Triangle) (r r' : Renderer K)
    (hM : ∀ tri ∈ tris, shadeOf sqrt r.lightDir (mesh.position tri.v0) (mesh.position tri.v1)
      (mesh.position tri.v2) ≤ M)
    (hr : r.BoundedBy M)
    (h : Renderer.renderLoop32 sqrt mesh tex tris r = some r') : r'.BoundedBy M := by
  induction tris generalizing r with
  | nil =>
    simp only [Renderer.renderLoop32, Option.some.injEq] at h
    subst h
    exact hr
  | cons tri rest ih =>
    unfold Renderer.renderLoop32 at h
    cases hres : Renderer.resolve sqrt mesh tri with
    | none => rw [hres] at h; simp at h
    | some c =>
      rw [hres] at h
      have hsf := rasterizeCall32_sameFrame sqrt tex r c
      have hc := resolve_eq_callOf sqrt mesh tri c hres
      obtain ⟨e0, e1, e2⟩ := callOf_positions sqrt mesh tri
      have hshade : shadeOf sqrt r.lightDir c.p0 c.p1 c.p2 ≤ M := by
        rw [hc, e0, e1, e2]
        exact hM tri (List.mem_cons_self _ _)
      refine ih _ ?_ (rasterizeCall32_boundedBy M sqrt tex r c hshade hr) h
      intro t ht
      rw [hsf.2.2.1]
      exact hM t (List.mem_cons_of_mem _ ht)

theorem renderLoop32_isSome (sqrt : K → K) (mesh : Mesh K) (tex : Option Texture)
    (tris : List Triangle) (h : ∀ tri ∈ tris, ∃ c, Renderer.resolve sqrt mesh tri = some c)
    (r : Renderer K) : ∃ r', Renderer.renderLoop32 sqrt mesh tex tris r = some r' := by
  induction tris generalizing r with
  | nil => exact ⟨r, rfl⟩
  | cons tri rest ih =>
    obtain ⟨c, hc⟩ := h tri (List.mem_cons_self _ _)
    unfold Renderer.renderLoop32
    rw [hc]
    exact ih (fun t ht => h t (List.mem_cons_of_mem _ ht)) _

theorem clear_boundedBy (M : K) (r : Renderer K) : r.clear.BoundedBy M := by
  constructor
  · intro p hp
    simp only [Renderer.clear, List.mem_map] at hp
    obtain ⟨_, _, rfl⟩ := hp
    exact Or.inl rfl
  · intro z hz
    simp only [Renderer.clear, List.mem_map] at hz
    obtain ⟨_, _, rfl⟩ := hz
    exact le_refl _

theorem foldl_max_ge (l : List K) (a : K) : a ≤ l.foldl max a ∧ ∀ x ∈ l, x ≤ l.foldl max a := by
  induction l generalizing a with
  | nil => simp
  | cons b l ih =>
    rw [List.foldl_cons]
    obtain ⟨h1, h2⟩ := ih (max a b)
    refine ⟨le_trans (le_max_left a b) h1, ?_⟩
    intro x hx
    rcases List.mem_cons.mp hx with rfl | hx
    · exact le_trans (le_max_right a x) h1
    · exact h2 x hx

theorem shadeOf_le_maxShade (sqrt : K → K) (r : Renderer K) (mesh : Mesh K) (tri : Triangle)
    (ht : tri ∈ mesh.triangles) :
    shadeOf sqrt r.lightDir (mesh.position tri.v0) (mesh.position tri.v1)
      (mesh.position tri.v2) ≤ r.maxShade sqrt mesh := by
  unfold Renderer.maxShade
  exact (foldl_max_ge _ _).2 _ (List.mem_map.mpr ⟨tri, ht, rfl⟩)

/-! ## The default light and a nearly parallel face -/

theorem new_WF (sqrt : K → K) (w h : Int) : (Renderer.new sqrt w h).WF := by
  simp [Renderer.WF, Renderer.new]

theorem position_nearParallel :
    nearParallel.position tri012.v0 = ⟨0, 0, 0⟩ ∧
      nearParallel.position tri012.v1 = ⟨1, 0, -(268435453 / 536870912)⟩ ∧
      nearParallel.position tri012.v2 = ⟨0, 1, -(67108865 / 134217728)⟩ := by
  simp [Mesh.position, lookup, nearParallel, tri012]

theorem nearParallel_indexValid : nearParallel.IndexValid := by
  intro tri ht
  simp only [nearParallel, List.mem_singleton] at ht
  subst ht
  simp [nearParallel, tri012]

theorem covers_nearParallel (sqrt : ℚ → ℚ) :
    (Renderer.new sqrt 1 1).covers nearParallel 0 0 tri012 = true := by
  obtain ⟨e0, e1, e2⟩ := position_nearParallel
  simp only [Renderer.covers, Renderer.coversPixel, e0, e1, e2, Renderer.signedArea,
    Renderer.new, identity_transformPoint, pixelCentre, insideTriangle]
  norm_num

theorem weights_nearParallel (sqrt : ℚ → ℚ) (z1 z2 : ℚ) :
    (Renderer.new sqrt 1 1).weightsAtPixel 0 0 ⟨0, 0, 0⟩ ⟨1, 0, z1⟩ ⟨0, 1, z2⟩ = (1, 0, 0) := by
  simp only [Renderer.weightsAtPixel, Renderer.new, identity_transformPoint, pixelCentre,
    insideTriangle]
  norm_num

theorem triDepth_nearParallel (sqrt : ℚ → ℚ) :
    (Renderer.new sqrt 1 1).triDepth nearParallel 0 0 tri012 = 0 := by
  obtain ⟨e0, e1, e2⟩ := position_nearParallel
  simp only [Renderer.triDepth, Renderer.depthAtPixel, e0, e1, e2, weights_nearParallel]
  simp only [Renderer.new, identity_transformPoint]
  norm_num

theorem minDepth_nearParallel (sqrt : ℚ → ℚ) :
    (Renderer.new sqrt 1 1).minDepth nearParallel 0 0 = 0 := by
  unfold Renderer.minDepth
  have : nearParallel.triangles = [tri012] := rfl
  rw [this, minOver_cons, minOver_nil, if_pos (covers_nearParallel sqrt),
    triDepth_nearParallel, min_eq_right DBL_MAX_pos.le]

theorem winner_single (r : Renderer K) (mesh : Mesh K) (y x : Int) (t : Triangle)
    (ht : mesh.triangles = [t]) (hc : r.covers mesh y x t = true)
    (hd : r.triDepth mesh y x t = r.minDepth mesh y x) : r.winner mesh y x = some t := by
  unfold Renderer.winner
  rw [ht, List.find?_cons, hc, hd]
  simp

theorem winner_nearParallel (sqrt : ℚ → ℚ) :
    (Renderer.new sqrt 1 1).winner nearParallel 0 0 = some tri012 :=
  winner_single _ _ 0 0 tri012 rfl (covers_nearParallel sqrt)
    ((triDepth_nearParallel sqrt).trans (minDepth_nearParallel sqrt).symm)

theorem nearParallel_castsExact (sqrt : ℚ → ℚ) :
    (Renderer.new sqrt 1 1).CastsExact nearParallel := by
  intro tri ht _
  simp only [nearParallel, List.mem_singleton] at ht
  subst ht
  obtain ⟨e0, e1, e2⟩ := position_nearParallel
  rw [e0, e1, e2]
  apply boxInRange_of_ndc
  · simp [Renderer.new]
  · simp [Renderer.new]
  · simp [Renderer.new]
  · simp [Renderer.new]
  · simp only [Renderer.new, identity_transformPoint]
    norm_num
  · simp only [Renderer.new, identity_transformPoint]
    norm_num
  · simp only [Renderer.new, identity_transformPoint]
    norm_num

theorem defaultLight_nearParallel :
    (Renderer.new sqrtNearParallel 1 1).lightDir =
      ⟨0.5 / (2757880273211543 / 2251799813685248),
       0.5 / (2757880273211543 / 2251799813685248),
       1.0 / (2757880273211543 / 2251799813685248)⟩ := by
  simp only [Renderer.new, Vec3.normalized, Vec3.length, Vec3.div, sqrtNearParallel]
  norm_num

theorem shade_nearParallel :
    1 < shadeOf sqrtNearParallel (Renderer.new sqrtNearParallel 1 1).lightDir
      (nearParallel.position tri012.v0) (nearParallel.position tri012.v1)
      (nearParallel.position tri012.v2) := by
  obtain ⟨e0, e1, e2⟩ := position_nearParallel
  rw [e0, e1, e2, defaultLight_nearParallel]
  simp only [shadeOf, Vec3.sub, Vec3.cross, Vec3.normalized, Vec3.length, Vec3.div, Vec3.dot,
    sqrtNearParallel]
  norm_num

/-- C7 (amended): for every light direction, `render32` of an index-valid mesh with any
`viewProj` returns, and every framebuffer pixel of the result has intensity and `r`, `g`,
`b` at least 0; a written pixel (depth below the sentinel) has intensity at least 0.3
and a background pixel (depth at the sentinel) has intensity 0.  When the dot product
that the code computes of the light direction with the face normal of each triangle is
at most 1, every pixel has intensity and `r`, `g`, `b` at most 1 as well. -/
theorem render32_pixel_ranges (sqrt : K → K) (r : Renderer K) (mesh : Mesh K)
    (hv : mesh.IndexValid) :
    ∃ r', r.render32 sqrt mesh = some r' ∧
      (∀ p ∈ r'.framebuffer,
        (0 ≤ p.intensity ∧ 0 ≤ p.r ∧ 0 ≤ p.g ∧ 0 ≤ p.b) ∧
        (p.depth < DBL_MAX → 0.3 ≤ p.intensity) ∧
        (p.depth = DBL_MAX → p.intensity = 0)) ∧
      ((∀ tri ∈ mesh.triangles, (mesh.faceNormal sqrt tri).dot r.lightDir ≤ 1) →
        ∀ p ∈ r'.framebuffer, p.intensity ≤ 1 ∧ p.r ≤ 1 ∧ p.g ≤ 1 ∧ p.b ≤ 1) := by
  have hres : ∀ tri ∈ mesh.triangles, ∃ c, Renderer.resolve sqrt mesh tri = some c := by
    intro tri ht
    obtain ⟨c, hc, -⟩ := resolve_isSome sqrt mesh hv tri ht
    exact ⟨c, hc⟩
  obtain ⟨r', hr'⟩ := renderLoop32_isSome sqrt mesh mesh.tex mesh.triangles hres r.clear
  refine ⟨r', hr', ?_, ?_⟩
  · have hM : (0.3 : K) ≤ r.maxShade sqrt mesh := (foldl_max_ge _ _).1
    have hb := renderLoop32_boundedBy (r.maxShade sqrt mesh) sqrt mesh mesh.tex mesh.triangles
      r.clear r' (fun tri ht => shadeOf_le_maxShade sqrt r mesh tri ht)
      (clear_boundedBy _ r) hr'
    intro p hp
    have hpb := hb.1 p hp
    obtain ⟨c0, -, c2, -, c4, -⟩ := hpb.channelRanges (le_trans (by norm_num) hM)
    rcases hpb with h | h
    · refine ⟨⟨?_, c0, c2, c4⟩, ?_, ?_⟩
      · rw [h]
        simp [Pixel.default]
      · intro hd
        rw [h] at hd
        exact absurd hd (lt_irrefl _)
      · intro _
        rw [h]
        rfl
    · refine ⟨⟨le_trans (by norm_num) h.2.1, c0, c2, c4⟩, fun _ => h.2.1, ?_⟩
      intro hd
      exact absurd h.1 (by rw [hd]; exact lt_irrefl _)
  · intro hdot p hp
    have hb := renderLoop32_boundedBy (1 : K) sqrt mesh mesh.tex mesh.triangles
      r.clear r' (fun tri ht => shadeOf_le_one_of_dot sqrt _ _ _ _ (hdot tri ht))
      (clear_boundedBy _ r) hr'
    have hpb := hb.1 p hp
    obtain ⟨-, c1, -, c3, -, c5⟩ := hpb.channelRanges zero_le_one
    rcases hpb with h | h
    · refine ⟨?_, c1, c3, c5⟩
      rw [h]
      simp [Pixel.default]
    · exact ⟨h.2.2.1, c1, c3, c5⟩

theorem render32_pixel_ranges_witness :
    (oneTriangle (0 : ℝ)).IndexValid ∧
      (∀ tri ∈ (oneTriangle (0 : ℝ)).triangles,
        ((oneTriangle (0 : ℝ)).faceNormal Real.sqrt tri).dot (onePixel : Renderer ℝ).lightDir
          ≤ 1) ∧
      ∃ r', (onePixel : Renderer ℝ).render32 Real.sqrt (oneTriangle 0) = some r' ∧
        (∀ p ∈ r'.framebuffer,
          (0 ≤ p.intensity ∧ 0 ≤ p.r ∧ 0 ≤ p.g ∧ 0 ≤ p.b) ∧
          (p.depth < DBL_MAX → 0.3 ≤ p.intensity) ∧
          (p.depth = DBL_MAX → p.intensity = 0)) ∧
        ∀ p ∈ r'.framebuffer, p.intensity ≤ 1 ∧ p.r ≤ 1 ∧ p.g ≤ 1 ∧ p.b ≤ 1 := by
  have hd : ∀ tri ∈ (oneTriangle (0 : ℝ)).triangles,
      ((oneTriangle (0 : ℝ)).faceNormal Real.sqrt tri).dot (onePixel : Renderer ℝ).lightDir
        ≤ 1 := by
    intro tri ht
    simp only [oneTriangle, List.mem_singleton] at ht
    subst ht
    obtain ⟨e0, e1, e2⟩ := position_oneTriangle (0 : ℝ)
    have hs : Real.sqrt 16 = 4 := by
      rw [show (16 : ℝ) = 4 ^ 2 by norm_num]
      exact Real.sqrt_sq (by norm_num)
    simp only [Mesh.faceNormal, e0, e1, e2, onePixel, Vec3.sub, Vec3.cross, Vec3.normalized,
      Vec3.length, Vec3.div, Vec3.dot]
    norm_num [hs]
  obtain ⟨r', h1, h2, h3⟩ := render32_pixel_ranges Real.sqrt (onePixel : Renderer ℝ)
    (oneTriangle 0) (oneTriangle_indexValid 0)
  exact ⟨oneTriangle_indexValid 0, hd, r', h1, h2, h3 hd⟩

/-- C7 as stated fails.  The light stored by the constructor, `(0.5, 0.5, 1)` divided by
the double `1.224744871391589` that `std::sqrt(1.5)` returns, is not a unit vector; and
on the constructor's 1x1 renderer the index-valid mesh `nearParallel`, whose triangle is
front-facing and covers the pixel at depth 0, is rendered with the stored intensity
`0.3 + 0.7 * dot` above 1, because the dot product of the two normalised vectors exceeds
1 and the code has no upper clamp (the C++ program stores 1.0000000000000002). -/
theorem render32_default_light_exceeds_one :
    nearParallel.IndexValid ∧
      (Renderer.new sqrtNearParallel 1 1).lightDir.dot
        (Renderer.new sqrtNearParallel 1 1).lightDir ≠ 1 ∧
      ∃ r' p, (Renderer.new sqrtNearParallel 1 1).render32 sqrtNearParallel nearParallel =
          some r' ∧
        r'.framebuffer[0]? = some p ∧ p.depth < DBL_MAX ∧ 1 < p.intensity := by
  refine ⟨nearParallel_indexValid, ?_, ?_⟩
  · rw [defaultLight_nearParallel]
    simp only [Vec3.dot]
    norm_num
  · obtain ⟨r', h1, -, h2⟩ := render_pixel sqrtNearParallel (Renderer.new sqrtNearParallel 1 1)
      nearParallel (new_WF _ 1 1) nearParallel_indexValid
    have h3 := (h2 0 0 (le_refl 0) (by simp [Renderer.new]) (le_refl 0)
      (by simp [Renderer.new])).1
      (by rw [minDepth_nearParallel]; exact DBL_MAX_pos)
    obtain ⟨w, hw, hp⟩ := h3
    rw [winner_nearParallel] at hw
    cases hw
    rw [← render32_eq_render sqrtNearParallel _ _ (nearParallel_castsExact _)] at h1
    refine ⟨r', (Renderer.new sqrtNearParallel 1 1).pixelOf sqrtNearParallel nearParallel 0 0
      tri012, h1, ?_, ?_, ?_⟩
    · simpa [Renderer.new] using hp
    · rw [pixelOf_depth, triDepth_nearParallel]
      exact DBL_MAX_pos
    · unfold Renderer.pixelOf
      rw [writeOf_intensity]
      exact shade_nearParallel

/-! ## Normalisation by the computed length -/

/-- The value `doubleFifthPlusOne` is the binary64 number nearest to the real sum
`doubleFifth + 1`: it is a multiple of `2^-52` between 1 and 2 and lies within half a
unit in the last place, `2^-53`, of the sum, which it does not equal. -/
theorem doubleFifthPlusOne_rounds_sum :
    (doubleFifthPlusOne = (5404319552844595 : ℤ) / 2 ^ 52) ∧
      1 ≤ doubleFifthPlusOne ∧ doubleFifthPlusOne < 2 ∧
      |doubleFifthPlusOne - (doubleFifth + 1.0)| < 1 / 2 ^ 53 ∧
      doubleFifthPlusOne ≠ doubleFifth + 1.0 := by
  unfold doubleFifthPlusOne doubleFifth
  refine ⟨by norm_num, by norm_num, by norm_num, ?_, by norm_num⟩
  rw [abs_lt]
  constructor <;> norm_num

/-- The column selected by `sample` for a coordinate in `[0, 1)` is `k` when the
coordinate times the width lies in `[k, k + 1)`. -/
theorem column_of_unit (t : Texture) (hw : 0 < t.width) (u : K) (h0 : 0 ≤ u) (h1 : u < 1)
    (k : Int) (hk : (k : K) ≤ u * (t.width : K)) (hk1 : u * (t.width : K) < (k : K) + 1) :
    t.column u = k := by
  unfold Texture.column
  rw [wrap_eq_fract, Int.fract_eq_self.mpr ⟨h0, h1⟩, (texel_of_lt_one u t.width hw h0 h1).1]
  exact Int.floor_eq_iff.mpr ⟨hk, hk1⟩

/-- The column selected by `sample` for a coordinate is that of the coordinate minus 1,
the difference being exact. -/
theorem column_sub_one (t : Texture) (u : K) : t.column u = t.column (u - 1) := by
  unfold Texture.column
  rw [wrap_eq_fract, wrap_eq_fract]
  have e : Int.fract u = Int.fract (u - 1) := (Int.fract_sub_one u).symm
  rw [e]

theorem column_doubleFifth : fiveColumns.column doubleFifth = 1 := by
  apply column_of_unit fiveColumns (by decide) doubleFifth
  · unfold doubleFifth
    norm_num
  · unfold doubleFifth
    norm_num
  · unfold doubleFifth fiveColumns
    norm_num
  · unfold doubleFifth fiveColumns
    norm_num

theorem column_doubleFifthPlusOne : fiveColumns.column doubleFifthPlusOne = 0 := by
  rw [column_sub_one fiveColumns doubleFifthPlusOne]
  apply column_of_unit fiveColumns (by decide)
  · unfold doubleFifthPlusOne
    norm_num
  · unfold doubleFifthPlusOne
    norm_num
  · unfold doubleFifthPlusOne fiveColumns
    norm_num
  · unfold doubleFifthPlusOne fiveColumns
    norm_num

theorem row_fiveColumns : fiveColumns.row (0 : ℚ) = 0 :=
  row_of_fract_zero fiveColumns (by decide) 0 (by simp)

theorem sample_fiveColumns (u : ℚ) (c : Int) (hc : fiveColumns.column u = c) (h0 : 0 ≤ c)
    (h5 : c < 5) : (fiveColumns.sample u 0 : ℚ × ℚ × ℚ) =
      ((10 * c : ℚ) / 255, (10 * c : ℚ) / 255, (10 * c : ℚ) / 255) := by
  have hne : fiveColumns.data.isEmpty = false := by decide
  unfold Texture.sample
  rw [row_fiveColumns, hc, hne]
  have hcases : c = 0 ∨ c = 1 ∨ c = 2 ∨ c = 3 ∨ c = 4 := by omega
  rcases hcases with h | h | h | h | h <;> subst h
  · have v0 : (fiveColumns.byteAt ((0 * fiveColumns.width + 0) * 3)).val = 0 := by decide
    have v1 : (fiveColumns.byteAt ((0 * fiveColumns.width + 0) * 3 + 1)).val = 0 := by decide
    have v2 : (fiveColumns.byteAt ((0 * fiveColumns.width + 0) * 3 + 2)).val = 0 := by decide
    simp only [Bool.false_eq_true, if_false, v0, v1, v2]
    norm_num
  · have v0 : (fiveColumns.byteAt ((0 * fiveColumns.width + 1) * 3)).val = 10 := by decide
    have v1 : (fiveColumns.byteAt ((0 * fiveColumns.width + 1) * 3 + 1)).val = 10 := by decide
    have v2 : (fiveColumns.byteAt ((0 * fiveColumns.width + 1) * 3 + 2)).val = 10 := by decide
    simp only [Bool.false_eq_true, if_false, v0, v1, v2]
    norm_num
  · have v0 : (fiveColumns.byteAt ((0 * fiveColumns.width + 2) * 3)).val = 20 := by decide
    have v1 : (fiveColumns.byteAt ((0 * fiveColumns.width + 2) * 3 + 1)).val = 20 := by decide
    have v2 : (fiveColumns.byteAt ((0 * fiveColumns.width + 2) * 3 + 2)).val = 20 := by decide
    simp only [Bool.false_eq_true, if_false, v0, v1, v2]
    norm_num
  · have v0 : (fiveColumns.byteAt ((0 * fiveColumns.width + 3) * 3)).val = 30 := by decide
    have v1 : (fiveColumns.byteAt ((0 * fiveColumns.width + 3) * 3 + 1)).val = 30 := by decide
    have v2 : (fiveColumns.byteAt ((0 * fiveColumns.width + 3) * 3 + 2)).val = 30 := by decide
    simp only [Bool.false_eq_true, if_false, v0, v1, v2]
    norm_num
  · have v0 : (fiveColumns.byteAt ((0 * fiveColumns.width + 4) * 3)).val = 40 := by decide
    have v1 : (fiveColumns.byteAt ((0 * fiveColumns.width + 4) * 3 + 1)).val = 40 := by decide
    have v2 : (fiveColumns.byteAt ((0 * fiveColumns.width + 4) * 3 + 2)).val = 40 := by decide
    simp only [Bool.false_eq_true, if_false, v0, v1, v2]
    norm_num

/-- C8 (amended): for every texture (loaded or not) and all `u`, `v`, whenever the
argument `u1` handed to `sample` is exactly the sum `u + 1.0`, that is, whenever the
sum is formed without rounding, `sample(u1, v)` returns the same `(r, g, b)` as
`sample(u, v)`. -/
theorem sample_periodic_of_exact_sum (t : Texture) (u u1 v : K) (h : u1 = u + 1.0) :
    (t.sample u1 v : K × K × K) = t.sample u v := by
  rw [h]
  exact sample_periodic_in_u t u v

theorem sample_periodic_of_exact_sum_witness :
    (1.25 : ℚ) = 0.25 + 1.0 ∧
      (fiveColumns.sample (1.25 : ℚ) 0 : ℚ × ℚ × ℚ) = fiveColumns.sample 0.25 0 := by
  have h : (1.25 : ℚ) = 0.25 + 1.0 := by norm_num
  exact ⟨h, sample_periodic_of_exact_sum fiveColumns 0.25 1.25 0 h⟩

/-- C8 as stated fails: on the 5 x 1 texture `fiveColumns`, for `u` the double `0.2` the
sum `u + 1.0` evaluates to the double `doubleFifthPlusOne`, which is below the real sum;
`sample(u, 0)` reads column 1 (`u * 5` is at least 1) and returns `(10, 10, 10) / 255`,
while `sample(u + 1.0, 0)` reads column 0 (the wrapped coordinate times 5 is below 1) and
returns `(0, 0, 0)`. -/
theorem sample_differs_at_rounded_sum :
    fiveColumns.column doubleFifth = 1 ∧ fiveColumns.column doubleFifthPlusOne = 0 ∧
      (fiveColumns.sample doubleFifth 0 : ℚ × ℚ × ℚ) = (10 / 255, 10 / 255, 10 / 255) ∧
      (fiveColumns.sample doubleFifthPlusOne 0 : ℚ × ℚ × ℚ) = (0, 0, 0) ∧
      (fiveColumns.sample doubleFifthPlusOne 0 : ℚ × ℚ × ℚ) ≠
        fiveColumns.sample doubleFifth 0 := by
  have h1 : (fiveColumns.sample doubleFifth 0 : ℚ × ℚ × ℚ) =
      (10 / 255, 10 / 255, 10 / 255) := by
    rw [sample_fiveColumns doubleFifth 1 column_doubleFifth (by decide) (by decide)]
    norm_num
  have h0 : (fiveColumns.sample doubleFifthPlusOne 0 : ℚ × ℚ × ℚ) = (0, 0, 0) := by
    rw [sample_fiveColumns doubleFifthPlusOne 0 column_doubleFifthPlusOne (by decide)
      (by decide)]
    norm_num
  refine ⟨column_doubleFifth, column_doubleFifthPlusOne, h1, h0, ?_⟩
  rw [h1, h0]
  intro h
  have h2 := congrArg Prod.fst h
  norm_num at h2

/-! ## Perspective depth with rounded entries -/

/-- The two values by which `rndNearPlane` differs from the identity are the binary64
numbers nearest to `-101/99` and `-200/99`: multiples of `2^-52` and `2^-51` in the
binades of 1 and 2, within half a unit in the last place of the quotient. -/
theorem rndNearPlane_nearest :
    rndNearPlane (-101 / 99) = ((-4594581438024445 : ℤ) : ℚ) / 2 ^ 52 ∧
      |rndNearPlane (-101 / 99) - -101 / 99| < 1 / 2 ^ 53 ∧
      rndNearPlane (-200 / 99) = ((-4549090532697471 : ℤ) : ℚ) / 2 ^ 51 ∧
      |rndNearPlane (-200 / 99) - -200 / 99| < 1 / 2 ^ 52 := by
  have e1 : rndNearPlane (-101 / 99) = -(4594581438024445 / 4503599627370496) := by
    unfold rndNearPlane
    rw [if_pos rfl]
  have e2 : rndNearPlane (-200 / 99) = -(4549090532697471 / 2251799813685248) := by
    unfold rndNearPlane
    rw [if_neg (by norm_num), if_pos rfl]
  rw [e1, e2]
  refine ⟨by norm_num, ?_, by norm_num, ?_⟩
  · rw [abs_lt]
    constructor <;> norm_num
  · rw [abs_lt]
    constructor <;> norm_num

end ObjViewer
